import Mathlib

/-!
# Scroll shooter (gnomecs example): shallow embedding and verified properties

Embedding of `src/scrollShooter.c`.

Conventions of the embedding
* `float` values are rationals (`ℚ`).  Every `float` operation written in the source file
  (the `+=` of `shootSystem` and `enemySpawnSystem`, the `-=` of `invulnerabilitySystem`,
  the product `speed * dt` of `moveSystem`) rounds its exact result to IEEE-754 binary32,
  round to nearest, ties to even (`binary32`): the value a `float` object holds after the
  operation, which is also the value the program compares.  Results beyond the largest
  finite `float` (infinity), NaN and the sign of zero are not modelled.  The conversions
  between `int` and `float` in the source act on small integers and are exact.  The
  operations of raymath and raylib are not under src/; they follow the spec and are exact.
* `int` values are unbounded integers (`Int`): signed overflow is undefined in C and
  is not modelled.  The one place where an `int` is converted to the unsigned `size_t`
  (the wave loop of `enemySpawnSystem`) reduces modulo `2 ^ 64` explicitly.
* The entity store (gnomecs), raylib and raymath are external to the source file; the
  definitions standing for them say so in their doc comments.  The store is a list of
  slots, one per entity ever created; queries and `_foreach` visit entities in slot
  order, that is, in order of creation.
* A read or write through a pointer returned by `gWorldGetComponent` for an entity that
  is dead or lacks the component has no defined result: the embedded function returns
  `none`.  Inside a `_foreach` the components named in the query are present for the
  visited entity; the `| none` branches of the bodies are never taken.
-/

namespace ScrollShooter

/-! ## Constants (lines 13-23) -/

def screenWidth : Int := 800
def screenHeight : Int := 450
def columnCount : Int := 8
def levelBorder : Int := 50
def spawnBorder : Int := levelBorder - 5
def timeToSpawnMin : ℚ := 1
def timeToSpawnMax : ℚ := 3
def enemyInWaveMin : Int := 1
def enemyInWaveMax : Int := 3
def invulnerabilityTime : ℚ := 3
def blinkTime : ℚ := 1 / 4

def enemyType_asteroid : Int := 0
def enemyType_ship : Int := 1
def enemyType_count : Int := 2

/-! ## Values -/

/-- Floor of the binary logarithm of `n` (`0` for `n ≤ 1`); the first argument bounds the
number of halvings. -/
def log2Fuel : Nat → Nat → Nat
  | 0, _ => 0
  | fuel + 1, n => if 2 ≤ n then log2Fuel fuel (n / 2) + 1 else 0

/-- The binade of a positive rational `x`: the integer `e` with `2 ^ e ≤ x < 2 ^ (e + 1)`. -/
def binade (x : ℚ) : Int :=
  let e0 : Int := (log2Fuel x.num.natAbs x.num.natAbs : Int) - (log2Fuel x.den x.den : Int)
  if (2 : ℚ) ^ e0 ≤ x then e0 else e0 - 1

/-- Rounding to the nearest integer, ties to the even one. -/
def roundHalfEven (q : ℚ) : Int :=
  let f := ⌊q⌋
  let r := q - f
  if r < 1 / 2 then f else if 1 / 2 < r then f + 1 else if f % 2 = 0 then f else f + 1

/-- The binary32 value nearest to `x ≥ 0`: a multiple of `2 ^ (e - 23)`, where `e` is the
binade of `x` and at least `-126` (24 significant bits; below `2 ^ (-126)` the subnormal
spacing `2 ^ (-149)`). -/
def binary32Mag (x : ℚ) : ℚ :=
  let e := max (binade x) (-126)
  let ulp : ℚ := 2 ^ (e - 23)
  (roundHalfEven (x / ulp) : ℚ) * ulp

/-- The rounding of a real result to `float` (IEEE-754 binary32, round to nearest, ties to
even), which C applies to the result of every `float` operation.  Results beyond the
largest finite `float` are not replaced by infinity. -/
def binary32 (x : ℚ) : ℚ := if x < 0 then -binary32Mag (-x) else binary32Mag x

/-- Modelled from the spec: raylib's `Vector2` (two `float` fields), not under src/. -/
structure Vector2 where
  x : ℚ
  y : ℚ
deriving DecidableEq

/-- Modelled from the spec: raymath's `Vector2Add`, not under src/ (componentwise sum,
"position += ..."). -/
def Vector2Add (a b : Vector2) : Vector2 := { x := a.x + b.x, y := a.y + b.y }

/-- Modelled from the spec: raymath's `Vector2Scale`, not under src/ ("direction * speed * dt"). -/
def Vector2Scale (a : Vector2) (s : ℚ) : Vector2 := { x := a.x * s, y := a.y * s }

/-- Modelled from the spec: raylib's `CheckCollisionCircles`, not under src/.  The spec
(4.4) says two circles overlap when the "Euclidean distance between centers is less than
the sum of radii"; over the rationals `sqrt (dx² + dy²) < s` is `0 < s ∧ dx² + dy² < s²`. -/
def CheckCollisionCircles (center1 : Vector2) (radius1 : ℚ) (center2 : Vector2) (radius2 : ℚ) :
    Bool :=
  decide (0 < radius1 + radius2 ∧
    (center2.x - center1.x) ^ 2 + (center2.y - center1.y) ^ 2 < (radius1 + radius2) ^ 2)

/-- Modelled from the spec: the gnomecs entity handle `gEntity`, not under src/.  Handles are
never reused (spec 9: a stale reference is "detectably invalid"); `null` is the zero
handle `{0}`, which never names a live entity. -/
inductive gEntity where
  | null : gEntity
  | mk (id : Nat) : gEntity
deriving DecidableEq

/-- Modelled from the spec: `gEntityEq`, the "equality test on Entity handles" (spec 6). -/
def gEntityEq (a b : gEntity) : Bool := decide (a = b)

/-! ## Components (lines 36-100) -/

structure inputComp where
  movement : Vector2
  shoot : Bool
deriving DecidableEq

structure transformComp where
  position : Vector2
deriving DecidableEq

structure movableComp where
  direction : Vector2
  speed : ℚ
deriving DecidableEq

structure shootableComp where
  direction : Vector2
  offset : Vector2
  timeToReload : ℚ
  timeAfterShoot : ℚ
  shoot : Bool
deriving DecidableEq

structure enemySpawnerComp where
  timeToSpawn : ℚ
  timeAfterSpawn : ℚ
  enemyInWave : Int
deriving DecidableEq

structure enemyComp where
  type : Int
deriving DecidableEq

structure circleColliderComp where
  radius : ℚ
deriving DecidableEq

structure collideEventComp where
  e1 : gEntity
  e2 : gEntity
deriving DecidableEq

structure healthComp where
  currentHealth : Int
  maxHealth : Int
deriving DecidableEq

structure scoreStorageComp where
  score : Int
deriving DecidableEq

structure bulletComp where
  owner : gEntity
deriving DecidableEq

structure lastDamageComp where
  «from» : gEntity
deriving DecidableEq

structure invulnerabilityComp where
  time : ℚ
deriving DecidableEq

/-- Component identifiers: what `_componentId(...)` names. -/
inductive ComponentId where
  | inputComp | transformComp | movableComp | shootableComp | enemySpawnerComp
  | enemyComp | circleColliderComp | collideEventComp | healthComp | scoreStorageComp
  | bulletComp | lastDamageComp | invulnerabilityComp | playerTag | destroyWhenOffScreenTag
deriving DecidableEq

/-- Modelled from the spec: the per-entity component storage of gnomecs, not under src/
(spec 9: "a capability-indexed mapping from entity handle to an optional per-kind data
record").  One optional record per component kind, one flag per tag component. -/
structure Components where
  input : Option inputComp
  transform : Option transformComp
  movable : Option movableComp
  shootable : Option shootableComp
  enemySpawner : Option enemySpawnerComp
  enemy : Option enemyComp
  circleCollider : Option circleColliderComp
  collideEvent : Option collideEventComp
  health : Option healthComp
  scoreStorage : Option scoreStorageComp
  bullet : Option bulletComp
  lastDamage : Option lastDamageComp
  invulnerability : Option invulnerabilityComp
  playerTag : Bool
  destroyWhenOffScreenTag : Bool
deriving DecidableEq

/-- Presence of one component kind in a record. -/
def Components.has (c : Components) : ComponentId → Bool
  | .inputComp => c.input.isSome
  | .transformComp => c.transform.isSome
  | .movableComp => c.movable.isSome
  | .shootableComp => c.shootable.isSome
  | .enemySpawnerComp => c.enemySpawner.isSome
  | .enemyComp => c.enemy.isSome
  | .circleColliderComp => c.circleCollider.isSome
  | .collideEventComp => c.collideEvent.isSome
  | .healthComp => c.health.isSome
  | .scoreStorageComp => c.scoreStorage.isSome
  | .bulletComp => c.bullet.isSome
  | .lastDamageComp => c.lastDamage.isSome
  | .invulnerabilityComp => c.invulnerability.isSome
  | .playerTag => c.playerTag
  | .destroyWhenOffScreenTag => c.destroyWhenOffScreenTag

/-- Helper of `Components.zero`: a zero-initialised record when the kind was requested. -/
def Components.slot {α : Type} (ids : List ComponentId) (id : ComponentId) (zero : α) :
    Option α :=
  if id ∈ ids then some zero else none

/-- Modelled from the spec: what `_createEntity(name, ids...)` attaches, not under src/:
exactly the listed kinds, every field zero (the source reads fields it never wrote, such
as the player's invulnerability time, so zero-initialisation is what it relies on). -/
def Components.zero (ids : List ComponentId) : Components where
  input := Components.slot ids .inputComp { movement := ⟨0, 0⟩, shoot := false }
  transform := Components.slot ids .transformComp { position := ⟨0, 0⟩ }
  movable := Components.slot ids .movableComp { direction := ⟨0, 0⟩, speed := 0 }
  shootable := Components.slot ids .shootableComp
    { direction := ⟨0, 0⟩, offset := ⟨0, 0⟩, timeToReload := 0, timeAfterShoot := 0, shoot := false }
  enemySpawner := Components.slot ids .enemySpawnerComp
    { timeToSpawn := 0, timeAfterSpawn := 0, enemyInWave := 0 }
  enemy := Components.slot ids .enemyComp { type := 0 }
  circleCollider := Components.slot ids .circleColliderComp { radius := 0 }
  collideEvent := Components.slot ids .collideEventComp { e1 := .null, e2 := .null }
  health := Components.slot ids .healthComp { currentHealth := 0, maxHealth := 0 }
  scoreStorage := Components.slot ids .scoreStorageComp { score := 0 }
  bullet := Components.slot ids .bulletComp { owner := .null }
  lastDamage := Components.slot ids .lastDamageComp { «from» := .null }
  invulnerability := Components.slot ids .invulnerabilityComp { time := 0 }
  playerTag := decide (ComponentId.playerTag ∈ ids)
  destroyWhenOffScreenTag := decide (ComponentId.destroyWhenOffScreenTag ∈ ids)

/-! ## Entity store (spec 6) -/

/-- Modelled from the spec: the gnomecs world `gWorld`, not under src/.  Slot `i` holds the
components of entity `gEntity.mk i`, or `none` once that entity is destroyed; new entities
take the next slot, so handles are never reused. -/
structure gWorld where
  slots : List (Option Components)
deriving DecidableEq

/-- Modelled from the spec: `gWorldCreate` of gnomecs, not under src/ (an empty store). -/
def gWorldCreate : gWorld := { slots := [] }

/-- Components of a live entity; `none` for the zero handle and for dead entities. -/
def gWorld.comps (w : gWorld) : gEntity → Option Components
  | .null => none
  | .mk i => (w.slots.get? i).join

/-- Modelled from the spec: `gWorldIsEntityAlive`, the "liveness check" of spec 6. -/
def gWorldIsEntityAlive (w : gWorld) (e : gEntity) : Bool := (w.comps e).isSome

/-- Modelled from the spec: `gWorldHasComponent`, `has(Entity, ComponentKind)` of spec 6;
a dead entity has no component. -/
def gWorldHasComponent (w : gWorld) (e : gEntity) (id : ComponentId) : Bool :=
  match w.comps e with
  | some c => c.has id
  | none => false

/-- Store the record `c` for a live entity: the effect of writes made through component
pointers of `e`.  Nothing happens for an entity that is not alive. -/
def gWorld.set (w : gWorld) (e : gEntity) (c : Components) : gWorld :=
  match e with
  | .null => w
  | .mk i => if (w.comps (.mk i)).isSome then { slots := w.slots.set i (some c) } else w

/-- Modelled from the spec: `gWorldDestroyEntity`, `destroy(Entity)` of spec 6. -/
def gWorldDestroyEntity (w : gWorld) (e : gEntity) : gWorld :=
  match e with
  | .null => w
  | .mk i => { slots := w.slots.set i none }

/-- Modelled from the spec: `_createEntity(name, ids...)`, `create(component_set)` of spec 6:
a new live entity with zero-initialised components of the listed kinds. -/
def gWorldCreateEntity (w : gWorld) (ids : List ComponentId) : gWorld × gEntity :=
  ({ slots := w.slots ++ [some (Components.zero ids)] }, .mk w.slots.length)

/-- Does the record carry every listed kind? -/
def Components.hasAll (c : Components) (ids : List ComponentId) : Bool :=
  ids.all (fun id => c.has id)

/-- Modelled from the spec: `_makeQuery _with(..)`, `query(ComponentKind set)` of spec 6:
the snapshot of the live entities that carry every listed kind, in slot order. -/
def gWorld.query (w : gWorld) (ids : List ComponentId) : List gEntity :=
  ((List.range w.slots.length).filter (fun i =>
    match w.comps (.mk i) with
    | some c => c.hasAll ids
    | none => false)).map gEntity.mk

/-- Modelled from the spec: `_foreach` over a saved snapshot (spec 5: the scan is over
"a point-in-time snapshot", and "destruction performed elsewhere in the frame does not
corrupt the in-flight scan"): the body runs for each snapshot entity that is still alive,
on its current components. -/
def gWorld.foreachIn (w : gWorld) (snapshot : List gEntity)
    (body : gWorld → gEntity → Components → gWorld) : gWorld :=
  snapshot.foldl (fun acc e =>
    match acc.comps e with
    | some c => body acc e c
    | none => acc) w

/-- The `_makeQuery ... _foreach` idiom: snapshot, then iterate. -/
def gWorld.foreach (w : gWorld) (ids : List ComponentId)
    (body : gWorld → gEntity → Components → gWorld) : gWorld :=
  w.foreachIn (w.query ids) body

/-- Iteration whose body may read through a pointer the store could not provide. -/
def gWorld.foreachM (w : gWorld) (ids : List ComponentId)
    (body : gWorld → gEntity → Components → Option gWorld) : Option gWorld :=
  (w.query ids).foldlM (fun acc e =>
    match acc.comps e with
    | some c => body acc e c
    | none => some acc) w

/-- Modelled from the spec: `_singleEntity(name, kind)` of gnomecs, not under src/ (spec 9:
"a lookup by component kind returning the unique matching entity"): the first live
entity carrying the kind, the zero handle when there is none. -/
def singleEntity (w : gWorld) (id : ComponentId) : gEntity :=
  (w.query [id]).headD .null

/-! ## External services (spec 6: input, clock, random numbers) -/

/-- Modelled from the spec: the services of raylib consumed during one frame, not under
src/: the "per-key is held" queries, the "any key pressed" query, the
"elapsed-time-since-last-frame provider", raymath's `Vector2Normalize`, and the raw
source of randomness behind `GetRandomValue` (`rand k` is the k-th raw draw). -/
structure Env where
  keyW : Bool
  keyS : Bool
  keyA : Bool
  keyD : Bool
  keySpace : Bool
  keyPressed : Int
  frameTime : ℚ
  normalize : Vector2 → Vector2
  rand : Nat → Nat

/-- Modelled from the spec: raylib's `GetRandomValue(min, max)`, not under src/: a "uniform
random integer in an inclusive range" (spec 6).  The k-th call maps the k-th raw draw
into the requested range, so every sequence of in-range results arises from some `rand`. -/
def GetRandomValue (env : Env) (k : Nat) (min max : Int) : Int :=
  let lo := if min ≤ max then min else max
  let hi := if min ≤ max then max else min
  lo + (env.rand k : Int) % (hi - lo + 1)

/-! ## Factory methods (lines 106-253) -/

/-- Source: `createWorld` (lines 106-126).  Registering component kinds has no effect on
the entities of the store. -/
def createWorld : gWorld := gWorldCreate

/-- Source: `createPlayer` (lines 128-157). -/
def createPlayer (w : gWorld) : gWorld :=
  let (w1, player) := gWorldCreateEntity w
    [.inputComp, .transformComp, .movableComp, .shootableComp, .playerTag,
     .circleColliderComp, .healthComp, .invulnerabilityComp]
  match w1.comps player with
  | some c => w1.set player { c with
      transform := c.transform.map (fun _ =>
        { position := ⟨((screenWidth / 2 : Int) : ℚ), ((screenHeight / 2 : Int) : ℚ)⟩ })
      movable := c.movable.map (fun _ => { direction := ⟨0, 0⟩, speed := 200 })
      shootable := c.shootable.map (fun s =>
        { s with timeToReload := 1 / 4, direction := ⟨0, -1⟩, offset := ⟨0, -20⟩ })
      circleCollider := c.circleCollider.map (fun _ => { radius := 10 })
      health := c.health.map (fun _ => { currentHealth := 3, maxHealth := 3 }) }
  | none => w1

/-- Source: `createBullet` (lines 159-180). -/
def createBullet (w : gWorld) (position direction : Vector2) (owner : gEntity) : gWorld :=
  let (w1, bulletEnity) := gWorldCreateEntity w
    [.transformComp, .movableComp, .bulletComp, .destroyWhenOffScreenTag, .circleColliderComp]
  match w1.comps bulletEnity with
  | some c => w1.set bulletEnity { c with
      transform := c.transform.map (fun _ => { position := position })
      movable := c.movable.map (fun _ => { direction := direction, speed := 400 })
      circleCollider := c.circleCollider.map (fun _ => { radius := 5 })
      bullet := c.bullet.map (fun _ => { owner := owner }) }
  | none => w1

/-- Source: `createEnemy` (lines 182-242).  For a type outside the enumeration no entity
is created and the trailing writes go through the zero handle: no defined result. -/
def createEnemy (w : gWorld) (position : Vector2) (type : Int) : Option gWorld :=
  let r : gWorld × gEntity × ℚ × Int :=
    if type = enemyType_asteroid then
      let (w1, asteroid) := gWorldCreateEntity w
        [.transformComp, .movableComp, .destroyWhenOffScreenTag, .enemyComp,
         .circleColliderComp, .healthComp, .lastDamageComp]
      (w1, asteroid, 100, 1)
    else if type = enemyType_ship then
      let (w1, ship) := gWorldCreateEntity w
        [.transformComp, .movableComp, .destroyWhenOffScreenTag, .enemyComp,
         .circleColliderComp, .healthComp, .shootableComp, .lastDamageComp]
      let w2 := match w1.comps ship with
        | some c => w1.set ship { c with
            shootable := c.shootable.map (fun s =>
              { s with timeToReload := 2, direction := ⟨0, 1⟩, offset := ⟨0, 50⟩, shoot := true }) }
        | none => w1
      (w2, ship, 50, 3)
    else (w, gEntity.null, 0, 0)
  let w1 := r.1
  let enemy := r.2.1
  let enemySpeed := r.2.2.1
  let enemyHealth := r.2.2.2
  match w1.comps enemy with
  | some c => some (w1.set enemy { c with
      transform := c.transform.map (fun _ => { position := position })
      movable := c.movable.map (fun _ => { direction := ⟨0, 1⟩, speed := enemySpeed })
      enemy := c.enemy.map (fun _ => { type := type })
      circleCollider := c.circleCollider.map (fun _ => { radius := 20 })
      health := c.health.map (fun _ => { currentHealth := enemyHealth, maxHealth := enemyHealth }) })
  | none => none

/-- Source: `createSpawner` (lines 244-249). -/
def createSpawner (w : gWorld) : gWorld := (gWorldCreateEntity w [.enemySpawnerComp]).1

/-- Source: `createScore` (lines 251-253). -/
def createScore (w : gWorld) : gWorld := (gWorldCreateEntity w [.scoreStorageComp]).1

/-! ## Logic systems (lines 259-484) -/

/-- Source: `readInputSystem` (lines 259-276). -/
def readInputSystem (env : Env) (w : gWorld) : gWorld :=
  w.foreach [.inputComp, .playerTag] (fun acc e c =>
    match c.input with
    | some _ =>
      let y0 : ℚ := if env.keyW then -1 else 0
      let y1 : ℚ := if env.keyS then 1 else y0
      let x0 : ℚ := if env.keyA then -1 else 0
      let x1 : ℚ := if env.keyD then 1 else x0
      acc.set e { c with input := some { movement := env.normalize ⟨x1, y1⟩, shoot := env.keySpace } }
    | none => acc)

/-- Source: `moveSystem` (lines 278-290). -/
def moveSystem (env : Env) (w : gWorld) : gWorld :=
  let dt := env.frameTime
  w.foreach [.transformComp, .movableComp] (fun acc e c =>
    match c.transform, c.movable with
    | some transform, some movable =>
      let velocity := Vector2Scale movable.direction (binary32 (movable.speed * dt))
      acc.set e { c with transform := some { position := Vector2Add transform.position velocity } }
    | _, _ => acc)

/-- Source: `shootSystem` (lines 292-307). -/
def shootSystem (env : Env) (w : gWorld) : gWorld :=
  w.foreach [.shootableComp, .transformComp] (fun acc e c =>
    match c.shootable, c.transform with
    | some shootable, some transform =>
      let waited := binary32 (shootable.timeAfterShoot + env.frameTime)
      let c1 := { c with shootable := some { shootable with timeAfterShoot := waited } }
      let acc1 := acc.set e c1
      if shootable.shoot && decide (waited > shootable.timeToReload) then
        let shootPos := Vector2Add transform.position shootable.offset
        let acc2 := createBullet acc1 shootPos shootable.direction e
        acc2.set e { c1 with shootable := some { shootable with timeAfterShoot := 0 } }
      else acc1
    | _, _ => acc)

/-- Source: `applyInputSystem` (lines 309-323). -/
def applyInputSystem (w : gWorld) : gWorld :=
  w.foreach [.inputComp, .movableComp, .shootableComp, .playerTag] (fun acc e c =>
    match c.input, c.movable, c.shootable with
    | some input, some movable, some shootable =>
      acc.set e { c with
        movable := some { movable with direction := input.movement }
        shootable := some { shootable with shoot := input.shoot } }
    | _, _, _ => acc)

/-- Source: `destroyWhenOffScreenSystem` (lines 325-336). -/
def destroyWhenOffScreenSystem (w : gWorld) : gWorld :=
  w.foreach [.destroyWhenOffScreenTag, .transformComp] (fun acc e c =>
    match c.transform with
    | some transform =>
      if transform.position.y < -(levelBorder : ℚ) ∨
          transform.position.y > ((screenHeight + levelBorder : Int) : ℚ) ∨
          transform.position.x < -(levelBorder : ℚ) ∨
          transform.position.x > ((screenWidth + levelBorder : Int) : ℚ) then
        gWorldDestroyEntity acc e
      else acc
    | none => acc)

/-- The wave loop of `enemySpawnSystem` (lines 346-351): `n` iterations, two random draws
each, starting at draw number `k`. -/
def spawnWave (env : Env) : Nat → gWorld → Nat → Option (gWorld × Nat)
  | 0, w, k => some (w, k)
  | n + 1, w, k =>
    let column := screenWidth / columnCount
    let x := GetRandomValue env k 0 (columnCount - 1) * column + column / 2
    let et := GetRandomValue env (k + 1) 0 (enemyType_count - 1)
    match createEnemy w ⟨(x : ℚ), ((-spawnBorder : Int) : ℚ)⟩ et with
    | some w1 => spawnWave env n w1 (k + 2)
    | none => none

/-- The body of the `_foreach` of `enemySpawnSystem` (lines 342-355) for the snapshot
entity `e`; the state is the store with the number of `GetRandomValue` calls made so far.
The loop bound compares a `size_t` with the `int` wave size, which C converts to `size_t`:
the number of iterations is the wave size modulo `2 ^ 64`. -/
def enemySpawnAt (env : Env) (acc : gWorld × Nat) (e : gEntity) : Option (gWorld × Nat) :=
  match acc.1.comps e with
  | some c =>
    match c.enemySpawner with
    | some spawner =>
      let waited := binary32 (spawner.timeAfterSpawn + env.frameTime)
      let c1 := { c with enemySpawner := some { spawner with timeAfterSpawn := waited } }
      let acc1 := acc.1.set e c1
      if waited ≥ spawner.timeToSpawn then
        match spawnWave env (spawner.enemyInWave % 2 ^ 64).toNat acc1 acc.2 with
        | some (w2, k2) =>
          let redrawn : enemySpawnerComp :=
            { timeAfterSpawn := 0
              timeToSpawn := (GetRandomValue env k2 timeToSpawnMin.floor timeToSpawnMax.floor : ℚ)
              enemyInWave := GetRandomValue env (k2 + 1) enemyInWaveMin enemyInWaveMax }
          some (w2.set e { c1 with enemySpawner := some redrawn }, k2 + 2)
        | none => none
      else some (acc1, acc.2)
    | none => some acc
  | none => some acc

/-- Source: `enemySpawnSystem` (lines 338-357).  `k` counts the calls of `GetRandomValue`
made so far. -/
def enemySpawnSystem (env : Env) (w : gWorld) (k : Nat) : Option (gWorld × Nat) :=
  (w.query [.enemySpawnerComp]).foldlM (enemySpawnAt env) (w, k)

/-- The body of the inner `_foreach` of `simpleCollisionDetectionSystem` (lines 371-381),
for the outer entity `outEntity` with transform `transform1` and collider `collider1`. -/
def collideWith (outEntity : gEntity) (transform1 : transformComp)
    (collider1 : circleColliderComp) (acc : gWorld) (entity : gEntity) (c2 : Components) :
    gWorld :=
  if gEntityEq outEntity entity then acc
  else
    match c2.transform, c2.circleCollider with
    | some transform2, some collider2 =>
      if CheckCollisionCircles transform1.position collider1.radius
          transform2.position collider2.radius then
        let (w1, collideEvent) := gWorldCreateEntity acc [.collideEventComp]
        match w1.comps collideEvent with
        | some ce =>
          w1.set collideEvent { ce with collideEvent := some { e1 := outEntity, e2 := entity } }
        | none => w1
      else acc
    | _, _ => acc

/-- Source: `simpleCollisionDetectionSystem` (lines 359-384). -/
def simpleCollisionDetectionSystem (w : gWorld) : gWorld :=
  let colliders := w.query [.transformComp, .circleColliderComp]
  w.foreachIn colliders (fun acc outEntity c1 =>
    match c1.transform, c1.circleCollider with
    | some transform1, some collider1 =>
      acc.foreachIn colliders (collideWith outEntity transform1 collider1)
    | _, _ => acc)

/-- Source: `applyDamage` (lines 386-404).  The pointer `h` is, at each call site,
`gWorldGetComponent(w, e, healthComp)`: the embedding reads the health record of `e`
itself, and the decrement has no defined result when `e` has none. -/
def applyDamage (w : gWorld) (e : gEntity) (value : Int) («from» : gEntity)
    (checkInvToDamage : Bool) : Option gWorld :=
  let sourceImmune : Bool :=
    checkInvToDamage && gWorldHasComponent w «from» .invulnerabilityComp &&
      (match (w.comps «from»).bind (fun c => c.invulnerability) with
       | some inv => decide (inv.time > 0)
       | none => false)
  if sourceImmune then some w
  else
    match w.comps e with
    | none => none
    | some c =>
      let hit (c1 : Components) : Option gWorld :=
        match c1.health with
        | some h =>
          some (w.set e { c1 with
            health := some { h with currentHealth := h.currentHealth - value }
            lastDamage := c1.lastDamage.map (fun _ => { «from» := «from» }) })
        | none => none
      match c.invulnerability with
      | some inv =>
        if inv.time > 0 then some w
        else hit { c with invulnerability := some { time := invulnerabilityTime } }
      | none => hit c

/-- The body of the `_foreach` of `handleCollisionEvents` (lines 410-437) for one event. -/
def handleCollisionEvent (w : gWorld) (e : collideEventComp) : Option gWorld :=
  let e1Bullet := gWorldHasComponent w e.e1 .bulletComp
  let e2Health := gWorldHasComponent w e.e2 .healthComp
  let afterBullet : Option gWorld :=
    if e1Bullet && e2Health then
      match (w.comps e.e1).bind (fun c => c.bullet) with
      | some bullet =>
        match applyDamage w e.e2 1 bullet.owner false with
        | some w1 => some (gWorldDestroyEntity w1 e.e1)
        | none => none
      | none => none
    else some w
  match afterBullet with
  | none => none
  | some w1 =>
    let e1Health := gWorldHasComponent w1 e.e1 .enemyComp
    if e1Health && e2Health then
      match applyDamage w1 e.e2 1 e.e1 true with
      | some w2 => applyDamage w2 e.e1 1 e.e2 true
      | none => none
    else some w1

/-- Source: `handleCollisionEvents` (lines 406-439). -/
def handleCollisionEvents (w : gWorld) : Option gWorld :=
  w.foreachM [.collideEventComp] (fun acc _ c =>
    match c.collideEvent with
    | some e => handleCollisionEvent acc e
    | none => some acc)

/-- The body of the `_foreach` of `addScoreSystem` (lines 449-454) for an entity with
record `c`; `scoreEntity` is the entity whose score the pointer `scoreStorage` addresses. -/
def addScoreFor (playerEntity scoreEntity : gEntity) (acc : gWorld) (c : Components) :
    Option gWorld :=
  match c.health, c.lastDamage with
  | some health, some lastDamage =>
    if gEntityEq lastDamage.«from» playerEntity && decide (health.currentHealth ≤ 0) then
      match acc.comps scoreEntity with
      | some sc =>
        match sc.scoreStorage with
        | some scoreStorage =>
          some (acc.set scoreEntity
            { sc with scoreStorage := some { score := scoreStorage.score + 1 } })
        | none => none
      | none => none
    else some acc
  | _, _ => some acc

/-- Source: `addScoreSystem` (lines 441-456).  `_single(scoreStorage, scoreStorageComp)`
is a pointer into the single score entity; incrementing through it has no defined
result when there is no such entity. -/
def addScoreSystem (w : gWorld) : Option gWorld :=
  let playerEntity := singleEntity w .playerTag
  let scoreEntity := singleEntity w .scoreStorageComp
  w.foreachM [.healthComp, .lastDamageComp] (fun acc _ c =>
    addScoreFor playerEntity scoreEntity acc c)

/-- Source: `destroyDeathEntities` (lines 458-467). -/
def destroyDeathEntities (w : gWorld) : gWorld :=
  w.foreach [.healthComp] (fun acc e c =>
    match c.health with
    | some health => if health.currentHealth ≤ 0 then gWorldDestroyEntity acc e else acc
    | none => acc)

/-- Source: `cleanCollideEventSystem` (lines 469-475). -/
def cleanCollideEventSystem (w : gWorld) : gWorld :=
  w.foreach [.collideEventComp] (fun acc e _ => gWorldDestroyEntity acc e)

/-- Source: `invulnerabilitySystem` (lines 477-484). -/
def invulnerabilitySystem (env : Env) (w : gWorld) : gWorld :=
  w.foreach [.invulnerabilityComp] (fun acc e c =>
    match c.invulnerability with
    | some inv =>
      acc.set e { c with invulnerability := some { time := binary32 (inv.time - env.frameTime) } }
    | none => acc)

/-! ## Game loop and states (lines 569-673) -/

def gameState_init : Int := 0
def gameState_playing : Int := 1
def gameState_gameOver : Int := 2

/-- Source: `processInitGameState` (lines 575-588): the fresh world and the next state. -/
def processInitGameState : gWorld × Int :=
  (createScore (createSpawner (createPlayer createWorld)), gameState_playing)

/-- The logic systems of `processPlayingGameState` (lines 592-609), in order.  The draw
systems (lines 611-620) only read the store. -/
def playingSystems (env : Env) (world : gWorld) (k : Nat) : Option (gWorld × Nat) :=
  let w1 := readInputSystem env world
  let w2 := applyInputSystem w1
  let w3 := moveSystem env w2
  let w4 := shootSystem env w3
  let w5 := invulnerabilitySystem env w4
  match enemySpawnSystem env w5 k with
  | none => none
  | some (w6, k1) =>
    let w7 := simpleCollisionDetectionSystem w6
    match handleCollisionEvents w7 with
    | none => none
    | some w8 =>
      match addScoreSystem w8 with
      | none => none
      | some w9 =>
        let w10 := destroyWhenOffScreenSystem w9
        let w11 := destroyDeathEntities w10
        some (cleanCollideEventSystem w11, k1)

/-- Source: `processPlayingGameState` (lines 590-626): the world after the pass, the
number of random draws made so far, and the next state. -/
def processPlayingGameState (env : Env) (world : gWorld) (k : Nat) : Option (gWorld × Nat × Int) :=
  match playingSystems env world k with
  | none => none
  | some (w, k1) =>
    let player := singleEntity w .playerTag
    if !gWorldIsEntityAlive w player then some (w, k1, gameState_gameOver)
    else some (w, k1, gameState_playing)

/-- Source: `processGameOverGameState` (lines 628-642): the world is released and the
next state depends on `GetKeyPressed`. -/
def processGameOverGameState (env : Env) : Option gWorld × Int :=
  if env.keyPressed > 0 then (none, gameState_init) else (none, gameState_gameOver)

/-- The variables of `main` that survive an iteration of its loop (lines 646-651), with
the count of random draws made so far. -/
structure MainState where
  currentGameState : Int
  world : Option gWorld
  draws : Nat

/-- Source: the start of `main` (lines 646-651). -/
def mainInit : MainState := { currentGameState := gameState_init, world := none, draws := 0 }

/-- Result of one iteration of the loop of `main`. -/
inductive LoopResult where
  | next (s : MainState) : LoopResult
  | exit (code : Int) : LoopResult
  | undefined : LoopResult

/-- Source: the body of the `while` loop of `main` (lines 655-667). -/
def mainStep (env : Env) (s : MainState) : LoopResult :=
  if s.currentGameState = gameState_init then
    let r := processInitGameState
    .next { s with currentGameState := r.2, world := some r.1 }
  else if s.currentGameState = gameState_playing then
    match s.world with
    | some w =>
      match processPlayingGameState env w s.draws with
      | some (w1, k1, st) => .next { currentGameState := st, world := some w1, draws := k1 }
      | none => .undefined
    | none => .undefined
  else if s.currentGameState = gameState_gameOver then
    let r := processGameOverGameState env
    .next { s with currentGameState := r.2, world := r.1 }
  else .exit 1

/-! ## Auxiliary notions used to state the properties -/

/-- The record of a target after a hit that lands: the three writes of `applyDamage`
(lines 395, 398, 402) applied to the record `c` whose health is `h`. -/
def Components.hit (c : Components) (h : healthComp) (value : Int) (src : gEntity) : Components :=
  { c with
    health := some { currentHealth := h.currentHealth - value, maxHealth := h.maxHealth }
    invulnerability := c.invulnerability.map (fun _ => { time := invulnerabilityTime })
    lastDamage := c.lastDamage.map (fun _ => { «from» := src }) }

/-- Data-model condition of spec 3 needed for Damage Resolution to be defined: every
entity with the enemy component also has Health (as `createEnemy` builds them). -/
def gWorld.enemiesHaveHealth (w : gWorld) : Bool :=
  w.slots.all (fun o =>
    match o with
    | some c => !c.enemy.isSome || c.health.isSome
    | none => true)

/-- One iteration of the `_foreach` of `handleCollisionEvents`, for the snapshot entity `e`. -/
def handleCollisionEventAt (acc : gWorld) (e : gEntity) : Option gWorld :=
  match acc.comps e with
  | some c =>
    match c.collideEvent with
    | some ev => handleCollisionEvent acc ev
    | none => some acc
  | none => some acc

/-- The record of a CollideEvent entity as `simpleCollisionDetectionSystem` leaves it
(lines 377-380): the single component `collideEventComp` holding the pair. -/
def collideEventRecord (e1 e2 : gEntity) : Components :=
  { Components.zero [.collideEventComp] with collideEvent := some { e1 := e1, e2 := e2 } }

/-- Claim-side definition of C5 ("entities carrying both a position and a circle collider
whose centre distance is less than the sum of their radii"): `a` and `b` are live, both
carry a transform and a circle collider, and their circles overlap. -/
def gWorld.overlap (w : gWorld) (a b : gEntity) : Bool :=
  match w.comps a, w.comps b with
  | some ca, some cb =>
    match ca.transform, ca.circleCollider, cb.transform, cb.circleCollider with
    | some t1, some r1, some t2, some r2 =>
      CheckCollisionCircles t1.position r1.radius t2.position r2.radius
    | _, _, _, _ => false
  | _, _ => false

/-- The ordered pairs of distinct overlapping colliders, in the order of the nested scan. -/
def gWorld.collisionPairs (w : gWorld) : List (gEntity × gEntity) :=
  let colliders := w.query [.transformComp, .circleColliderComp]
  colliders.flatMap (fun a =>
    (colliders.filter (fun b => decide (a ≠ b) && w.overlap a b)).map (fun b => (a, b)))

/-- Claim-side definition of C7: is `e` an entity with Health and LastDamageSource whose
current health is `≤ 0` and whose LastDamageSource is `player`? -/
def gWorld.attributedDeath (w : gWorld) (player e : gEntity) : Bool :=
  match w.comps e with
  | some c =>
    match c.health, c.lastDamage with
    | some h, some l => decide (l.«from» = player) && decide (h.currentHealth ≤ 0)
    | _, _ => false
  | none => false

/-- Claim-side definition of C7: the number of entities whose death is attributed to
`player`. -/
def gWorld.attributedDeaths (w : gWorld) (player : gEntity) : Nat :=
  ((w.query [.healthComp, .lastDamageComp]).filter (fun e => w.attributedDeath player e)).length

/-- The record `c` with the score `n` written to its score storage (line 453). -/
def Components.withScore (c : Components) (n : Int) : Components :=
  { c with scoreStorage := some { score := n } }

/-- Does the live entity `x` have a record satisfying `P`? -/
def gWorld.satisfies (w : gWorld) (P : Components → Bool) (x : gEntity) : Bool :=
  match w.comps x with
  | some c => P c
  | none => false

/-- The component lists with which the source creates entities never attach the enemy
component without Health. -/
def spawnable (ids : List ComponentId) : Bool :=
  !ids.contains .enemyComp || ids.contains .healthComp

/-- The ways in which the systems change the store: writes through component pointers
(which attach and detach nothing), creation of entities, and, when `d` is set,
destruction of entities. -/
inductive gWorld.Evolves (d : Bool) : gWorld → gWorld → Prop where
  | refl (w : gWorld) : gWorld.Evolves d w w
  | write {w w1 : gWorld} (e : gEntity) (c0 c : Components) :
      gWorld.Evolves d w w1 → w1.comps e = some c0 → (∀ id, c.has id = c0.has id) →
      gWorld.Evolves d w (w1.set e c)
  | create {w w1 : gWorld} (ids : List ComponentId) :
      gWorld.Evolves d w w1 → spawnable ids = true →
      gWorld.Evolves d w (gWorldCreateEntity w1 ids).1
  | destroy {w w1 : gWorld} (e : gEntity) :
      gWorld.Evolves d w w1 → d = true → gWorld.Evolves d w (gWorldDestroyEntity w1 e)

/-- The states of `main` reachable from its initial state through iterations of its loop,
whatever the inputs of each frame. -/
inductive Reachable : MainState → Prop where
  | start : Reachable mainInit
  | step {s s1 : MainState} (env : Env) : Reachable s → mainStep env s = .next s1 → Reachable s1

/-! ## Sample records and worlds used to instantiate the theorems -/

/-- A player as `createPlayer` builds it, at the given position, with the given current
health and invulnerability time. -/
def samplePlayer (position : Vector2) (currentHealth : Int) (time : ℚ) : Components :=
  { Components.zero [.inputComp, .transformComp, .movableComp, .shootableComp, .playerTag,
      .circleColliderComp, .healthComp, .invulnerabilityComp] with
    transform := some { position := position }
    movable := some { direction := ⟨0, 0⟩, speed := 200 }
    shootable := some { direction := ⟨0, -1⟩, offset := ⟨0, -20⟩, timeToReload := 1 / 4,
                        timeAfterShoot := 0, shoot := false }
    circleCollider := some { radius := 10 }
    health := some { currentHealth := currentHealth, maxHealth := 3 }
    invulnerability := some { time := time } }

/-- An asteroid as `createEnemy` builds it, at the given position, with the given current
health. -/
def sampleAsteroid (position : Vector2) (currentHealth : Int) : Components :=
  { Components.zero [.transformComp, .movableComp, .destroyWhenOffScreenTag, .enemyComp,
      .circleColliderComp, .healthComp, .lastDamageComp] with
    transform := some { position := position }
    movable := some { direction := ⟨0, 1⟩, speed := 100 }
    enemy := some { type := enemyType_asteroid }
    circleCollider := some { radius := 20 }
    health := some { currentHealth := currentHealth, maxHealth := 1 } }

/-- A ship as `createEnemy` builds it, at the given position, with the given current
health. -/
def sampleShip (position : Vector2) (currentHealth : Int) : Components :=
  { Components.zero [.transformComp, .movableComp, .destroyWhenOffScreenTag, .enemyComp,
      .circleColliderComp, .healthComp, .shootableComp, .lastDamageComp] with
    transform := some { position := position }
    movable := some { direction := ⟨0, 1⟩, speed := 50 }
    shootable := some { direction := ⟨0, 1⟩, offset := ⟨0, 50⟩, timeToReload := 2,
                        timeAfterShoot := 0, shoot := true }
    enemy := some { type := enemyType_ship }
    circleCollider := some { radius := 20 }
    health := some { currentHealth := currentHealth, maxHealth := 3 } }

/-- A bullet as `createBullet` builds it. -/
def sampleBullet (position direction : Vector2) (owner : gEntity) : Components :=
  { Components.zero [.transformComp, .movableComp, .bulletComp, .destroyWhenOffScreenTag,
      .circleColliderComp] with
    transform := some { position := position }
    movable := some { direction := direction, speed := 400 }
    circleCollider := some { radius := 5 }
    bullet := some { owner := owner } }

/-- A score entity as `createScore` builds it, holding the given score. -/
def sampleScore (score : Int) : Components :=
  { Components.zero [.scoreStorageComp] with scoreStorage := some { score := score } }

/-- An asteroid with the given health whose last damage came from `src`. -/
def damagedAsteroid (position : Vector2) (currentHealth : Int) (src : gEntity) : Components :=
  { sampleAsteroid position currentHealth with lastDamage := some { «from» := src } }

/-- Inputs of a frame in which no key is held: 1/60 s elapsed, raw random draws all 0. -/
def idleFrame : Env :=
  { keyW := false, keyS := false, keyA := false, keyD := false, keySpace := false,
    keyPressed := 0, frameTime := 1 / 60, normalize := fun v => v, rand := fun _ => 0 }

/-- The frame of `idleFrame` with frame time `dt`. -/
def frameOf (dt : ℚ) : Env := { idleFrame with frameTime := dt }

/-- A player (slot 0) with 3 health touching an asteroid (slot 1). -/
def playerAndAsteroid (time : ℚ) : gWorld :=
  { slots := [some (samplePlayer ⟨400, 225⟩ 3 time), some (sampleAsteroid ⟨400, 200⟩ 1)] }

/-- A player (slot 0, 3 health, the given invulnerability time), an asteroid touching it
(slot 1), a bullet of that asteroid's side touching the player (slot 2), and the events
bullet-player (slot 3) and asteroid-player (slot 4) awaiting Damage Resolution. -/
def pendingHits (time : ℚ) : gWorld :=
  { slots := [some (samplePlayer ⟨400, 225⟩ 3 time), some (sampleAsteroid ⟨400, 200⟩ 1),
      some (sampleBullet ⟨410, 225⟩ ⟨0, 1⟩ (.mk 1)),
      some (collideEventRecord (.mk 2) (.mk 0)), some (collideEventRecord (.mk 1) (.mk 0))] }

/-- A player (slot 0, 3 health, the given invulnerability time) touched by the bullet
(slot 2) of a distant ship (slot 1); no event is pending. -/
def bulletOnPlayer (time : ℚ) : gWorld :=
  { slots := [some (samplePlayer ⟨400, 225⟩ 3 time), some (sampleShip ⟨400, 100⟩ 3),
      some (sampleBullet ⟨410, 225⟩ ⟨0, 1⟩ (.mk 1))] }

/-- A bullet (slot 3, fired by the distant ship of slot 2) that touches at once a ship
(slot 0) and a player with 3 health and no running window (slot 1); the ship and the
player do not touch each other. -/
def crossfire : gWorld :=
  { slots := [some (sampleShip ⟨438, 225⟩ 3), some (samplePlayer ⟨400, 225⟩ 3 0),
      some (sampleShip ⟨414, 100⟩ 3), some (sampleBullet ⟨414, 225⟩ ⟨0, 1⟩ (.mk 2))] }

/-- Two ships with 3 health each, as `createEnemy` builds them, overlapping; the store holds
nothing else. -/
def touchingShips : gWorld :=
  { slots := [some (sampleShip ⟨400, 200⟩ 3), some (sampleShip ⟨410, 200⟩ 3)] }

/-- A player (slot 0), a score of 5 (slot 1), and three asteroids: one killed by the
player (slot 2), one killed by the asteroid of slot 2 (slot 3), one damaged by the
player but alive (slot 4). -/
def afterBattle : gWorld :=
  { slots := [some (samplePlayer ⟨400, 225⟩ 3 0), some (sampleScore 5),
      some (damagedAsteroid ⟨100, 100⟩ 0 (.mk 0)), some (damagedAsteroid ⟨120, 100⟩ (-1) (.mk 2)),
      some (damagedAsteroid ⟨300, 100⟩ 1 (.mk 0))] }

/-! ## Notions and samples for spawning, shooting, cleanup and the health bound -/

/-- The record of an enemy of the given kind right after `createEnemy` (lines 182-242): an
asteroid with 1 health for kind `enemyType_asteroid`, a ship with 3 health otherwise. -/
def enemyRecord (position : Vector2) (type : Int) : Components :=
  if type = enemyType_asteroid then sampleAsteroid position 1 else sampleShip position 3

/-- The records of the `n` enemies of one wave of `enemySpawnSystem` (lines 345-350) when
`k` calls of `GetRandomValue` have been made before the wave: the i-th enemy takes its
lane from call `k + 2 i` and its kind from call `k + 2 i + 1`. -/
def waveRecords (env : Env) : Nat → Nat → List (Option Components)
  | 0, _ => []
  | n + 1, k =>
    some (enemyRecord
      ⟨((GetRandomValue env k 0 (columnCount - 1) * (screenWidth / columnCount) +
          screenWidth / columnCount / 2 : Int) : ℚ), ((-spawnBorder : Int) : ℚ)⟩
      (GetRandomValue env (k + 1) 0 (enemyType_count - 1))) :: waveRecords env n (k + 2)

/-- The record `c` with its spawner component replaced by `s`. -/
def Components.withSpawner (c : Components) (s : enemySpawnerComp) : Components :=
  { c with enemySpawner := some s }

/-- The spawner component `enemySpawnSystem` writes after a wave (lines 352-354) when `k`
calls of `GetRandomValue` have been made before the redraw. -/
def redrawnSpawner (env : Env) (k : Nat) : enemySpawnerComp :=
  { timeAfterSpawn := 0
    timeToSpawn := (GetRandomValue env k timeToSpawnMin.floor timeToSpawnMax.floor : ℚ)
    enemyInWave := GetRandomValue env (k + 1) enemyInWaveMin enemyInWaveMax }

/-- A store holding only a spawner (slot 0) with the given spawner component. -/
def spawnerOnly (s : enemySpawnerComp) : gWorld :=
  { slots := [some ((Components.zero [.enemySpawnerComp]).withSpawner s)] }

/-- The test of `shootSystem` (line 301) on the record of a visited entity: the shoot flag
is set and the time waited, this frame included (the `float` sum of line 300), exceeds the
reload time. -/
def Components.shootFires (env : Env) (c : Components) : Bool :=
  match c.shootable, c.transform with
  | some shootable, some _ =>
    shootable.shoot &&
      decide (binary32 (shootable.timeAfterShoot + env.frameTime) > shootable.timeToReload)
  | _, _ => false

/-- The record `shootSystem` leaves on a visited entity (lines 297-305): the time waited
grows by the frame time (the `float` sum of line 300), and is reset to 0 when the entity
fires. -/
def Components.afterShoot (env : Env) (c : Components) : Components :=
  match c.shootable, c.transform with
  | some shootable, some _ =>
    let waited := binary32 (shootable.timeAfterShoot + env.frameTime)
    let kept := if shootable.shoot && decide (waited > shootable.timeToReload) then 0 else waited
    { c with shootable := some { shootable with timeAfterShoot := kept } }
  | _, _ => c

/-- The record of the bullet entity `e` fires from the record `c` (lines 300-301). -/
def Components.shot (e : gEntity) (c : Components) : Components :=
  match c.shootable, c.transform with
  | some shootable, some transform =>
    sampleBullet (Vector2Add transform.position shootable.offset) shootable.direction e
  | _, _ => sampleBullet ⟨0, 0⟩ ⟨0, 0⟩ e

/-- The record `c` with its shootable component replaced by `s`. -/
def Components.withShootable (c : Components) (s : shootableComp) : Components :=
  { c with shootable := some s }

/-- The record `c` with its invulnerability component replaced by one of the given time. -/
def Components.withWindow (c : Components) (time : ℚ) : Components :=
  { c with invulnerability := some { time := time } }

/-- A player (slot 0, 3 health, the given invulnerability time), an asteroid above it
(slot 1, 1 health) and a bullet of the player touching the asteroid (slot 2). -/
def playerShot (time : ℚ) : gWorld :=
  { slots := [some (samplePlayer ⟨400, 225⟩ 3 time), some (sampleAsteroid ⟨400, 100⟩ 1),
      some (sampleBullet ⟨400, 120⟩ ⟨0, -1⟩ (.mk 0))] }

/-- The store `w1` arises from `w` by a sequence of atomic operations: rewriting the
record `c0` of a live entity to a record `c` with `W c0 c`, appending a new entity whose
record satisfies `N`, and destroying an entity. -/
inductive gWorld.Steps (W : Components → Components → Prop) (N : Components → Prop) :
    gWorld → gWorld → Prop where
  | refl (w : gWorld) : gWorld.Steps W N w w
  | write {w w1 : gWorld} (e : gEntity) (c0 c : Components) :
      gWorld.Steps W N w w1 → w1.comps e = some c0 → W c0 c →
      gWorld.Steps W N w (w1.set e c)
  | append {w w1 : gWorld} (c : Components) :
      gWorld.Steps W N w w1 → N c → gWorld.Steps W N w { slots := w1.slots ++ [some c] }
  | destroy {w w1 : gWorld} (e : gEntity) :
      gWorld.Steps W N w w1 → gWorld.Steps W N w (gWorldDestroyEntity w1 e)

/-- What the systems that run before Collision Detection in a Playing-state pass may do to
the store (lines 256-357 and 477-484), as conditions on a write relation `W` and a
predicate `N` on new records: each field names the one kind of write or creation of one
of these systems. -/
structure PrefixOps (W : Components → Components → Prop) (N : Components → Prop) : Prop where
  input : ∀ c v, W c { c with input := some v }
  control : ∀ c m s, W c { c with movable := some m, shootable := some s }
  transform : ∀ c t, W c { c with transform := some t }
  shootable : ∀ c s, W c { c with shootable := some s }
  window : ∀ c v, W c { c with invulnerability := some v }
  spawner : ∀ c s, W c { c with enemySpawner := some s }
  bullet : ∀ position direction owner, N (sampleBullet position direction owner)
  enemy : ∀ position type, N (enemyRecord position type)

/-- What Collision Detection, Damage Resolution and Scoring may do to the store (lines
359-456): create events, apply a hit of 1, and write a score. -/
structure SuffixOps (W : Components → Components → Prop) (N : Components → Prop) : Prop where
  hit : ∀ c h src, c.health = some h → W c (c.hit h 1 src)
  score : ∀ c n, W c (c.withScore n)
  event : ∀ a b, N (collideEventRecord a b)

/-- The test of `destroyWhenOffScreenSystem` (line 330) on a record: a position strictly
beyond the level border on some side. -/
def Components.offScreen (c : Components) : Bool :=
  match c.transform with
  | some transform =>
    decide (transform.position.y < -(levelBorder : ℚ) ∨
      transform.position.y > ((screenHeight + levelBorder : Int) : ℚ) ∨
      transform.position.x < -(levelBorder : ℚ) ∨
      transform.position.x > ((screenWidth + levelBorder : Int) : ℚ))
  | none => false

/-- A player far to the right of the level (slot 0), an asteroid just below the lower
border (slot 1, `y = 501`) and an asteroid exactly on it (slot 2, `y = 500`). -/
def offScreenScene : gWorld :=
  { slots := [some (samplePlayer ⟨900, 225⟩ 3 0), some (sampleAsteroid ⟨400, 501⟩ 1),
      some (sampleAsteroid ⟨400, 500⟩ 1)] }

/-- The predicate of C19 on one record: Health, if present, has
`currentHealth ≤ maxHealth`. -/
def Components.healthOk (c : Components) : Bool :=
  match c.health with
  | some h => decide (h.currentHealth ≤ h.maxHealth)
  | none => true

/-- The predicate of C19 on a store: every live entity with Health has
`currentHealth ≤ maxHealth`. -/
def gWorld.healthBounded (w : gWorld) : Bool :=
  w.slots.all (fun o =>
    match o with
    | some c => c.healthOk
    | none => true)

/-- The record `c` stems from `c0` without a rise of `currentHealth` or a change of
`maxHealth`, and without Health being attached or detached. -/
def Components.healthLe (c0 c : Components) : Prop :=
  match c0.health, c.health with
  | some h0, some h => h.currentHealth ≤ h0.currentHealth ∧ h.maxHealth = h0.maxHealth
  | none, none => True
  | _, _ => False

/-- The record `c` is that of an enemy as `enemySpawnSystem` creates it (lines 346-350):
kind asteroid or ship, at `y = -45` and at the centre `x = 100 * lane + 50` of one of the
eight lanes. -/
def Components.spawnedEnemy (c : Components) : Prop :=
  ∃ lane type : Int, 0 ≤ lane ∧ lane ≤ 7 ∧
    (type = enemyType_asteroid ∨ type = enemyType_ship) ∧
    c = enemyRecord ⟨((100 * lane + 50 : Int) : ℚ), -45⟩ type

/-! # Properties -/

/-! ## Rounding to binary32 -/

theorem log2Fuel_eq : ∀ (fuel n : Nat), n ≤ fuel → log2Fuel fuel n = Nat.log2 n := by
  intro fuel
  induction fuel with
  | zero =>
    intro n hn
    have : n = 0 := by omega
    subst this
    simp [log2Fuel, Nat.log2]
  | succ fuel ih =>
    intro n hn
    rw [log2Fuel, Nat.log2]
    by_cases h : 2 ≤ n
    · have h' : n ≥ 2 := h
      rw [if_pos h, if_pos h', ih (n / 2) (by omega)]
    · have h' : ¬ n ≥ 2 := h
      rw [if_neg h, if_neg h']

theorem log2Fuel_spec (n : Nat) (h : n ≠ 0) :
    2 ^ log2Fuel n n ≤ n ∧ n < 2 ^ (log2Fuel n n + 1) := by
  rw [log2Fuel_eq n n (le_refl _)]
  exact ⟨Nat.log2_self_le h, Nat.lt_log2_self⟩

/-- For positive `x` the binade is the exponent `e` with `2 ^ e ≤ x < 2 ^ (e + 1)`. -/
theorem binade_spec (x : ℚ) (hx : 0 < x) :
    (2 : ℚ) ^ binade x ≤ x ∧ x < (2 : ℚ) ^ (binade x + 1) := by
  have hnum : 0 < x.num := Rat.num_pos.2 hx
  have hn0 : x.num.natAbs ≠ 0 := by omega
  obtain ⟨a1, a2⟩ := log2Fuel_spec x.num.natAbs hn0
  obtain ⟨b1, b2⟩ := log2Fuel_spec x.den x.den_nz
  have hxe : x = (x.num.natAbs : ℚ) / (x.den : ℚ) := by
    have h1 : ((x.num.natAbs : Int) : ℚ) = (x.num : ℚ) := by
      rw [Int.natAbs_of_nonneg (le_of_lt hnum)]
    have h2 : ((x.num.natAbs : Nat) : ℚ) = ((x.num.natAbs : Int) : ℚ) :=
      (Int.cast_natCast x.num.natAbs).symm
    rw [h2, h1]
    exact (Rat.num_div_den x).symm
  have hden : (0 : ℚ) < (x.den : ℚ) := by exact_mod_cast x.den_pos
  have a1q : (2 : ℚ) ^ (log2Fuel x.num.natAbs x.num.natAbs) ≤ (x.num.natAbs : ℚ) := by
    exact_mod_cast a1
  have a2q : (x.num.natAbs : ℚ) < (2 : ℚ) ^ (log2Fuel x.num.natAbs x.num.natAbs + 1) := by
    exact_mod_cast a2
  have b1q : (2 : ℚ) ^ (log2Fuel x.den x.den) ≤ (x.den : ℚ) := by exact_mod_cast b1
  have b2q : (x.den : ℚ) < (2 : ℚ) ^ (log2Fuel x.den x.den + 1) := by exact_mod_cast b2
  set a := log2Fuel x.num.natAbs x.num.natAbs with ha
  set b := log2Fuel x.den x.den with hb
  have hpa : (0 : ℚ) < (2 : ℚ) ^ a := by positivity
  have hpb : (0 : ℚ) < (2 : ℚ) ^ b := by positivity
  have e1 : (2 : ℚ) ^ ((a : Int) - (b : Int)) = (2 : ℚ) ^ a / (2 : ℚ) ^ b := by
    rw [zpow_sub₀ (by norm_num : (2 : ℚ) ≠ 0), zpow_natCast, zpow_natCast]
  have e2 : (2 : ℚ) ^ ((a : Int) - (b : Int) + 1) = (2 : ℚ) ^ (a + 1) / (2 : ℚ) ^ b := by
    rw [zpow_add_one₀ (by norm_num : (2 : ℚ) ≠ 0), e1, pow_succ]
    ring
  have e3 : (2 : ℚ) ^ ((a : Int) - (b : Int) - 1) = (2 : ℚ) ^ a / (2 : ℚ) ^ (b + 1) := by
    rw [zpow_sub_one₀ (by norm_num : (2 : ℚ) ≠ 0), e1, pow_succ]
    field_simp
  -- bounds on x
  have hup : x < (2 : ℚ) ^ ((a : Int) - (b : Int) + 1) := by
    rw [e2, hxe, div_lt_div_iff₀ hden hpb]
    calc (x.num.natAbs : ℚ) * 2 ^ b < 2 ^ (a + 1) * 2 ^ b := by
          exact mul_lt_mul_of_pos_right a2q hpb
      _ ≤ 2 ^ (a + 1) * (x.den : ℚ) := by
          exact mul_le_mul_of_nonneg_left b1q (by positivity)
  have hlo : (2 : ℚ) ^ ((a : Int) - (b : Int) - 1) ≤ x := by
    rw [e3, hxe, div_le_div_iff₀ (by positivity) hden]
    calc (2 : ℚ) ^ a * (x.den : ℚ) ≤ (x.num.natAbs : ℚ) * (x.den : ℚ) := by
          exact mul_le_mul_of_nonneg_right a1q (le_of_lt hden)
      _ ≤ (x.num.natAbs : ℚ) * 2 ^ (b + 1) := by
          exact mul_le_mul_of_nonneg_left (le_of_lt b2q) (by positivity)
  unfold binade
  simp only [← ha, ← hb]
  by_cases hc : (2 : ℚ) ^ ((a : Int) - (b : Int)) ≤ x
  · rw [if_pos hc]
    exact ⟨hc, hup⟩
  · rw [if_neg hc]
    refine ⟨hlo, ?_⟩
    have : ((a : Int) - (b : Int) - 1 + 1) = (a : Int) - (b : Int) := by ring
    rw [this]
    exact not_le.1 hc

theorem binade_mono (x y : ℚ) (hx : 0 < x) (hxy : x ≤ y) : binade x ≤ binade y := by
  obtain ⟨x1, _⟩ := binade_spec x hx
  obtain ⟨_, y2⟩ := binade_spec y (lt_of_lt_of_le hx hxy)
  by_contra hlt
  have hle : binade y + 1 ≤ binade x := by omega
  have h1 : (2 : ℚ) ^ (binade y + 1) ≤ (2 : ℚ) ^ binade x :=
    zpow_le_zpow_right₀ (by norm_num) hle
  linarith

theorem roundHalfEven_bounds (q : ℚ) : ⌊q⌋ ≤ roundHalfEven q ∧ roundHalfEven q ≤ ⌊q⌋ + 1 := by
  unfold roundHalfEven
  simp only []
  split_ifs <;> omega

/-- An integer below `q` is below its rounding, an integer above `q` is above it. -/
theorem roundHalfEven_ge (q : ℚ) (n : Int) (h : (n : ℚ) ≤ q) : n ≤ roundHalfEven q :=
  le_trans (Int.le_floor.2 h) (roundHalfEven_bounds q).1

theorem roundHalfEven_le (q : ℚ) (n : Int) (h : q ≤ (n : ℚ)) : roundHalfEven q ≤ n := by
  have hf : ⌊q⌋ ≤ n := Int.floor_le_iff.2 (lt_of_le_of_lt h (by simp))
  by_cases he : ⌊q⌋ = n
  · have hq : q = (⌊q⌋ : ℚ) := le_antisymm (by rw [he]; exact h) (Int.floor_le q)
    unfold roundHalfEven
    simp only []
    have hr : q - (⌊q⌋ : ℚ) < 1 / 2 := by rw [← hq]; norm_num
    rw [if_pos hr]
    exact le_of_eq he
  · have := (roundHalfEven_bounds q).2
    omega

theorem roundHalfEven_mono (p q : ℚ) (h : p ≤ q) : roundHalfEven p ≤ roundHalfEven q := by
  have hf : ⌊p⌋ ≤ ⌊q⌋ := Int.floor_le_floor h
  by_cases he : ⌊p⌋ = ⌊q⌋
  · unfold roundHalfEven
    simp only []
    rw [he]
    have hr : p - (⌊q⌋ : ℚ) ≤ q - (⌊q⌋ : ℚ) := by linarith
    split_ifs <;> first | omega | (exfalso; linarith)
  · have h1 := (roundHalfEven_bounds p).2
    have h2 := (roundHalfEven_bounds q).1
    omega

theorem binary32Mag_nonneg (x : ℚ) (hx : 0 ≤ x) : 0 ≤ binary32Mag x := by
  unfold binary32Mag
  simp only []
  have hu : (0 : ℚ) < (2 : ℚ) ^ (max (binade x) (-126) - 23) := by positivity
  have h0 : (0 : Int) ≤ roundHalfEven (x / (2 : ℚ) ^ (max (binade x) (-126) - 23)) :=
    roundHalfEven_ge _ 0 (by simpa using div_nonneg hx (le_of_lt hu))
  have h1 : (0 : ℚ) ≤ (roundHalfEven (x / (2 : ℚ) ^ (max (binade x) (-126) - 23)) : ℚ) := by
    exact_mod_cast h0
  exact mul_nonneg h1 (le_of_lt hu)

theorem binary32Mag_zero : binary32Mag 0 = 0 := by
  unfold binary32Mag
  simp [roundHalfEven]

/-- Rounding the magnitude is monotone on the non-negative rationals. -/
theorem binary32Mag_mono (x y : ℚ) (hx : 0 ≤ x) (hxy : x ≤ y) :
    binary32Mag x ≤ binary32Mag y := by
  rcases eq_or_lt_of_le hx with hx0 | hpos
  · rw [← hx0, binary32Mag_zero]
    exact binary32Mag_nonneg y (le_trans hx hxy)
  have hypos : 0 < y := lt_of_lt_of_le hpos hxy
  have hb := binade_mono x y hpos hxy
  have two : (2 : ℚ) ≠ 0 := by norm_num
  unfold binary32Mag
  simp only []
  set ex := max (binade x) (-126) with hex
  set ey := max (binade y) (-126) with hey
  have hux : (0 : ℚ) < (2 : ℚ) ^ (ex - 23) := by positivity
  have huy : (0 : ℚ) < (2 : ℚ) ^ (ey - 23) := by positivity
  have hle : ex ≤ ey := max_le_max hb (le_refl _)
  rcases eq_or_lt_of_le hle with heq | hlt
  · rw [← heq]
    have hq : x / (2 : ℚ) ^ (ex - 23) ≤ y / (2 : ℚ) ^ (ex - 23) :=
      div_le_div_of_nonneg_right hxy (le_of_lt hux)
    have hr := roundHalfEven_mono _ _ hq
    have hrq : (roundHalfEven (x / (2 : ℚ) ^ (ex - 23)) : ℚ) ≤
        (roundHalfEven (y / (2 : ℚ) ^ (ex - 23)) : ℚ) := by exact_mod_cast hr
    exact mul_le_mul_of_nonneg_right hrq (le_of_lt hux)
  · -- different binades: the power of two `2 ^ ey` lies between the two roundings
    have hbx : binade x ≤ ex := le_max_left _ _
    have hey2 : ey = binade y := by
      have h126 : (-126 : Int) ≤ ex := le_max_right _ _
      rcases max_choice (binade y) (-126) with h | h
      · exact h
      · rw [← hey] at h; omega
    obtain ⟨_, x2⟩ := binade_spec x hpos
    obtain ⟨y1, _⟩ := binade_spec y hypos
    have hxup : x ≤ (2 : ℚ) ^ (ex + 1) :=
      le_trans (le_of_lt x2) (zpow_le_zpow_right₀ (by norm_num) (by omega))
    have px : ((2 ^ 24 : Int) : ℚ) * (2 : ℚ) ^ (ex - 23) = (2 : ℚ) ^ (ex + 1) := by
      have : ex + 1 = 24 + (ex - 23) := by ring
      rw [this, zpow_add₀ two]
      norm_num
    have py : ((2 ^ 23 : Int) : ℚ) * (2 : ℚ) ^ (ey - 23) = (2 : ℚ) ^ ey := by
      have : ey = 23 + (ey - 23) := by ring
      nth_rewrite 2 [this]
      rw [zpow_add₀ two]
      norm_num
    have hqx : x / (2 : ℚ) ^ (ex - 23) ≤ ((2 ^ 24 : Int) : ℚ) := by
      rw [div_le_iff₀ hux, px]
      exact hxup
    have hqy : ((2 ^ 23 : Int) : ℚ) ≤ y / (2 : ℚ) ^ (ey - 23) := by
      rw [le_div_iff₀ huy, py, hey2]
      exact y1
    have hrx : (roundHalfEven (x / (2 : ℚ) ^ (ex - 23)) : ℚ) ≤ ((2 ^ 24 : Int) : ℚ) := by
      exact_mod_cast roundHalfEven_le _ _ hqx
    have hry : ((2 ^ 23 : Int) : ℚ) ≤ (roundHalfEven (y / (2 : ℚ) ^ (ey - 23)) : ℚ) := by
      exact_mod_cast roundHalfEven_ge _ _ hqy
    calc (roundHalfEven (x / (2 : ℚ) ^ (ex - 23)) : ℚ) * (2 : ℚ) ^ (ex - 23)
        ≤ ((2 ^ 24 : Int) : ℚ) * (2 : ℚ) ^ (ex - 23) :=
          mul_le_mul_of_nonneg_right hrx (le_of_lt hux)
      _ = (2 : ℚ) ^ (ex + 1) := px
      _ ≤ (2 : ℚ) ^ ey := zpow_le_zpow_right₀ (by norm_num) (by omega)
      _ = ((2 ^ 23 : Int) : ℚ) * (2 : ℚ) ^ (ey - 23) := py.symm
      _ ≤ (roundHalfEven (y / (2 : ℚ) ^ (ey - 23)) : ℚ) * (2 : ℚ) ^ (ey - 23) :=
          mul_le_mul_of_nonneg_right hry (le_of_lt huy)

/-- Rounding to binary32 is monotone. -/
theorem binary32_mono (x y : ℚ) (hxy : x ≤ y) : binary32 x ≤ binary32 y := by
  unfold binary32
  by_cases hx : x < 0
  · by_cases hy : y < 0
    · rw [if_pos hx, if_pos hy]
      exact neg_le_neg (binary32Mag_mono (-y) (-x) (by linarith) (by linarith))
    · rw [if_pos hx, if_neg hy]
      have h1 := binary32Mag_nonneg (-x) (by linarith)
      have h2 := binary32Mag_nonneg y (not_lt.1 hy)
      linarith
  · have hy : ¬ y < 0 := by
      intro h
      exact hx (lt_of_le_of_lt hxy h)
    rw [if_neg hx, if_neg hy]
    exact binary32Mag_mono x y (not_lt.1 hx) hxy

/-- A sum that reaches a threshold representable in binary32 still reaches it after
rounding. -/
theorem binary32_ge_of_ge (x t : ℚ) (ht : binary32 t = t) (h : t ≤ x) : t ≤ binary32 x := by
  have := binary32_mono t x h
  rw [ht] at this
  exact this

/-- Sample roundings: `0.2f + 0.05f` is `0.25f` although the exact sum of the two `float`
values is above one quarter; the `float` nearest to one sixtieth. -/
theorem binary32_samples :
    binary32 (13421773 / 67108864 + 13421773 / 268435456) = 1 / 4 ∧
    (13421773 / 67108864 + 13421773 / 268435456 : ℚ) > 1 / 4 ∧
    binary32 (16497595 / 16777216 + 8947860 / 536870912) = 1 ∧
    (16497595 / 16777216 + 8947860 / 536870912 : ℚ) < 1 ∧
    binary32 (1 / 60) = 8947849 / 536870912 ∧
    binary32 3 = 3 ∧ binary32 (1 / 4) = 1 / 4 ∧ binary32 0 = 0 := by
  refine ⟨by decide!, by norm_num, by decide!, by norm_num, by decide!, by decide!,
    by decide!, by decide!⟩

theorem gWorld.comps_mk (w : gWorld) (i : Nat) : w.comps (.mk i) = (w.slots[i]?).join := by
  simp [gWorld.comps, List.get?_eq_getElem?]

theorem gWorld.comps_eq_some_iff (w : gWorld) (i : Nat) (c : Components) :
    w.comps (.mk i) = some c ↔ w.slots[i]? = some (some c) := by
  rw [gWorld.comps_mk]
  cases h : w.slots[i]? with
  | none => simp
  | some o => cases o <;> simp

theorem gWorld.lt_of_comps_isSome (w : gWorld) (i : Nat) (h : (w.comps (.mk i)).isSome) :
    i < w.slots.length := by
  by_contra hge
  rw [gWorld.comps_mk, List.getElem?_eq_none (not_lt.1 hge)] at h
  simp at h

theorem gWorld.comps_set (w : gWorld) (e x : gEntity) (c : Components) :
    (w.set e c).comps x = if x = e ∧ (w.comps e).isSome then some c else w.comps x := by
  cases e with
  | null => cases x <;> simp [gWorld.set, gWorld.comps]
  | mk i =>
    cases x with
    | null => simp [gWorld.set, gWorld.comps]
    | mk j =>
      unfold gWorld.set
      by_cases h : (w.comps (.mk i)).isSome
      · simp only [h, if_true, and_true]
        have hlt := w.lt_of_comps_isSome i h
        by_cases hij : j = i
        · subst hij
          simp [gWorld.comps_mk, List.getElem?_set, hlt]
        · simp [gWorld.comps_mk, List.getElem?_set, hij, Ne.symm hij]
      · simp [h]

theorem gWorld.comps_destroy (w : gWorld) (e x : gEntity) :
    (gWorldDestroyEntity w e).comps x = if x = e then none else w.comps x := by
  cases e with
  | null => cases x <;> simp [gWorldDestroyEntity, gWorld.comps]
  | mk i =>
    cases x with
    | null => simp [gWorldDestroyEntity, gWorld.comps]
    | mk j =>
      by_cases hij : j = i
      · subst hij
        by_cases hlt : j < w.slots.length
        · simp [gWorldDestroyEntity, gWorld.comps_mk, List.getElem?_set, hlt]
        · simp [gWorldDestroyEntity, gWorld.comps_mk, List.getElem?_set, hlt]
      · simp [gWorldDestroyEntity, gWorld.comps_mk, List.getElem?_set, hij, Ne.symm hij]

theorem gWorld.comps_create (w : gWorld) (ids : List ComponentId) (x : gEntity) :
    (gWorldCreateEntity w ids).1.comps x =
      if x = .mk w.slots.length then some (Components.zero ids) else w.comps x := by
  cases x with
  | null => simp [gWorld.comps]
  | mk j =>
    rcases Nat.lt_trichotomy j w.slots.length with h | h | h
    · simp [gWorldCreateEntity, gWorld.comps_mk, List.getElem?_append_left, h, Nat.ne_of_lt h]
    · subst h
      simp [gWorldCreateEntity, gWorld.comps_mk]
    · have h2 : ¬ j = w.slots.length := Nat.ne_of_gt h
      have h3 : w.slots.length + 1 ≤ j := h
      simp [gWorldCreateEntity, gWorld.comps_mk, h2, List.getElem?_eq_none, h3, Nat.le_of_lt h]

theorem gWorld.length_set (w : gWorld) (e : gEntity) (c : Components) :
    (w.set e c).slots.length = w.slots.length := by
  cases e with
  | null => rfl
  | mk i => by_cases h : (w.comps (.mk i)).isSome <;> simp [gWorld.set, h]

theorem gWorld.length_destroy (w : gWorld) (e : gEntity) :
    (gWorldDestroyEntity w e).slots.length = w.slots.length := by
  cases e <;> simp [gWorldDestroyEntity]

theorem gWorld.ext_comps (w1 w2 : gWorld) (hlen : w1.slots.length = w2.slots.length)
    (h : ∀ x, w1.comps x = w2.comps x) : w1 = w2 := by
  cases w1 with | mk s1 => cases w2 with | mk s2 =>
  congr 1
  apply List.ext_getElem? 
  intro i
  have hi := h (.mk i)
  simp only [gWorld.comps_mk] at hi
  simp only at hlen
  by_cases hlt : i < s1.length
  · have hlt2 : i < s2.length := hlen ▸ hlt
    rw [List.getElem?_eq_getElem hlt, List.getElem?_eq_getElem hlt2] at hi ⊢
    simp at hi
    simp [hi]
  · have hlt2 : ¬ i < s2.length := hlen ▸ hlt
    simp [List.getElem?_eq_none, not_lt.1 hlt, not_lt.1 hlt2]

/-- The guard of the first `return` of `applyDamage`, as a proposition. -/
theorem applyDamage_sourceImmune_iff (w : gWorld) (src : gEntity) (check : Bool) :
    (check && gWorldHasComponent w src .invulnerabilityComp &&
      (match (w.comps src).bind (fun c => c.invulnerability) with
       | some inv => decide (inv.time > 0)
       | none => false)) = true ↔
    (check = true ∧ ∃ cs inv, w.comps src = some cs ∧ cs.invulnerability = some inv ∧ inv.time > 0) := by
  cases check with
  | false => simp
  | true =>
    cases hcs : w.comps src with
    | none => simp [gWorldHasComponent, hcs]
    | some cs =>
      cases hinv : cs.invulnerability with
      | none => simp [gWorldHasComponent, hcs, hinv, Components.has]
      | some inv => simp [gWorldHasComponent, hcs, hinv, Components.has]

/-- The path of `applyDamage` past both early returns. -/
theorem applyDamage_of_not_immune (w : gWorld) (e : gEntity) (value : Int) (src : gEntity) (check : Bool)
    (c : Components) (h : healthComp)
    (hc : w.comps e = some c) (hh : c.health = some h)
    (hsrc : check = true →
      ∀ cs inv, w.comps src = some cs → cs.invulnerability = some inv → inv.time ≤ 0)
    (htgt : ∀ inv, c.invulnerability = some inv → inv.time ≤ 0) :
    ∃ w', applyDamage w e value src check = some w' ∧
      w'.comps e = some { c with
        health := some { currentHealth := h.currentHealth - value, maxHealth := h.maxHealth }
        invulnerability := c.invulnerability.map (fun _ => { time := 3 })
        lastDamage := c.lastDamage.map (fun _ => { «from» := src }) } ∧
      (∀ x, x ≠ e → w'.comps x = w.comps x) ∧
      w'.slots.length = w.slots.length := by
  have hs : ¬ ((check && gWorldHasComponent w src .invulnerabilityComp &&
      (match (w.comps src).bind (fun c => c.invulnerability) with
       | some inv => decide (inv.time > 0)
       | none => false)) = true) := by
    rw [applyDamage_sourceImmune_iff]
    rintro ⟨hchk, cs, inv, h1, h2, h3⟩
    exact absurd h3 (not_lt.2 (hsrc hchk cs inv h1 h2))
  unfold applyDamage
  simp only [hs, if_false, hc]
  cases hinv : c.invulnerability with
  | none =>
    simp only [hh]
    refine ⟨_, rfl, ?_, ?_, ?_⟩
    · rw [gWorld.comps_set]; simp [hc, hinv]
    · intro x hx; rw [gWorld.comps_set]; simp [hx]
    · exact gWorld.length_set _ _ _
  | some inv =>
    have ht : ¬ inv.time > 0 := not_lt.2 (htgt inv hinv)
    simp only [ht, if_false, hh]
    refine ⟨_, rfl, ?_, ?_, ?_⟩
    · rw [gWorld.comps_set]; simp [hc, hinv, invulnerabilityTime]
    · intro x hx; rw [gWorld.comps_set]; simp [hx]
    · exact gWorld.length_set _ _ _

/-- The two early returns of `applyDamage`. -/
theorem applyDamage_of_immune (w : gWorld) (e : gEntity) (value : Int) (src : gEntity) (check : Bool)
    (h : (check = true ∧
          ∃ cs inv, w.comps src = some cs ∧ cs.invulnerability = some inv ∧ inv.time > 0) ∨
        (∃ c inv, w.comps e = some c ∧ c.invulnerability = some inv ∧ inv.time > 0)) :
    applyDamage w e value src check = some w := by
  unfold applyDamage
  rcases h with h | ⟨c, inv, hc, hinv, ht⟩
  · rw [← applyDamage_sourceImmune_iff] at h
    simp only [h, if_true]
  · simp only [hc, hinv, ht, if_true]
    split <;> rfl

theorem gWorldHasComponent_eq_true_iff (w : gWorld) (e : gEntity) (id : ComponentId) :
    gWorldHasComponent w e id = true ↔ ∃ c, w.comps e = some c ∧ c.has id = true := by
  unfold gWorldHasComponent
  cases h : w.comps e <;> simp

theorem gWorld.mem_slots_of_comps (w : gWorld) (x : gEntity) (c : Components)
    (h : w.comps x = some c) : some c ∈ w.slots := by
  cases x with
  | null => simp [gWorld.comps] at h
  | mk i =>
    rw [gWorld.comps_eq_some_iff] at h
    exact List.getElem?_mem h

theorem gWorld.comps_of_mem_slots (w : gWorld) (c : Components) (h : some c ∈ w.slots) :
    ∃ x, w.comps x = some c := by
  obtain ⟨i, hi, hget⟩ := List.getElem_of_mem h
  refine ⟨.mk i, ?_⟩
  rw [gWorld.comps_eq_some_iff, List.getElem?_eq_getElem hi, hget]

theorem gWorld.enemiesHaveHealth_iff (w : gWorld) :
    w.enemiesHaveHealth = true ↔
      ∀ x c, w.comps x = some c → c.enemy.isSome = true → c.health.isSome = true := by
  unfold gWorld.enemiesHaveHealth
  rw [List.all_eq_true]
  constructor
  · intro h x c hc he
    have := h _ (w.mem_slots_of_comps x c hc)
    simpa [he] using this
  · intro h o ho
    cases o with
    | none => rfl
    | some c =>
      obtain ⟨x, hx⟩ := w.comps_of_mem_slots c ho
      have := h x c hx
      cases he : c.enemy.isSome
      · simp [he]
      · simp [he, this he]

/-- Every result of `applyDamage` is either the input world (an abort) or the input world
with the target's record replaced by the hit record. -/
theorem applyDamage_cases (w w' : gWorld) (e : gEntity) (value : Int) (src : gEntity)
    (check : Bool) (h : applyDamage w e value src check = some w') :
    w' = w ∨ ∃ c hc, w.comps e = some c ∧ c.health = some hc ∧
      (∀ inv, c.invulnerability = some inv → inv.time ≤ 0) ∧
      (check = true →
        ∀ cs inv, w.comps src = some cs → cs.invulnerability = some inv → inv.time ≤ 0) ∧
      w' = w.set e (c.hit hc value src) := by
  by_cases hs : check = true ∧
      ∃ cs inv, w.comps src = some cs ∧ cs.invulnerability = some inv ∧ inv.time > 0
  · rw [applyDamage_of_immune w e value src check (Or.inl hs)] at h
    exact Or.inl (Option.some.inj h).symm
  · have hsrc : check = true →
        ∀ cs inv, w.comps src = some cs → cs.invulnerability = some inv → inv.time ≤ 0 := by
      intro hchk cs inv h1 h2
      by_contra h3
      exact hs ⟨hchk, cs, inv, h1, h2, not_le.1 h3⟩
    by_cases ht : ∃ c inv, w.comps e = some c ∧ c.invulnerability = some inv ∧ inv.time > 0
    · rw [applyDamage_of_immune w e value src check (Or.inr ht)] at h
      exact Or.inl (Option.some.inj h).symm
    · cases hc : w.comps e with
      | none =>
        rw [← applyDamage_sourceImmune_iff] at hs
        simp [applyDamage, hs, hc] at h
      | some c =>
        have htgt : ∀ inv, c.invulnerability = some inv → inv.time ≤ 0 := by
          intro inv hinv
          by_contra h3
          exact ht ⟨c, inv, hc, hinv, not_le.1 h3⟩
        cases hh : c.health with
        | none =>
          rw [← applyDamage_sourceImmune_iff] at hs
          cases hinv : c.invulnerability with
          | none => simp [applyDamage, hs, hc, hh, hinv] at h
          | some inv =>
            have := htgt inv hinv
            simp [applyDamage, hs, hc, hh, hinv, not_lt.2 this] at h
        | some hcomp =>
          right
          refine ⟨c, hcomp, rfl, hh, htgt, hsrc, ?_⟩
          rw [← applyDamage_sourceImmune_iff] at hs
          cases hinv : c.invulnerability with
          | none =>
            simp [applyDamage, hs, hc, hh, hinv] at h
            simp [← h, Components.hit, hinv]
          | some inv =>
            have := htgt inv hinv
            simp [applyDamage, hs, hc, hh, hinv, not_lt.2 this] at h
            simp [← h, Components.hit, hinv]

/-- Definedness of `applyDamage`: it has a result whenever the target is alive and has
Health. -/
theorem applyDamage_defined (w : gWorld) (e : gEntity) (value : Int) (src : gEntity)
    (check : Bool) (c : Components) (hc : w.comps e = some c) (hh : c.health.isSome = true) :
    ∃ w', applyDamage w e value src check = some w' := by
  by_cases hs : check = true ∧
      ∃ cs inv, w.comps src = some cs ∧ cs.invulnerability = some inv ∧ inv.time > 0
  · exact ⟨w, applyDamage_of_immune w e value src check (Or.inl hs)⟩
  · by_cases ht : ∃ c inv, w.comps e = some c ∧ c.invulnerability = some inv ∧ inv.time > 0
    · exact ⟨w, applyDamage_of_immune w e value src check (Or.inr ht)⟩
    · obtain ⟨hcomp, hh2⟩ := Option.isSome_iff_exists.1 hh
      obtain ⟨w', h1, _⟩ := applyDamage_of_not_immune w e value src check c hcomp hc hh2
        (by
          intro hchk cs inv h1 h2
          by_contra h3
          exact hs ⟨hchk, cs, inv, h1, h2, not_le.1 h3⟩)
        (by
          intro inv hinv
          by_contra h3
          exact ht ⟨c, inv, hc, hinv, not_le.1 h3⟩)
      exact ⟨w', h1⟩

theorem gWorldHasComponent_destroy_self (w : gWorld) (e : gEntity) (id : ComponentId) :
    gWorldHasComponent (gWorldDestroyEntity w e) e id = false := by
  simp [gWorldHasComponent, gWorld.comps_destroy]

/-- The two rules of `handleCollisionEvent` exclude each other: when the bullet rule
fires, `e1` is destroyed before the enemy rule looks at it. -/
theorem handleCollisionEvent_eq (w : gWorld) (ev : collideEventComp) :
    handleCollisionEvent w ev =
      if gWorldHasComponent w ev.e1 .bulletComp && gWorldHasComponent w ev.e2 .healthComp then
        match (w.comps ev.e1).bind (fun c => c.bullet) with
        | some bullet =>
          (applyDamage w ev.e2 1 bullet.owner false).map (fun w1 => gWorldDestroyEntity w1 ev.e1)
        | none => none
      else if gWorldHasComponent w ev.e1 .enemyComp && gWorldHasComponent w ev.e2 .healthComp then
        (applyDamage w ev.e2 1 ev.e1 true).bind (fun w2 => applyDamage w2 ev.e1 1 ev.e2 true)
      else some w := by
  unfold handleCollisionEvent
  by_cases hb : (gWorldHasComponent w ev.e1 .bulletComp && gWorldHasComponent w ev.e2 .healthComp) = true
  · simp only [hb, if_true]
    cases hbul : (w.comps ev.e1).bind (fun c => c.bullet) with
    | none => rfl
    | some bullet =>
      cases hd : applyDamage w ev.e2 1 bullet.owner false with
      | none => simp [hd]
      | some w1 => simp [hd, gWorldHasComponent_destroy_self]
  · simp only [hb, if_false, Bool.false_eq_true]
    by_cases he : (gWorldHasComponent w ev.e1 .enemyComp && gWorldHasComponent w ev.e2 .healthComp) = true
    · simp only [he, if_true]
      cases hd : applyDamage w ev.e2 1 ev.e1 true with
      | none => simp [hd]
      | some w2 => simp [hd]
    · simp only [he, if_false, Bool.false_eq_true]

/-- A fold in `Option` that keeps an invariant has a result, and the result satisfies it. -/
theorem foldlM_invariant {σ α : Type} (f : σ → α → Option σ) (J : σ → Prop) (l : List α)
    (step : ∀ s x, x ∈ l → J s → ∃ s', f s x = some s' ∧ J s') :
    ∀ s, J s → ∃ s', l.foldlM f s = some s' ∧ J s' := by
  induction l with
  | nil => intro s hs; exact ⟨s, rfl, hs⟩
  | cons a l ih =>
    intro s hs
    obtain ⟨s1, h1, hJ1⟩ := step s a (List.mem_cons_self _ _) hs
    obtain ⟨s2, h2, hJ2⟩ := ih (fun s x hx hJ => step s x (List.mem_cons_of_mem _ hx) hJ) s1 hJ1
    exact ⟨s2, by simp [List.foldlM_cons, h1, h2], hJ2⟩

/-- A fold in `Option` that keeps an invariant `J`, in which one element of the list
establishes `K` and every element keeps `K`, ends in a state satisfying both. -/
theorem foldlM_establish {σ α : Type} (f : σ → α → Option σ) (J K : σ → Prop) (l : List α)
    (a : α) (ha : a ∈ l)
    (step : ∀ s x, x ∈ l → J s → ∃ s', f s x = some s' ∧ J s' ∧ (K s → K s'))
    (est : ∀ s s', J s → f s a = some s' → K s') :
    ∀ s, J s → ∃ s', l.foldlM f s = some s' ∧ J s' ∧ K s' := by
  have key : ∀ (l' : List α), (∀ x, x ∈ l' → x ∈ l) → ∀ s, J s → (K s ∨ a ∈ l') →
      ∃ s', l'.foldlM f s = some s' ∧ J s' ∧ K s' := by
    intro l'
    induction l' with
    | nil =>
      intro _ s hs hk
      rcases hk with hk | hk
      · exact ⟨s, rfl, hs, hk⟩
      · exact absurd hk (List.not_mem_nil _)
    | cons b l' ih =>
      intro hsub s hs hk
      obtain ⟨s1, h1, hJ1, hK1⟩ := step s b (hsub b (List.mem_cons_self _ _)) hs
      have hk1 : K s1 ∨ a ∈ l' := by
        rcases hk with hk | hk
        · exact Or.inl (hK1 hk)
        · rcases List.mem_cons.1 hk with rfl | hk
          · exact Or.inl (est s s1 hs h1)
          · exact Or.inr hk
      obtain ⟨s2, h2, hJ2, hK2⟩ := ih (fun x hx => hsub x (List.mem_cons_of_mem _ hx)) s1 hJ1 hk1
      exact ⟨s2, by simp [List.foldlM_cons, h1, h2], hJ2, hK2⟩
  intro s hs
  exact key l (fun _ h => h) s hs (Or.inr ha)

/-- Effect of `applyDamage` on the record of an arbitrary entity `x`: unchanged, or `x` is
the target, not immune, and its record is replaced by the hit record. -/
theorem applyDamage_comps (w w' : gWorld) (e : gEntity) (value : Int) (src : gEntity)
    (check : Bool) (h : applyDamage w e value src check = some w') (x : gEntity) :
    w'.comps x = w.comps x ∨
      (x = e ∧ ∃ c hc, w.comps x = some c ∧ c.health = some hc ∧
        (∀ inv, c.invulnerability = some inv → inv.time ≤ 0) ∧
        w'.comps x = some (c.hit hc value src)) := by
  rcases applyDamage_cases w w' e value src check h with rfl | ⟨c, hc, h1, h2, h3, _, h5⟩
  · exact Or.inl rfl
  · by_cases hx : x = e
    · subst hx
      right
      refine ⟨rfl, c, hc, h1, h2, h3, ?_⟩
      rw [h5, gWorld.comps_set]
      simp [h1]
    · left
      rw [h5, gWorld.comps_set]
      simp [hx]

theorem Components.has_hit (c : Components) (hc : healthComp) (value : Int) (src : gEntity)
    (h : c.health = some hc) (id : ComponentId) : (c.hit hc value src).has id = c.has id := by
  cases id <;> simp [Components.hit, Components.has, h]

/-- Through `applyDamage` no component is attached or detached and no entity destroyed. -/
theorem applyDamage_has (w w' : gWorld) (e : gEntity) (value : Int) (src : gEntity)
    (check : Bool) (h : applyDamage w e value src check = some w') (x : gEntity)
    (id : ComponentId) : gWorldHasComponent w' x id = gWorldHasComponent w x id := by
  rcases applyDamage_comps w w' e value src check h x with h1 | ⟨_, c, hc, h1, h2, _, h4⟩
  · simp [gWorldHasComponent, h1]
  · simp [gWorldHasComponent, h1, h4, Components.has_hit c hc value src h2]

theorem applyDamage_enemiesHaveHealth (w w' : gWorld) (e : gEntity) (value : Int)
    (src : gEntity) (check : Bool) (h : applyDamage w e value src check = some w')
    (hwf : w.enemiesHaveHealth = true) : w'.enemiesHaveHealth = true := by
  rw [gWorld.enemiesHaveHealth_iff] at hwf ⊢
  intro x c' hc' he
  rcases applyDamage_comps w w' e value src check h x with h1 | ⟨_, c, hc, h1, h2, _, h4⟩
  · exact hwf x c' (h1 ▸ hc') he
  · rw [h4] at hc'
    have e1 := Option.some.inj hc'
    subst e1
    simp [Components.hit]

theorem gWorldDestroyEntity_enemiesHaveHealth (w : gWorld) (e : gEntity)
    (hwf : w.enemiesHaveHealth = true) : (gWorldDestroyEntity w e).enemiesHaveHealth = true := by
  rw [gWorld.enemiesHaveHealth_iff] at hwf ⊢
  intro x c' hc' he
  rw [gWorld.comps_destroy] at hc'
  split at hc'
  · exact absurd hc' (by simp)
  · exact hwf x c' hc' he

/-- A property kept by every `applyDamage` of one point and by every destruction of a
bullet is kept by `handleCollisionEvent`. -/
theorem handleCollisionEvent_invariant (J : gWorld → Prop)
    (hdmg : ∀ w w' e src check, J w → applyDamage w e 1 src check = some w' → J w')
    (hdes : ∀ w e, J w → gWorldHasComponent w e .bulletComp = true → J (gWorldDestroyEntity w e))
    (w w' : gWorld) (ev : collideEventComp) (hJ : J w)
    (h : handleCollisionEvent w ev = some w') : J w' := by
  rw [handleCollisionEvent_eq] at h
  split at h
  · rename_i hb
    simp only [Bool.and_eq_true] at hb
    cases hbul : (w.comps ev.e1).bind (fun c => c.bullet) with
    | none => simp [hbul] at h
    | some bullet =>
      simp only [hbul] at h
      cases hd : applyDamage w ev.e2 1 bullet.owner false with
      | none => simp [hd] at h
      | some w1 =>
        simp only [hd, Option.map_some', Option.some.injEq] at h
        subst h
        apply hdes w1 ev.e1 (hdmg w w1 _ _ _ hJ hd)
        rw [applyDamage_has w w1 _ _ _ _ hd]
        exact hb.1
  · split at h
    · cases hd : applyDamage w ev.e2 1 ev.e1 true with
      | none => simp [hd] at h
      | some w2 =>
        simp only [hd, Option.some_bind] at h
        exact hdmg w2 w' _ _ _ (hdmg w w2 _ _ _ hJ hd) h
    · exact (Option.some.inj h) ▸ hJ

/-- Damage Resolution of one event has a result when every enemy has Health. -/
theorem handleCollisionEvent_defined (w : gWorld) (ev : collideEventComp)
    (hwf : w.enemiesHaveHealth = true) : ∃ w', handleCollisionEvent w ev = some w' := by
  rw [handleCollisionEvent_eq]
  split
  · rename_i hb
    simp only [Bool.and_eq_true, gWorldHasComponent_eq_true_iff] at hb
    obtain ⟨⟨c1, hc1, hb1⟩, ⟨c2, hc2, hh2⟩⟩ := hb
    simp only [Components.has] at hb1 hh2
    obtain ⟨bullet, hbul⟩ := Option.isSome_iff_exists.1 hb1
    obtain ⟨w1, hw1⟩ := applyDamage_defined w ev.e2 1 bullet.owner false c2 hc2 hh2
    exact ⟨gWorldDestroyEntity w1 ev.e1, by simp [hc1, hbul, hw1]⟩
  · split
    · rename_i he
      simp only [Bool.and_eq_true] at he
      have he1 := he.1
      obtain ⟨⟨c1, hc1, hb1⟩, ⟨c2, hc2, hh2⟩⟩ :=
        (show _ ∧ _ from ⟨(gWorldHasComponent_eq_true_iff _ _ _).1 he.1,
          (gWorldHasComponent_eq_true_iff _ _ _).1 he.2⟩)
      simp only [Components.has] at hb1 hh2
      obtain ⟨w2, hw2⟩ := applyDamage_defined w ev.e2 1 ev.e1 true c2 hc2 hh2
      have hh1 : gWorldHasComponent w ev.e1 .healthComp = true := by
        rw [gWorldHasComponent_eq_true_iff]
        exact ⟨c1, hc1, (w.enemiesHaveHealth_iff.1 hwf) _ c1 hc1 hb1⟩
      rw [← applyDamage_has w w2 _ _ _ _ hw2, gWorldHasComponent_eq_true_iff] at hh1
      obtain ⟨c1', hc1', hh1'⟩ := hh1
      obtain ⟨w3, hw3⟩ := applyDamage_defined w2 ev.e1 1 ev.e2 true c1' hc1' hh1'
      exact ⟨w3, by simp [hw2, hw3]⟩
    · exact ⟨w, rfl⟩

theorem handleCollisionEvent_enemiesHaveHealth (w w' : gWorld) (ev : collideEventComp)
    (hwf : w.enemiesHaveHealth = true) (h : handleCollisionEvent w ev = some w') :
    w'.enemiesHaveHealth = true :=
  handleCollisionEvent_invariant (fun w => w.enemiesHaveHealth = true)
    (fun w w' e src check hJ hd => applyDamage_enemiesHaveHealth w w' e 1 src check hd hJ)
    (fun w e hJ _ => gWorldDestroyEntity_enemiesHaveHealth w e hJ) w w' ev hwf h

/-- Unfolding of `handleCollisionEvents`: a fold of `handleCollisionEventAt` over the
snapshot of events. -/
theorem handleCollisionEvents_eq (w : gWorld) :
    handleCollisionEvents w =
      (w.query [.collideEventComp]).foldlM handleCollisionEventAt w := rfl

/-- A property kept by every `applyDamage` of one point and by every destruction of a
bullet holds after `handleCollisionEvents`, which has a result when every enemy has
Health. -/
theorem handleCollisionEvents_invariant (J : gWorld → Prop)
    (hdmg : ∀ w w' e src check, J w → applyDamage w e 1 src check = some w' → J w')
    (hdes : ∀ w e, J w → gWorldHasComponent w e .bulletComp = true → J (gWorldDestroyEntity w e))
    (w : gWorld) (hwf : w.enemiesHaveHealth = true) (hJ : J w) :
    ∃ w', handleCollisionEvents w = some w' ∧ w'.enemiesHaveHealth = true ∧ J w' := by
  rw [handleCollisionEvents_eq]
  apply foldlM_invariant handleCollisionEventAt
    (fun acc => acc.enemiesHaveHealth = true ∧ J acc) _ _ w ⟨hwf, hJ⟩
  intro s x _ hs
  unfold handleCollisionEventAt
  cases hc : s.comps x with
  | none => exact ⟨s, rfl, hs⟩
  | some c =>
    cases hev : c.collideEvent with
    | none => exact ⟨s, by simp [hev], hs⟩
    | some ev =>
      obtain ⟨s', hs'⟩ := handleCollisionEvent_defined s ev hs.1
      exact ⟨s', by simp [hev, hs'], handleCollisionEvent_enemiesHaveHealth s s' ev hs.1 hs',
        handleCollisionEvent_invariant J hdmg hdes s s' ev hs.2 hs'⟩

theorem gWorld.mem_query (w : gWorld) (ids : List ComponentId) (e : gEntity) :
    e ∈ w.query ids ↔ ∃ c, w.comps e = some c ∧ c.hasAll ids = true := by
  unfold gWorld.query
  rw [List.mem_map]
  constructor
  · rintro ⟨i, hi, rfl⟩
    rw [List.mem_filter] at hi
    cases hc : w.comps (.mk i) with
    | none => simp [hc] at hi
    | some c => exact ⟨c, rfl, by simpa [hc] using hi.2⟩
  · rintro ⟨c, hc, hall⟩
    cases e with
    | null => simp [gWorld.comps] at hc
    | mk i =>
      refine ⟨i, ?_, rfl⟩
      rw [List.mem_filter, List.mem_range]
      exact ⟨w.lt_of_comps_isSome i (by simp [hc]), by simp [hc, hall]⟩

theorem gWorld.nodup_query (w : gWorld) (ids : List ComponentId) : (w.query ids).Nodup := by
  unfold gWorld.query
  apply List.Nodup.map
  · intro a b h
    exact gEntity.mk.inj h
  · exact List.Nodup.filter _ (List.nodup_range _)

/-- Creating an entity and then writing its record appends that record to the store. -/
theorem gWorld.set_create (w : gWorld) (ids : List ComponentId) (c : Components) :
    (gWorldCreateEntity w ids).1.set (gWorldCreateEntity w ids).2 c =
      { slots := w.slots ++ [some c] } := by
  apply gWorld.ext_comps
  · rw [gWorld.length_set]; simp [gWorldCreateEntity]
  · intro x
    rw [gWorld.comps_set, gWorld.comps_create]
    by_cases hx : x = .mk w.slots.length
    · subst hx
      simp [gWorldCreateEntity, gWorld.comps_mk]
    · have : ¬ x = (gWorldCreateEntity w ids).2 := hx
      simp only [this, false_and, if_false]
      cases x with
      | null => simp [gWorld.comps]
      | mk j =>
        have hj : j ≠ w.slots.length := fun h => hx (by rw [h])
        rcases Nat.lt_or_gt_of_ne hj with h | h
        · simp [gWorldCreateEntity, gWorld.comps_mk, List.getElem?_append_left, h]
        · have h4 : w.slots.length + 1 ≤ j := h
          simp [gWorldCreateEntity, gWorld.comps_mk, List.getElem?_eq_none, h4]

/-- Entities of `w` keep their records when slots are appended. -/
theorem gWorld.comps_append (w : gWorld) (extra : List (Option Components)) (x : gEntity)
    (c : Components) (h : w.comps x = some c) :
    ({ slots := w.slots ++ extra } : gWorld).comps x = some c := by
  cases x with
  | null => simp [gWorld.comps] at h
  | mk i =>
    have hlt := w.lt_of_comps_isSome i (by simp [h])
    rw [gWorld.comps_mk] at h ⊢
    simp only [List.getElem?_append_left hlt]
    exact h

/-- A collider of `w` has a transform and a circle collider. -/
theorem gWorld.collider_of_mem (w : gWorld) (a : gEntity)
    (h : a ∈ w.query [.transformComp, .circleColliderComp]) :
    ∃ c t r, w.comps a = some c ∧ c.transform = some t ∧ c.circleCollider = some r := by
  rw [gWorld.mem_query] at h
  obtain ⟨c, hc, hall⟩ := h
  simp only [Components.hasAll, List.all_cons, List.all_nil, Bool.and_true, Bool.and_eq_true,
    Components.has] at hall
  obtain ⟨t, ht⟩ := Option.isSome_iff_exists.1 hall.1
  obtain ⟨r, hr⟩ := Option.isSome_iff_exists.1 hall.2
  exact ⟨c, t, r, hc, ht, hr⟩

/-- The inner scan for the outer collider `a` appends one event per collider it overlaps. -/
theorem collideWith_scan (w : gWorld) (a : gEntity) (ca : Components) (t1 : transformComp)
    (r1 : circleColliderComp) (hca : w.comps a = some ca) (ht1 : ca.transform = some t1)
    (hr1 : ca.circleCollider = some r1) (l : List gEntity)
    (hl : ∀ b ∈ l, b ∈ w.query [.transformComp, .circleColliderComp]) :
    ∀ extra : List (Option Components),
      ({ slots := w.slots ++ extra } : gWorld).foreachIn l (collideWith a t1 r1) =
        { slots := w.slots ++ extra ++
            ((l.filter (fun b => decide (a ≠ b) && w.overlap a b)).map
              (fun b => some (collideEventRecord a b))) } := by
  induction l with
  | nil => intro extra; simp [gWorld.foreachIn]
  | cons b l ih =>
    intro extra
    obtain ⟨cb, t2, r2, hcb, ht2, hr2⟩ := w.collider_of_mem b (hl b (List.mem_cons_self _ _))
    have ih2 := ih (fun x hx => hl x (List.mem_cons_of_mem _ hx))
    have hov : w.overlap a b = CheckCollisionCircles t1.position r1.radius t2.position r2.radius := by
      simp [gWorld.overlap, hca, hcb, ht1, hr1, ht2, hr2]
    have hstep : ({ slots := w.slots ++ extra } : gWorld).foreachIn (b :: l) (collideWith a t1 r1) =
        (collideWith a t1 r1 { slots := w.slots ++ extra } b cb).foreachIn l (collideWith a t1 r1) := by
      simp [gWorld.foreachIn, List.foldl_cons, gWorld.comps_append w extra b cb hcb]
    rw [hstep]
    by_cases hab : a = b
    · have h1 : collideWith a t1 r1 { slots := w.slots ++ extra } b cb = { slots := w.slots ++ extra } := by
        simp [collideWith, gEntityEq, hab]
      rw [h1, ih2 extra]
      simp [hab]
    · by_cases hchk : CheckCollisionCircles t1.position r1.radius t2.position r2.radius = true
      · have h1 : collideWith a t1 r1 { slots := w.slots ++ extra } b cb =
            { slots := w.slots ++ (extra ++ [some (collideEventRecord a b)]) } := by
          simp only [collideWith, gEntityEq, hab, decide_False, Bool.false_eq_true, if_false, ht2,
            hr2, hchk, if_true]
          have hz : (gWorldCreateEntity { slots := w.slots ++ extra } [.collideEventComp]).1.comps
              (gWorldCreateEntity { slots := w.slots ++ extra } [.collideEventComp]).2 =
              some (Components.zero [.collideEventComp]) := by
            rw [gWorld.comps_create]; simp [gWorldCreateEntity]
          simp only [hz]
          rw [gWorld.set_create]
          simp [collideEventRecord, List.append_assoc]
        rw [h1, ih2 (extra ++ [some (collideEventRecord a b)])]
        simp [hab, hov, hchk, List.append_assoc]
      · have h1 : collideWith a t1 r1 { slots := w.slots ++ extra } b cb = { slots := w.slots ++ extra } := by
          simp [collideWith, gEntityEq, hab, ht2, hr2, hchk]
        rw [h1, ih2 extra]
        simp [hab, hov, hchk]

/-- The outer scan over the colliders `l` appends the events of each of them in turn. -/
theorem simpleCollisionDetection_scan (w : gWorld) (l : List gEntity)
    (hl : ∀ a ∈ l, a ∈ w.query [.transformComp, .circleColliderComp]) :
    ∀ extra : List (Option Components),
      ({ slots := w.slots ++ extra } : gWorld).foreachIn l (fun acc outEntity c1 =>
        match c1.transform, c1.circleCollider with
        | some transform1, some collider1 =>
          acc.foreachIn (w.query [.transformComp, .circleColliderComp])
            (collideWith outEntity transform1 collider1)
        | _, _ => acc) =
      { slots := w.slots ++ extra ++
          (l.flatMap (fun a =>
            ((w.query [.transformComp, .circleColliderComp]).filter
              (fun b => decide (a ≠ b) && w.overlap a b)).map
                (fun b => some (collideEventRecord a b)))) } := by
  induction l with
  | nil => intro extra; simp [gWorld.foreachIn]
  | cons a l ih =>
    intro extra
    obtain ⟨ca, t1, r1, hca, ht1, hr1⟩ := w.collider_of_mem a (hl a (List.mem_cons_self _ _))
    have ih2 := ih (fun x hx => hl x (List.mem_cons_of_mem _ hx))
    have hin := collideWith_scan w a ca t1 r1 hca ht1 hr1
      (w.query [.transformComp, .circleColliderComp]) (fun _ h => h) extra
    unfold gWorld.foreachIn at ih2 ⊢
    rw [List.foldl_cons]
    simp only [gWorld.comps_append w extra a ca hca, ht1, hr1]
    unfold gWorld.foreachIn at hin
    rw [hin, List.append_assoc, ih2]
    simp [List.append_assoc]

/-- Collision Detection appends to the store one CollideEvent per ordered pair of distinct
overlapping colliders, in scan order, and changes nothing else. -/
theorem simpleCollisionDetectionSystem_eq (w : gWorld) :
    simpleCollisionDetectionSystem w =
      { slots := w.slots ++ w.collisionPairs.map (fun p => some (collideEventRecord p.1 p.2)) } := by
  have h := simpleCollisionDetection_scan w (w.query [.transformComp, .circleColliderComp])
    (fun _ h => h) []
  simp only [List.append_nil] at h
  unfold simpleCollisionDetectionSystem
  simp only []
  have hw : w = { slots := w.slots } := rfl
  rw [hw] at h ⊢
  simp only [] at h ⊢
  rw [h]
  simp [gWorld.collisionPairs, List.map_flatMap, List.map_map, Function.comp_def]

theorem CheckCollisionCircles_comm (c1 : Vector2) (r1 : ℚ) (c2 : Vector2) (r2 : ℚ) :
    CheckCollisionCircles c1 r1 c2 r2 = CheckCollisionCircles c2 r2 c1 r1 := by
  unfold CheckCollisionCircles
  have h1 : (c2.x - c1.x) ^ 2 + (c2.y - c1.y) ^ 2 = (c1.x - c2.x) ^ 2 + (c1.y - c2.y) ^ 2 := by
    ring
  rw [h1, add_comm r1 r2]

theorem gWorld.overlap_comm (w : gWorld) (a b : gEntity) : w.overlap a b = w.overlap b a := by
  unfold gWorld.overlap
  cases hca : w.comps a with
  | none => cases hcb : w.comps b <;> rfl
  | some ca =>
    cases hcb : w.comps b with
    | none => rfl
    | some cb =>
      simp only []
      cases h1 : ca.transform <;> cases h2 : ca.circleCollider <;> cases h3 : cb.transform <;>
        cases h4 : cb.circleCollider <;> first | rfl | exact CheckCollisionCircles_comm _ _ _ _

theorem gWorld.mem_query_of_overlap (w : gWorld) (a b : gEntity) (h : w.overlap a b = true) :
    a ∈ w.query [.transformComp, .circleColliderComp] ∧
      b ∈ w.query [.transformComp, .circleColliderComp] := by
  unfold gWorld.overlap at h
  cases hca : w.comps a with
  | none => simp [hca] at h
  | some ca =>
    cases hcb : w.comps b with
    | none => simp [hca, hcb] at h
    | some cb =>
      simp only [hca, hcb] at h
      cases h1 : ca.transform <;> cases h2 : ca.circleCollider <;> cases h3 : cb.transform <;>
        cases h4 : cb.circleCollider <;> simp [h1, h2, h3, h4] at h
      simp only [gWorld.mem_query]
      exact ⟨⟨ca, hca, by simp [Components.hasAll, Components.has, h1, h2]⟩,
        ⟨cb, hcb, by simp [Components.hasAll, Components.has, h3, h4]⟩⟩

theorem gWorld.mem_collisionPairs (w : gWorld) (a b : gEntity) :
    (a, b) ∈ w.collisionPairs ↔ a ≠ b ∧ w.overlap a b = true := by
  unfold gWorld.collisionPairs
  simp only [List.mem_flatMap, List.mem_map, List.mem_filter, Bool.and_eq_true,
    decide_eq_true_eq, Prod.mk.injEq]
  constructor
  · rintro ⟨a', _, b', ⟨_, hne, hov⟩, rfl, rfl⟩
    exact ⟨hne, hov⟩
  · rintro ⟨hne, hov⟩
    obtain ⟨ha, hb⟩ := w.mem_query_of_overlap a b hov
    exact ⟨a, ha, b, ⟨hb, hne, hov⟩, rfl, rfl⟩

theorem gWorld.nodup_collisionPairs (w : gWorld) : w.collisionPairs.Nodup := by
  unfold gWorld.collisionPairs
  rw [List.nodup_flatMap]
  constructor
  · intro a _
    apply List.Nodup.map
    · intro x y h
      exact (Prod.mk.inj h).2
    · exact List.Nodup.filter _ (w.nodup_query _)
  · apply List.Pairwise.imp _ (w.nodup_query _)
    intro a a' hne
    simp only [Function.onFun, List.disjoint_left, List.mem_map, List.mem_filter]
    rintro p ⟨b, _, rfl⟩ ⟨b', _, h⟩
    exact hne (Prod.mk.inj h).1.symm

/-- A property of the record of `x` that survives every landed hit holds for as long as
`x` is in the store, through `applyDamage`. -/
theorem applyDamage_keeps (x : gEntity) (Q : Components → Prop)
    (hQ : ∀ c h src, c.health = some h → (∀ inv, c.invulnerability = some inv → inv.time ≤ 0) →
      Q c → Q (c.hit h 1 src))
    (w w' : gWorld) (e src : gEntity) (check : Bool)
    (hJ : ∀ c, w.comps x = some c → Q c) (hd : applyDamage w e 1 src check = some w') :
    ∀ c, w'.comps x = some c → Q c := by
  intro c hc
  rcases applyDamage_comps w w' e 1 src check hd x with q | ⟨_, c0, h0, q1, q2, q3, q4⟩
  · exact hJ c (q ▸ hc)
  · rw [q4] at hc
    have := Option.some.inj hc
    subst this
    exact hQ c0 h0 src q2 q3 (hJ c0 q1)

/-- The same through a whole `handleCollisionEvent`. -/
theorem handleCollisionEvent_keeps (x : gEntity) (Q : Components → Prop)
    (hQ : ∀ c h src, c.health = some h → (∀ inv, c.invulnerability = some inv → inv.time ≤ 0) →
      Q c → Q (c.hit h 1 src))
    (w w' : gWorld) (ev : collideEventComp)
    (hJ : ∀ c, w.comps x = some c → Q c) (h : handleCollisionEvent w ev = some w') :
    ∀ c, w'.comps x = some c → Q c := by
  refine handleCollisionEvent_invariant (fun acc => ∀ c, acc.comps x = some c → Q c) ?_ ?_
    w w' ev hJ h
  · intro a a' e src check hJ' hd
    exact applyDamage_keeps x Q hQ a a' e src check hJ' hd
  · intro a e hJ' _ c hc
    rw [gWorld.comps_destroy] at hc
    split at hc
    · exact absurd hc (by simp)
    · exact hJ' c hc

/-- An entity that is not a bullet stays in the store through `handleCollisionEvent`. -/
theorem handleCollisionEvent_alive (x : gEntity) (w w' : gWorld) (ev : collideEventComp)
    (hJ : ∃ c, w.comps x = some c ∧ c.bullet = none) (h : handleCollisionEvent w ev = some w') :
    ∃ c, w'.comps x = some c ∧ c.bullet = none := by
  refine handleCollisionEvent_invariant (fun acc => ∃ c, acc.comps x = some c ∧ c.bullet = none)
    ?_ ?_ w w' ev hJ h
  · rintro a a' e src check ⟨c, h1, h2⟩ hd
    rcases applyDamage_comps a a' e 1 src check hd x with q | ⟨_, c0, h0, q1, q2, q3, q4⟩
    · exact ⟨c, q ▸ h1, h2⟩
    · rw [h1] at q1
      have := Option.some.inj q1
      subst this
      exact ⟨_, q4, by simpa [Components.hit] using h2⟩
  · rintro a e ⟨c, h1, h2⟩ hbul
    rw [gWorldHasComponent_eq_true_iff] at hbul
    obtain ⟨c0, hc0, hb0⟩ := hbul
    have hne : x ≠ e := by
      rintro rfl
      rw [h1] at hc0
      have := Option.some.inj hc0
      subst this
      simp [Components.has, h2] at hb0
    exact ⟨c, by rw [gWorld.comps_destroy]; simp [hne, h1], h2⟩

/-- No event brings an entity (back) into the store, and Health is never attached. -/
theorem handleCollisionEvent_has_healthComp (x : gEntity) (w w' : gWorld)
    (ev : collideEventComp) (h : handleCollisionEvent w ev = some w')
    (hx : gWorldHasComponent w' x .healthComp = true) :
    gWorldHasComponent w x .healthComp = true := by
  by_contra hn
  have key : ∀ c, w'.comps x = some c → c.health = none := by
    apply handleCollisionEvent_keeps x (fun c => c.health = none) _ w w' ev _ h
    · intro c h0 src hh _ hq
      rw [hq] at hh
      exact absurd hh (by simp)
    · intro c hc
      cases hh : c.health with
      | none => rfl
      | some v => exact absurd (by simp [gWorldHasComponent, hc, Components.has, hh]) hn
  rw [gWorldHasComponent_eq_true_iff] at hx
  obtain ⟨c, hc, hh⟩ := hx
  simp [Components.has, key c hc] at hh

theorem applyDamage_alive (w w' : gWorld) (e : gEntity) (value : Int) (src : gEntity)
    (check : Bool) (h : applyDamage w e value src check = some w') (x : gEntity) :
    w'.comps x = none ↔ w.comps x = none := by
  rcases applyDamage_comps w w' e value src check h x with q | ⟨_, c0, h0, q1, _, _, q4⟩
  · rw [q]
  · simp [q1, q4]

/-- After a hit attempt without the source check, a target with Health and
Invulnerability is immune: it already was, or the hit landed and opened the window. -/
theorem applyDamage_target_immune (w w' : gWorld) (p src : gEntity) (value : Int)
    (c : Components) (inv : invulnerabilityComp) (hc : w.comps p = some c)
    (hinv : c.invulnerability = some inv) (hh : c.health.isSome = true)
    (h : applyDamage w p value src false = some w') :
    ∃ c' inv', w'.comps p = some c' ∧ c'.invulnerability = some inv' ∧ inv'.time > 0 := by
  by_cases ht : inv.time > 0
  · rw [applyDamage_of_immune w p value src false (Or.inr ⟨c, inv, hc, hinv, ht⟩)] at h
    rw [← Option.some.inj h]
    exact ⟨c, inv, hc, hinv, ht⟩
  · obtain ⟨hcomp, hh2⟩ := Option.isSome_iff_exists.1 hh
    obtain ⟨w2, h1, h2, _⟩ := applyDamage_of_not_immune w p value src false c hcomp hc hh2
      (by intro hf; exact absurd hf (by simp))
      (by
        intro inv0 hinv0
        rw [hinv] at hinv0
        rw [← Option.some.inj hinv0]
        exact not_lt.1 ht)
    rw [h] at h1
    rw [Option.some.inj h1]
    exact ⟨_, { time := 3 }, h2, by simp [hinv], by norm_num⟩

/-- The bullet `b` is still there, or the player `p` is immune: kept by every event, as
long as every event of `b` against a Health-bearing entity is against `p`. -/
theorem handleCollisionEvent_bullet_or_immune (w w' : gWorld) (ev : collideEventComp)
    (p b : gEntity)
    (hp : ∃ c inv, w.comps p = some c ∧ c.bullet = none ∧ c.invulnerability = some inv ∧
      c.health.isSome = true)
    (hev : ev.e1 = b → gWorldHasComponent w ev.e2 .healthComp = true → ev.e2 = p)
    (hL : w.comps b ≠ none ∨
      ∃ c inv, w.comps p = some c ∧ c.invulnerability = some inv ∧ inv.time > 0)
    (h : handleCollisionEvent w ev = some w') :
    w'.comps b ≠ none ∨
      ∃ c inv, w'.comps p = some c ∧ c.invulnerability = some inv ∧ inv.time > 0 := by
  obtain ⟨cp, invp, hcp, hpb, hpi, hph⟩ := hp
  obtain ⟨cp', hcp', _⟩ := handleCollisionEvent_alive p w w' ev ⟨cp, hcp, hpb⟩ h
  rcases hL with hL | ⟨c, inv, h1, h2, h3⟩
  · by_cases hb' : w'.comps b = none
    · right
      rw [handleCollisionEvent_eq] at h
      split at h
      · rename_i hbr
        simp only [Bool.and_eq_true] at hbr
        cases hbul : (w.comps ev.e1).bind (fun c => c.bullet) with
        | none => simp [hbul] at h
        | some bullet =>
          simp only [hbul] at h
          cases hd : applyDamage w ev.e2 1 bullet.owner false with
          | none => simp [hd] at h
          | some w1 =>
            simp only [hd, Option.map_some', Option.some.injEq] at h
            subst h
            have hbe : b = ev.e1 := by
              by_contra hne
              rw [gWorld.comps_destroy] at hb'
              simp only [hne, if_false] at hb'
              exact hL ((applyDamage_alive w w1 _ _ _ _ hd b).1 hb')
            have he2 : ev.e2 = p := hev hbe.symm hbr.2
            rw [he2] at hd
            obtain ⟨c', inv', q1, q2, q3⟩ :=
              applyDamage_target_immune w w1 p bullet.owner 1 cp invp hcp hpi hph hd
            have hpne : p ≠ ev.e1 := by
              intro hpe
              rw [gWorld.comps_destroy, ← hpe] at hcp'
              simp at hcp'
            exact ⟨c', inv', by rw [gWorld.comps_destroy]; simp [hpne, q1], q2, q3⟩
      · split at h
        · cases hd : applyDamage w ev.e2 1 ev.e1 true with
          | none => simp [hd] at h
          | some w2 =>
            simp only [hd, Option.some_bind] at h
            exact absurd ((applyDamage_alive w w2 _ _ _ _ hd b).1
              ((applyDamage_alive w2 w' _ _ _ _ h b).1 hb')) hL
        · rw [← Option.some.inj h] at hb'
          exact absurd hb' hL
    · exact Or.inl hb'
  · right
    have key := handleCollisionEvent_keeps p
      (fun c => ∃ inv, c.invulnerability = some inv ∧ inv.time > 0)
      (by
        rintro c0 h0 src _ hle ⟨inv0, q1, q2⟩
        exact absurd q2 (not_lt.2 (hle inv0 q1)))
      w w' ev
      (by
        intro c0 hc0
        rw [h1] at hc0
        rw [← Option.some.inj hc0]
        exact ⟨inv, h2, h3⟩)
      h cp' hcp'
    obtain ⟨inv', q1, q2⟩ := key
    exact ⟨cp', inv', hcp', q1, q2⟩

/-- The event `(b, t)` consumes the bullet `b`: after it `b` is not in the store, when `b`
is a bullet (or already gone) and `t` has Health. -/
theorem handleCollisionEvent_consumes (s s' : gWorld) (b t : gEntity)
    (hb : ∀ c, s.comps b = some c → c.bullet.isSome = true)
    (ht : gWorldHasComponent s t .healthComp = true)
    (h : handleCollisionEvent s { e1 := b, e2 := t } = some s') : s'.comps b = none := by
  rw [handleCollisionEvent_eq] at h
  cases hcb : s.comps b with
  | none =>
    have hnb : ∀ id, gWorldHasComponent s b id = false := by
      intro id; simp [gWorldHasComponent, hcb]
    simp only [hnb, Bool.false_and, Bool.false_eq_true, if_false] at h
    rw [← Option.some.inj h]
    exact hcb
  | some cb =>
    have hbb : gWorldHasComponent s b .bulletComp = true := by
      rw [gWorldHasComponent_eq_true_iff]
      exact ⟨cb, hcb, hb cb hcb⟩
    simp only [hbb, ht, Bool.and_self, if_true] at h
    cases hbul : (s.comps b).bind (fun c => c.bullet) with
    | none => simp [hbul] at h
    | some bullet =>
      simp only [hbul] at h
      cases hd : applyDamage s t 1 bullet.owner false with
      | none => simp [hd] at h
      | some w1 =>
        simp only [hd, Option.map_some', Option.some.injEq] at h
        subst h
        rw [gWorld.comps_destroy]
        simp

/-- Damage Resolution for a bullet `b` touching a player `p` (Health `h`, invulnerability
time `t`, not a bullet), in a store where the event `(b, p)` is pending and every event
of `b` against a Health-bearing entity is against `p`: the bullet is destroyed; the
player ends with `h - 1` and time 3 when `t ≤ 0`, and unchanged when `t > 0`. -/
theorem handleCollisionEvents_bullet_hits (w : gWorld) (p b evE : gEntity) (cp : Components)
    (h m : Int) (t : ℚ)
    (hwf : w.enemiesHaveHealth = true)
    (hp : w.comps p = some cp) (hpb : cp.bullet = none)
    (hph : cp.health = some { currentHealth := h, maxHealth := m })
    (hpi : cp.invulnerability = some { time := t })
    (hb : gWorldHasComponent w b .bulletComp = true)
    (hev : ∃ c, w.comps evE = some c ∧ c.bullet = none ∧
      c.collideEvent = some { e1 := b, e2 := p })
    (hevs : ∀ x c e, w.comps x = some c → c.collideEvent = some e → e.e1 = b →
      gWorldHasComponent w e.e2 .healthComp = true → e.e2 = p) :
    ∃ w', handleCollisionEvents w = some w' ∧ w'.comps b = none ∧
      ∃ cp', w'.comps p = some cp' ∧
        ((t ≤ 0 ∧ cp'.health = some { currentHealth := h - 1, maxHealth := m } ∧
            cp'.invulnerability = some { time := 3 }) ∨
          (0 < t ∧ cp'.health = some { currentHealth := h, maxHealth := m } ∧
            cp'.invulnerability = some { time := t })) := by
  obtain ⟨cev, hcev, hcevb, hcevc⟩ := hev
  have hQp : ∀ (c : Components) (h0 : healthComp) (src : gEntity), c.health = some h0 →
      (∀ inv, c.invulnerability = some inv → inv.time ≤ 0) →
      ((c.health = some { currentHealth := h, maxHealth := m } ∧
          c.invulnerability = some { time := t }) ∨
        (t ≤ 0 ∧ c.health = some { currentHealth := h - 1, maxHealth := m } ∧
          c.invulnerability = some { time := 3 })) →
      (((c.hit h0 1 src).health = some { currentHealth := h, maxHealth := m } ∧
          (c.hit h0 1 src).invulnerability = some { time := t }) ∨
        (t ≤ 0 ∧ (c.hit h0 1 src).health = some { currentHealth := h - 1, maxHealth := m } ∧
          (c.hit h0 1 src).invulnerability = some { time := 3 })) := by
    rintro c h0 src hh hle (⟨q1, q2⟩ | ⟨_, _, q2⟩)
    · right
      rw [hh] at q1
      have := Option.some.inj q1
      subst this
      exact ⟨hle _ q2, by simp [Components.hit], by simp [Components.hit, q2, invulnerabilityTime]⟩
    · have := hle _ q2
      norm_num at this
  have hmem : evE ∈ w.query [.collideEventComp] := by
    rw [gWorld.mem_query]
    exact ⟨cev, hcev, by simp [Components.hasAll, Components.has, hcevc]⟩
  rw [handleCollisionEvents_eq]
  obtain ⟨w', h1, hJ, hK⟩ := foldlM_establish handleCollisionEventAt
    (fun acc => acc.enemiesHaveHealth = true ∧
      (∃ c, acc.comps p = some c ∧ c.bullet = none) ∧
      (∀ c, acc.comps p = some c →
        ((c.health = some { currentHealth := h, maxHealth := m } ∧
            c.invulnerability = some { time := t }) ∨
          (t ≤ 0 ∧ c.health = some { currentHealth := h - 1, maxHealth := m } ∧
            c.invulnerability = some { time := 3 }))) ∧
      (∀ c, acc.comps b = some c → c.bullet.isSome = true) ∧
      (∃ c, acc.comps evE = some c ∧ c.bullet = none) ∧
      (∀ c, acc.comps evE = some c → c.collideEvent = some { e1 := b, e2 := p }) ∧
      (∀ x c e, acc.comps x = some c → c.collideEvent = some e → e.e1 = b →
        gWorldHasComponent acc e.e2 .healthComp = true → e.e2 = p) ∧
      (acc.comps b ≠ none ∨
        ∃ c inv, acc.comps p = some c ∧ c.invulnerability = some inv ∧ inv.time > 0))
    (fun acc => acc.comps b = none)
    (w.query [.collideEventComp]) evE hmem
    (by
      rintro s x _ ⟨j1, j2, j3, j4, j5, j6, j7, j8⟩
      unfold handleCollisionEventAt
      cases hc : s.comps x with
      | none => exact ⟨s, rfl, ⟨j1, j2, j3, j4, j5, j6, j7, j8⟩, id⟩
      | some c =>
        cases hce : c.collideEvent with
        | none => exact ⟨s, by simp [hce], ⟨j1, j2, j3, j4, j5, j6, j7, j8⟩, id⟩
        | some e =>
          obtain ⟨s', hs'⟩ := handleCollisionEvent_defined s e j1
          refine ⟨s', by simp [hce, hs'], ⟨handleCollisionEvent_enemiesHaveHealth s s' e j1 hs',
            handleCollisionEvent_alive p s s' e j2 hs',
            handleCollisionEvent_keeps p _ hQp s s' e j3 hs',
            handleCollisionEvent_keeps b (fun c => c.bullet.isSome = true)
              (by intro c0 h0 src _ _ q; simpa [Components.hit] using q) s s' e j4 hs',
            handleCollisionEvent_alive evE s s' e j5 hs',
            handleCollisionEvent_keeps evE (fun c => c.collideEvent = some { e1 := b, e2 := p })
              (by intro c0 h0 src _ _ q; simpa [Components.hit] using q) s s' e j6 hs',
            ?_, ?_⟩, ?_⟩
          · intro x' c' e' hx' hce' he1 hhas
            have hhas0 := handleCollisionEvent_has_healthComp e'.e2 s s' e hs' hhas
            by_contra hne
            have key := handleCollisionEvent_keeps x' (fun c => c.collideEvent ≠ some e')
              (by intro c0 h0 src _ _ q; simpa [Components.hit] using q) s s' e
              (by
                intro c0 hc0 hq
                exact hne (j7 x' c0 e' hc0 hq he1 hhas0))
              hs' c' hx'
            exact key hce'
          · obtain ⟨cp0, hcp0, hcpb0⟩ := j2
            have hst := j3 cp0 hcp0
            have hp0 : ∃ c inv, s.comps p = some c ∧ c.bullet = none ∧
                c.invulnerability = some inv ∧ c.health.isSome = true := by
              rcases hst with ⟨q1, q2⟩ | ⟨_, q1, q2⟩
              · exact ⟨cp0, _, hcp0, hcpb0, q2, by simp [q1]⟩
              · exact ⟨cp0, _, hcp0, hcpb0, q2, by simp [q1]⟩
            exact handleCollisionEvent_bullet_or_immune s s' e p b hp0
              (fun he1 hhas => j7 x c e hc hce he1 hhas) j8 hs'
          · intro hK
            have key := handleCollisionEvent_keeps b (fun _ => False)
              (by intro c0 h0 src _ _ q; exact q) s s' e
              (by intro c0 hc0; rw [hK] at hc0; exact absurd hc0 (by simp)) hs'
            cases hb' : s'.comps b with
            | none => rfl
            | some c0 => exact absurd (key c0 hb') id)
    (by
      rintro s s' ⟨j1, j2, j3, j4, ⟨ce, hce, _⟩, j6, j7, j8⟩ hstep
      have hcc := j6 ce hce
      simp only [handleCollisionEventAt, hce, hcc] at hstep
      obtain ⟨cp0, hcp0, _⟩ := j2
      have hth : gWorldHasComponent s p .healthComp = true := by
        rw [gWorldHasComponent_eq_true_iff]
        refine ⟨cp0, hcp0, ?_⟩
        rcases j3 cp0 hcp0 with ⟨q1, _⟩ | ⟨_, q1, _⟩ <;> simp [Components.has, q1]
      exact handleCollisionEvent_consumes s s' b p j4 hth hstep)
    w
    ⟨hwf, ⟨cp, hp, hpb⟩,
      (by
        intro c hc
        rw [hp] at hc
        rw [← Option.some.inj hc]
        exact Or.inl ⟨hph, hpi⟩),
      (by
        intro c hc
        simpa [gWorldHasComponent, hc, Components.has] using hb),
      ⟨cev, hcev, hcevb⟩,
      (by
        intro c hc
        rw [hcev] at hc
        rw [← Option.some.inj hc]
        exact hcevc),
      hevs,
      (by
        left
        rw [gWorldHasComponent_eq_true_iff] at hb
        obtain ⟨c, hc, _⟩ := hb
        simp [hc])⟩
  obtain ⟨_, ⟨cp', hcp', _⟩, j3, _, _, _, _, j8⟩ := hJ
  refine ⟨w', h1, hK, cp', hcp', ?_⟩
  rcases j8 with hne | ⟨c, inv, q1, q2, q3⟩
  · exact absurd hK hne
  · rw [hcp'] at q1
    have := Option.some.inj q1
    subst this
    rcases j3 cp' hcp' with ⟨r1, r2⟩ | ⟨r0, r1, r2⟩
    · right
      rw [r2] at q2
      have := Option.some.inj q2
      subst this
      exact ⟨q3, r1, r2⟩
    · exact Or.inl ⟨r0, r1, r2⟩

/-- A record found after slots were appended is an old record in place or a new one. -/
theorem gWorld.comps_append_cases (w : gWorld) (extra : List (Option Components))
    (x : gEntity) (c : Components)
    (h : ({ slots := w.slots ++ extra } : gWorld).comps x = some c) :
    w.comps x = some c ∨ some c ∈ extra := by
  cases x with
  | null => simp [gWorld.comps] at h
  | mk i =>
    rw [gWorld.comps_eq_some_iff] at h
    by_cases hlt : i < w.slots.length
    · left
      rw [gWorld.comps_eq_some_iff]
      simpa [List.getElem?_append_left hlt] using h
    · right
      rw [List.getElem?_append_right (not_lt.1 hlt)] at h
      exact List.getElem?_mem h

/-- After Collision Detection every old entity has the record it had. -/
theorem simpleCollisionDetectionSystem_comps_old (w : gWorld) (x : gEntity) (c : Components)
    (h : w.comps x = some c) : (simpleCollisionDetectionSystem w).comps x = some c := by
  rw [simpleCollisionDetectionSystem_eq]
  exact w.comps_append _ x c h

/-- After Collision Detection a record is an old one, or the event of a colliding pair. -/
theorem simpleCollisionDetectionSystem_comps_cases (w : gWorld) (x : gEntity) (c : Components)
    (h : (simpleCollisionDetectionSystem w).comps x = some c) :
    w.comps x = some c ∨
      ∃ a b, a ≠ b ∧ w.overlap a b = true ∧ c = collideEventRecord a b := by
  rw [simpleCollisionDetectionSystem_eq] at h
  rcases w.comps_append_cases _ x c h with h1 | h1
  · exact Or.inl h1
  · right
    rw [List.mem_map] at h1
    obtain ⟨⟨a, b⟩, hab, heq⟩ := h1
    have := (w.mem_collisionPairs a b).1 hab
    exact ⟨a, b, this.1, this.2, (Option.some.inj heq).symm⟩

/-- Every colliding pair has its event entity after Collision Detection. -/
theorem simpleCollisionDetectionSystem_event (w : gWorld) (a b : gEntity) (hne : a ≠ b)
    (hov : w.overlap a b = true) :
    ∃ ev, (simpleCollisionDetectionSystem w).comps ev = some (collideEventRecord a b) := by
  apply gWorld.comps_of_mem_slots
  rw [simpleCollisionDetectionSystem_eq]
  simp only [List.mem_append, List.mem_map]
  right
  exact ⟨(a, b), (w.mem_collisionPairs a b).2 ⟨hne, hov⟩, rfl⟩

theorem simpleCollisionDetectionSystem_has (w : gWorld) (x : gEntity) (id : ComponentId)
    (hid : id ≠ .collideEventComp)
    (h : gWorldHasComponent (simpleCollisionDetectionSystem w) x id = true) :
    gWorldHasComponent w x id = true := by
  rw [gWorldHasComponent_eq_true_iff] at h ⊢
  obtain ⟨c, hc, hh⟩ := h
  rcases simpleCollisionDetectionSystem_comps_cases w x c hc with h1 | ⟨a, b, _, _, h1⟩
  · exact ⟨c, h1, hh⟩
  · subst h1
    cases id <;> simp [collideEventRecord, Components.zero, Components.slot, Components.has] at hh hid

theorem simpleCollisionDetectionSystem_enemiesHaveHealth (w : gWorld)
    (hwf : w.enemiesHaveHealth = true) :
    (simpleCollisionDetectionSystem w).enemiesHaveHealth = true := by
  rw [gWorld.enemiesHaveHealth_iff] at hwf ⊢
  intro x c hc he
  rcases simpleCollisionDetectionSystem_comps_cases w x c hc with h1 | ⟨a, b, _, _, h1⟩
  · exact hwf x c h1 he
  · subst h1
    simp [collideEventRecord, Components.zero, Components.slot] at he

/-- The snapshot of a query after slots were appended: the old snapshot, then the new
slots that match. -/
theorem gWorld.query_append (w : gWorld) (extra : List (Option Components))
    (ids : List ComponentId) :
    ({ slots := w.slots ++ extra } : gWorld).query ids =
      w.query ids ++ (((List.range extra.length).filter (fun i =>
        match ({ slots := w.slots ++ extra } : gWorld).comps (.mk (w.slots.length + i)) with
        | some c => c.hasAll ids
        | none => false)).map (fun i => gEntity.mk (w.slots.length + i))) := by
  unfold gWorld.query
  simp only [List.length_append, List.range_add, List.filter_append, List.map_append,
    List.filter_map, List.map_map]
  congr 1
  · congr 1
    apply List.filter_congr
    intro i hi
    rw [List.mem_range] at hi
    simp only [gWorld.comps_mk, List.getElem?_append_left hi]

/-- The events pending after Collision Detection in a store that held none: one entity
per colliding pair, in scan order, in the slots after the old ones. -/
theorem simpleCollisionDetectionSystem_query (w : gWorld)
    (hstale : w.query [.collideEventComp] = []) :
    (simpleCollisionDetectionSystem w).query [.collideEventComp] =
      (List.range w.collisionPairs.length).map (fun i => gEntity.mk (w.slots.length + i)) := by
  rw [simpleCollisionDetectionSystem_eq, gWorld.query_append, hstale, List.nil_append,
    List.length_map]
  congr 1
  rw [List.filter_eq_self]
  intro i hi
  rw [List.mem_range] at hi
  simp only [gWorld.comps_mk, List.getElem?_append_right (Nat.le_add_right _ _),
    Nat.add_sub_cancel_left, List.getElem?_map, List.getElem?_eq_getElem hi]
  simp [collideEventRecord, Components.hasAll, Components.has]

/-- The record of the i-th event entity after Collision Detection. -/
theorem simpleCollisionDetectionSystem_comps_new (w : gWorld) (i : Nat) (p : gEntity × gEntity)
    (hi : w.collisionPairs[i]? = some p) :
    (simpleCollisionDetectionSystem w).comps (.mk (w.slots.length + i)) =
      some (collideEventRecord p.1 p.2) := by
  rw [simpleCollisionDetectionSystem_eq]
  simp [gWorld.comps_mk, List.getElem?_append_right (Nat.le_add_right _ _), List.getElem?_map, hi]

/-- Contact between two enemies without Invulnerability, neither a bullet: the event
`(a, b)` costs each of them one point of health and touches no other entity. -/
theorem handleCollisionEvent_enemy_pair (s : gWorld) (a b : gEntity) (ca cb : Components)
    (ha ma hb mb : Int) (hne : a ≠ b)
    (hca : s.comps a = some ca) (hcb : s.comps b = some cb)
    (hea : ca.enemy.isSome = true)
    (hba : ca.bullet = none)
    (hia : ca.invulnerability = none) (hib : cb.invulnerability = none)
    (hha : ca.health = some { currentHealth := ha, maxHealth := ma })
    (hhb : cb.health = some { currentHealth := hb, maxHealth := mb }) :
    ∃ s', handleCollisionEvent s { e1 := a, e2 := b } = some s' ∧
      s'.comps a = some (ca.hit { currentHealth := ha, maxHealth := ma } 1 b) ∧
      s'.comps b = some (cb.hit { currentHealth := hb, maxHealth := mb } 1 a) ∧
      ∀ x, x ≠ a → x ≠ b → s'.comps x = s.comps x := by
  obtain ⟨s1, h1, h1b, h1o, _⟩ := applyDamage_of_not_immune s b 1 a true cb _ hcb hhb
    (by
      intro _ cs inv hcs hinv
      rw [hca] at hcs
      rw [← Option.some.inj hcs, hia] at hinv
      exact absurd hinv (by simp))
    (by intro inv hinv; rw [hib] at hinv; exact absurd hinv (by simp))
  have hca1 : s1.comps a = some ca := by rw [h1o a hne, hca]
  obtain ⟨s2, h2, h2a, h2o, _⟩ := applyDamage_of_not_immune s1 a 1 b true ca _ hca1 hha
    (by
      intro _ cs inv hcs hinv
      rw [h1b] at hcs
      rw [← Option.some.inj hcs] at hinv
      simp [hib] at hinv)
    (by intro inv hinv; rw [hia] at hinv; exact absurd hinv (by simp))
  refine ⟨s2, ?_, ?_, ?_, ?_⟩
  · rw [handleCollisionEvent_eq]
    have hb1 : gWorldHasComponent s a .bulletComp = false := by
      simp [gWorldHasComponent, hca, Components.has, hba]
    have he1 : gWorldHasComponent s a .enemyComp = true := by
      simp [gWorldHasComponent, hca, Components.has, hea]
    have hh2 : gWorldHasComponent s b .healthComp = true := by
      simp [gWorldHasComponent, hcb, Components.has, hhb]
    simp [hb1, he1, hh2, h1, h2]
  · rw [h2a]; simp [Components.hit, hia]
  · rw [h2o b (Ne.symm hne), h1b]; simp [Components.hit, hib]
  · intro x hxa hxb
    rw [h2o x hxa, h1o x hxb]

/-- Collision Detection followed by Damage Resolution for two overlapping enemies that
are the only colliders of a store without stale events: each loses 2 health. -/
theorem collide_two_enemies (w : gWorld) (a b : gEntity) (ca cb : Components)
    (ha ma hb mb : Int)
    (hstale : w.query [.collideEventComp] = [])
    (hcol : w.query [.transformComp, .circleColliderComp] = [a, b])
    (hov : w.overlap a b = true)
    (hca : w.comps a = some ca) (hcb : w.comps b = some cb)
    (hea : ca.enemy.isSome = true) (heb : cb.enemy.isSome = true)
    (hba : ca.bullet = none) (hbb : cb.bullet = none)
    (hia : ca.invulnerability = none) (hib : cb.invulnerability = none)
    (hha : ca.health = some { currentHealth := ha, maxHealth := ma })
    (hhb : cb.health = some { currentHealth := hb, maxHealth := mb }) :
    ∃ w' ca' cb', handleCollisionEvents (simpleCollisionDetectionSystem w) = some w' ∧
      w'.comps a = some ca' ∧ w'.comps b = some cb' ∧
      ca'.health = some { currentHealth := ha - 2, maxHealth := ma } ∧
      cb'.health = some { currentHealth := hb - 2, maxHealth := mb } := by
  have hnd := w.nodup_query [.transformComp, .circleColliderComp]
  rw [hcol] at hnd
  have hne : a ≠ b := by
    intro h
    simp [h] at hnd
  have hov2 : w.overlap b a = true := by rw [w.overlap_comm]; exact hov
  have hpairs : w.collisionPairs = [(a, b), (b, a)] := by
    simp [gWorld.collisionPairs, hcol, List.flatMap_cons, List.filter_cons, hne, Ne.symm hne,
      hov, hov2]
  have hq := simpleCollisionDetectionSystem_query w hstale
  rw [hpairs] at hq
  have hn0 := simpleCollisionDetectionSystem_comps_new w 0 (a, b) (by rw [hpairs]; rfl)
  have hn1 := simpleCollisionDetectionSystem_comps_new w 1 (b, a) (by rw [hpairs]; rfl)
  have hold : ∀ (x : gEntity) (c : Components) (i : Nat), w.comps x = some c →
      x ≠ .mk (w.slots.length + i) := by
    intro x c i hx hxe
    subst hxe
    have := w.lt_of_comps_isSome _ (by rw [hx]; rfl)
    omega
  obtain ⟨s1, h1, h1a, h1b, h1o⟩ := handleCollisionEvent_enemy_pair
    (simpleCollisionDetectionSystem w) a b ca cb ha ma hb mb hne
    (simpleCollisionDetectionSystem_comps_old w a ca hca)
    (simpleCollisionDetectionSystem_comps_old w b cb hcb) hea hba hia hib hha hhb
  obtain ⟨s2, h2, h2b, h2a, _⟩ := handleCollisionEvent_enemy_pair s1 b a _ _
    (hb - 1) mb (ha - 1) ma (Ne.symm hne) h1b h1a
    (by simpa [Components.hit] using heb) (by simpa [Components.hit] using hbb)
    (by simp [Components.hit, hib]) (by simp [Components.hit, hia])
    (by simp [Components.hit]) (by simp [Components.hit])
  refine ⟨s2, _, _, ?_, h2a, h2b, ?_, ?_⟩
  · have hs1 : s1.comps (.mk (w.slots.length + 1)) = some (collideEventRecord b a) := by
      rw [h1o _ (Ne.symm (hold a ca 1 hca)) (Ne.symm (hold b cb 1 hcb)), hn1]
    have e1 : handleCollisionEventAt (simpleCollisionDetectionSystem w)
        (.mk (w.slots.length + 0)) = some s1 := by
      simp only [handleCollisionEventAt, hn0, collideEventRecord]
      exact h1
    have e2 : handleCollisionEventAt s1 (.mk (w.slots.length + 1)) = some s2 := by
      simp only [handleCollisionEventAt, hs1, collideEventRecord]
      exact h2
    have hq2 : (simpleCollisionDetectionSystem w).query [.collideEventComp] =
        [.mk (w.slots.length + 0), .mk (w.slots.length + 1)] := by rw [hq]; rfl
    rw [handleCollisionEvents_eq, hq2]
    simp only [List.foldlM_cons, List.foldlM_nil, e1, Option.bind_eq_bind, Option.some_bind, e2]
    rfl
  · simp [Components.hit]
    omega
  · simp [Components.hit]
    omega

/-- The fold of `addScoreSystem` over the entities `l`, started with score `n` in the
score entity and everything else as in `w`: the score grows by the number of attributed
deaths among `l` and nothing else changes. -/
theorem addScore_fold (w : gWorld) (player score : gEntity) (cs : Components)
    (hcs : w.comps score = some cs) (l : List gEntity) :
    ∀ (n : Int) (acc : gWorld),
      acc.comps score = some (cs.withScore n) →
      (∀ x, x ≠ score → acc.comps x = w.comps x) →
      acc.slots.length = w.slots.length →
      ∃ acc', l.foldlM (fun acc e =>
          match acc.comps e with
          | some c => addScoreFor player score acc c
          | none => some acc) acc = some acc' ∧
        acc'.comps score = some (cs.withScore
          (n + ((l.filter (fun e => w.attributedDeath player e)).length : Nat))) ∧
        (∀ x, x ≠ score → acc'.comps x = w.comps x) ∧
        acc'.slots.length = w.slots.length := by
  induction l with
  | nil =>
    intro n acc h1 h2 h3
    exact ⟨acc, rfl, by simpa using h1, h2, h3⟩
  | cons e l ih =>
    intro n acc h1 h2 h3
    have hstep : ∃ acc1, (match acc.comps e with
          | some c => addScoreFor player score acc c
          | none => some acc) = some acc1 ∧
        acc1.comps score = some (cs.withScore
          (n + (if w.attributedDeath player e then 1 else 0))) ∧
        (∀ x, x ≠ score → acc1.comps x = w.comps x) ∧
        acc1.slots.length = w.slots.length := by
      have hsame : ∀ c, acc.comps e = some c → ∃ c0, w.comps e = some c0 ∧
          c0.health = c.health ∧ c0.lastDamage = c.lastDamage := by
        intro c hc
        by_cases hes : e = score
        · subst hes
          rw [h1] at hc
          rw [← Option.some.inj hc]
          exact ⟨cs, hcs, rfl, rfl⟩
        · exact ⟨c, by rw [← h2 e hes]; exact hc, rfl, rfl⟩
      cases hc : acc.comps e with
      | none =>
        have hw : w.comps e = none := by
          by_cases hes : e = score
          · subst hes; rw [h1] at hc; exact absurd hc (by simp)
          · rw [← h2 e hes]; exact hc
        exact ⟨acc, rfl, by simpa [gWorld.attributedDeath, hw] using h1, h2, h3⟩
      | some c =>
        obtain ⟨c0, hc0, q1, q2⟩ := hsame c hc
        simp only [addScoreFor]
        cases hh : c.health with
        | none =>
          exact ⟨acc, rfl, by simpa [gWorld.attributedDeath, hc0, q1, hh] using h1, h2, h3⟩
        | some hv =>
          cases hl : c.lastDamage with
          | none =>
            exact ⟨acc, rfl, by simpa [gWorld.attributedDeath, hc0, q1, q2, hh, hl] using h1, h2, h3⟩
          | some lv =>
            have hat : w.attributedDeath player e =
                (gEntityEq lv.«from» player && decide (hv.currentHealth ≤ 0)) := by
              simp [gWorld.attributedDeath, hc0, q1, q2, hh, hl, gEntityEq]
            simp only [← hat]
            cases hd : w.attributedDeath player e with
            | false =>
              exact ⟨acc, by simp, by simpa using h1, h2, h3⟩
            | true =>
              simp only [h1, if_true]
              refine ⟨_, rfl, ?_, ?_, ?_⟩
              · rw [gWorld.comps_set]; simp [h1, Components.withScore]
              · intro x hx; rw [gWorld.comps_set]; simp [hx, h2 x hx]
              · rw [gWorld.length_set]; exact h3
    obtain ⟨acc1, e1, q1, q2, q3⟩ := hstep
    obtain ⟨acc2, e2, r1, r2, r3⟩ := ih _ acc1 q1 q2 q3
    refine ⟨acc2, ?_, ?_, r2, r3⟩
    · rw [List.foldlM_cons, e1]
      exact e2
    · rw [r1]
      congr 2
      cases hd : w.attributedDeath player e
      · simp [List.filter_cons, hd]
      · simp [List.filter_cons, hd]
        ring

/-- A `_foreach` whose body destroys the visited entity when its record satisfies `P`, and
does nothing otherwise, removes exactly the snapshot entities satisfying `P`. -/
theorem gWorld.foreachIn_destroy (P : Components → Bool)
    (body : gWorld → gEntity → Components → gWorld)
    (hbody : ∀ acc e c, body acc e c = if P c = true then gWorldDestroyEntity acc e else acc)
    (l : List gEntity) :
    ∀ (w : gWorld) (x : gEntity),
      (w.foreachIn l body).comps x =
        if x ∈ l ∧ w.satisfies P x = true then none else w.comps x := by
  induction l with
  | nil => intro w x; simp [gWorld.foreachIn]
  | cons e l ih =>
    intro w x
    have hstep : w.foreachIn (e :: l) body =
        (match w.comps e with
          | some c => body w e c
          | none => w).foreachIn l body := by
      simp [gWorld.foreachIn, List.foldl_cons]
    rw [hstep, ih]
    have h1 : ∀ y, (match w.comps e with
          | some c => body w e c
          | none => w).comps y =
        if y = e ∧ w.satisfies P y = true then none else w.comps y := by
      intro y
      cases hc : w.comps e with
      | none =>
        by_cases hy : y = e
        · subst hy; simp [hc]
        · simp [hy]
      | some c =>
        simp only [hbody]
        by_cases hp : P c = true
        · simp only [hp, if_true, gWorld.comps_destroy]
          by_cases hy : y = e
          · subst hy; simp [gWorld.satisfies, hc, hp]
          · simp [hy]
        · simp only [hp, if_false]
          by_cases hy : y = e
          · subst hy; simp [gWorld.satisfies, hc, hp]
          · simp [hy]
    have h2 : ∀ y, gWorld.satisfies (match w.comps e with
          | some c => body w e c
          | none => w) P y = (if y = e ∧ w.satisfies P y = true then false else w.satisfies P y) := by
      intro y
      by_cases hq : y = e ∧ w.satisfies P y = true
      · rw [if_pos hq]
        unfold gWorld.satisfies
        rw [h1 y, if_pos hq]
      · rw [if_neg hq]
        unfold gWorld.satisfies
        rw [h1 y, if_neg hq]
    rw [h1 x, h2 x]
    by_cases hx : x = e
    · subst hx
      by_cases hq : w.satisfies P x = true
      · simp [hq]
      · simp [hq]
    · simp [hx]

theorem gWorld.foreachIn_destroy_length (P : Components → Bool)
    (body : gWorld → gEntity → Components → gWorld)
    (hbody : ∀ acc e c, body acc e c = if P c = true then gWorldDestroyEntity acc e else acc)
    (l : List gEntity) :
    ∀ (w : gWorld), (w.foreachIn l body).slots.length = w.slots.length := by
  induction l with
  | nil => intro w; rfl
  | cons e l ih =>
    intro w
    have hstep : w.foreachIn (e :: l) body =
        (match w.comps e with
          | some c => body w e c
          | none => w).foreachIn l body := by
      simp [gWorld.foreachIn, List.foldl_cons]
    rw [hstep, ih]
    cases hc : w.comps e with
    | none => rfl
    | some c =>
      simp only [hbody]
      split
      · exact gWorld.length_destroy _ _
      · rfl

/-- Event cleanup removes exactly the live entities that carry a CollideEvent. -/
theorem cleanCollideEventSystem_comps (w : gWorld) (x : gEntity) :
    (cleanCollideEventSystem w).comps x =
      if w.satisfies (fun c => c.collideEvent.isSome) x = true then none else w.comps x := by
  unfold cleanCollideEventSystem gWorld.foreach
  rw [gWorld.foreachIn_destroy (fun _ => true)]
  · by_cases hd : w.satisfies (fun c => c.collideEvent.isSome) x = true
    · rw [if_pos hd, if_pos]
      unfold gWorld.satisfies at hd
      cases hc : w.comps x with
      | none => simp [hc] at hd
      | some c =>
        simp only [hc] at hd
        refine ⟨?_, by simp [gWorld.satisfies, hc]⟩
        rw [gWorld.mem_query]
        exact ⟨c, hc, by simp [Components.hasAll, Components.has, hd]⟩
    · rw [if_neg hd, if_neg]
      rintro ⟨hmem, _⟩
      rw [gWorld.mem_query] at hmem
      obtain ⟨c, hc, hall⟩ := hmem
      apply hd
      simp only [gWorld.satisfies, hc]
      simpa [Components.hasAll, Components.has] using hall
  · intro acc e c
    simp

theorem gWorld.Evolves.trans {d : Bool} {w w1 w2 : gWorld} (h1 : gWorld.Evolves d w w1)
    (h2 : gWorld.Evolves d w1 w2) : gWorld.Evolves d w w2 := by
  induction h2 with
  | refl => exact h1
  | write e c0 c _ hc hk ih => exact .write e c0 c ih hc hk
  | create ids _ hs ih => exact .create ids ih hs
  | destroy e _ hd ih => exact .destroy e ih hd

/-- The store never shrinks: handles are not reused. -/
theorem gWorld.Evolves.length_le {d : Bool} {w w1 : gWorld} (h : gWorld.Evolves d w w1) :
    w.slots.length ≤ w1.slots.length := by
  induction h with
  | refl => exact le_refl _
  | write e c0 c _ _ _ ih => rw [gWorld.length_set]; exact ih
  | create ids _ _ ih => simp [gWorldCreateEntity]; omega
  | destroy e _ _ ih => rw [gWorld.length_destroy]; exact ih

/-- Enemies keep their Health: the data-model condition survives every system. -/
theorem gWorld.Evolves.enemiesHaveHealth {d : Bool} {w w1 : gWorld}
    (h : gWorld.Evolves d w w1) (hwf : w.enemiesHaveHealth = true) :
    w1.enemiesHaveHealth = true := by
  induction h with
  | refl => exact hwf
  | @write w2 e c0 c _ hc hk ih =>
    rw [gWorld.enemiesHaveHealth_iff] at ih ⊢
    intro x cx hx hen
    rw [gWorld.comps_set] at hx
    split at hx
    · rw [← Option.some.inj hx] at hen ⊢
      have h1 := hk .enemyComp
      have h2 := hk .healthComp
      simp only [Components.has] at h1 h2
      rw [h2]
      exact ih e c0 hc (by rw [← h1]; exact hen)
    · exact ih x cx hx hen
  | @create w2 ids _ hs ih =>
    rw [gWorld.enemiesHaveHealth_iff] at ih ⊢
    intro x cx hx hen
    rw [gWorld.comps_create] at hx
    split at hx
    · rw [← Option.some.inj hx] at hen ⊢
      simp only [Components.zero, Components.slot, spawnable, Bool.or_eq_true, Bool.not_eq_true',
        List.contains_eq_any_beq, List.any_eq_true, beq_iff_eq, exists_eq_right,
        List.any_eq_false] at hen hs ⊢
      by_cases hm : ComponentId.enemyComp ∈ ids
      · rcases hs with hs | hs
        · exact absurd rfl (hs _ hm)
        · obtain ⟨y, hy, rfl⟩ := hs
          simp [hy]
      · simp [hm] at hen
    · exact ih x cx hx hen
  | destroy e _ _ ih => exact gWorldDestroyEntity_enemiesHaveHealth _ e ih

/-- Without destruction every entity stays in the store with the same component kinds. -/
theorem gWorld.Evolves.stays_alive {w w1 : gWorld} (h : gWorld.Evolves false w w1)
    (x : gEntity) (c : Components) (hc : w.comps x = some c) :
    ∃ c1, w1.comps x = some c1 ∧ ∀ id, c1.has id = c.has id := by
  induction h with
  | refl => exact ⟨c, hc, fun _ => rfl⟩
  | @write w2 e c0 c' _ hc0 hk ih =>
    obtain ⟨c1, h1, h2⟩ := ih
    rw [gWorld.comps_set]
    by_cases he : x = e
    · subst he
      rw [h1] at hc0
      have := Option.some.inj hc0
      subst this
      exact ⟨c', by simp [h1], fun id => by rw [hk, h2]⟩
    · exact ⟨c1, by simp [he, h1], h2⟩
  | @create w2 ids hprev _ ih =>
    obtain ⟨c1, h1, h2⟩ := ih
    rw [gWorld.comps_create]
    have hne : x ≠ gEntity.mk w2.slots.length := by
      rintro rfl
      have := w2.lt_of_comps_isSome _ (by rw [h1]; rfl)
      omega
    exact ⟨c1, by simp [hne, h1], h2⟩
  | destroy e _ hd _ => exact absurd hd (by simp)

theorem gWorld.foreachIn_evolves (d : Bool) (body : gWorld → gEntity → Components → gWorld)
    (h : ∀ acc e c, acc.comps e = some c → gWorld.Evolves d acc (body acc e c))
    (l : List gEntity) : ∀ w : gWorld, gWorld.Evolves d w (w.foreachIn l body) := by
  induction l with
  | nil => intro w; exact .refl w
  | cons e l ih =>
    intro w
    have hstep : w.foreachIn (e :: l) body =
        (match w.comps e with
          | some c => body w e c
          | none => w).foreachIn l body := by
      simp [gWorld.foreachIn, List.foldl_cons]
    rw [hstep]
    refine gWorld.Evolves.trans ?_ (ih _)
    cases hc : w.comps e with
    | none => exact .refl w
    | some c => exact h w e c hc

theorem gWorld.foreachM_evolves (d : Bool)
    (body : gWorld → gEntity → Components → Option gWorld)
    (h : ∀ acc e c acc', acc.comps e = some c → body acc e c = some acc' →
      gWorld.Evolves d acc acc')
    (l : List gEntity) : ∀ w w' : gWorld,
      l.foldlM (fun acc e =>
        match acc.comps e with
        | some c => body acc e c
        | none => some acc) w = some w' → gWorld.Evolves d w w' := by
  induction l with
  | nil =>
    intro w w' hw
    simp only [List.foldlM_nil] at hw
    rw [← Option.some.inj hw]
    exact .refl w
  | cons e l ih =>
    intro w w' hw
    rw [List.foldlM_cons] at hw
    cases hs : (match w.comps e with
        | some c => body w e c
        | none => some w) with
    | none => simp [hs] at hw
    | some w1 =>
      simp only [hs, Option.bind_eq_bind, Option.some_bind] at hw
      refine gWorld.Evolves.trans ?_ (ih w1 w' hw)
      cases hc : w.comps e with
      | none =>
        simp only [hc] at hs
        rw [← Option.some.inj hs]
        exact .refl w
      | some c =>
        simp only [hc] at hs
        exact h w e c w1 hc hs

/-- Creating an entity and filling in its fields, seen as one step. -/
theorem gWorld.Evolves.create_write (d : Bool) (w : gWorld) (ids : List ComponentId)
    (c : Components) (hs : spawnable ids = true)
    (hk : ∀ id, c.has id = (Components.zero ids).has id) :
    gWorld.Evolves d w ((gWorldCreateEntity w ids).1.set (gWorldCreateEntity w ids).2 c) := by
  refine .write _ (Components.zero ids) c (.create ids (.refl w) hs) ?_ hk
  rw [gWorld.comps_create]
  simp [gWorldCreateEntity]

theorem collideWith_evolves (d : Bool) (a : gEntity) (t1 : transformComp)
    (r1 : circleColliderComp) (acc : gWorld) (e : gEntity) (c : Components) :
    gWorld.Evolves d acc (collideWith a t1 r1 acc e c) := by
  unfold collideWith
  split
  · exact .refl acc
  · cases ht : c.transform <;> cases hr : c.circleCollider <;>
      first
      | exact .refl acc
      | skip
    simp only
    split
    · have hz : (gWorldCreateEntity acc [.collideEventComp]).1.comps
          (gWorldCreateEntity acc [.collideEventComp]).2 =
          some (Components.zero [.collideEventComp]) := by
        rw [gWorld.comps_create]; simp [gWorldCreateEntity]
      simp only [hz]
      apply gWorld.Evolves.create_write
      · decide
      · intro id
        cases id <;> simp [Components.has, Components.zero, Components.slot]
    · exact .refl acc

theorem simpleCollisionDetectionSystem_evolves (d : Bool) (w : gWorld) :
    gWorld.Evolves d w (simpleCollisionDetectionSystem w) := by
  unfold simpleCollisionDetectionSystem
  apply gWorld.foreachIn_evolves
  intro acc e c _
  cases ht : c.transform <;> cases hr : c.circleCollider <;>
    first
    | exact .refl acc
    | (apply gWorld.foreachIn_evolves
       intro acc2 e2 c2 _
       exact collideWith_evolves d _ _ _ acc2 e2 c2)

theorem applyDamage_evolves (d : Bool) (w w' : gWorld) (e : gEntity) (value : Int)
    (src : gEntity) (check : Bool) (h : applyDamage w e value src check = some w') :
    gWorld.Evolves d w w' := by
  rcases applyDamage_cases w w' e value src check h with rfl | ⟨c, hc, h1, h2, _, _, h5⟩
  · exact .refl _
  · rw [h5]
    exact .write e c _ (.refl w) h1 (Components.has_hit c hc value src h2)

theorem handleCollisionEvents_evolves (w w' : gWorld) (h : handleCollisionEvents w = some w') :
    gWorld.Evolves true w w' := by
  unfold handleCollisionEvents gWorld.foreachM at h
  refine gWorld.foreachM_evolves true _ ?_ _ w w' h
  intro acc e c acc' _ hb
  cases hce : c.collideEvent with
  | none =>
    simp only [hce] at hb
    rw [← Option.some.inj hb]
    exact .refl acc
  | some ev =>
    simp only [hce] at hb
    exact handleCollisionEvent_invariant (fun s => gWorld.Evolves true acc s)
      (fun s s' e0 src check hJ hd => hJ.trans (applyDamage_evolves true s s' e0 1 src check hd))
      (fun s e0 hJ _ => .destroy e0 hJ rfl) acc acc' ev (.refl acc) hb

theorem addScoreSystem_evolves (d : Bool) (w w' : gWorld) (h : addScoreSystem w = some w') :
    gWorld.Evolves d w w' := by
  unfold addScoreSystem gWorld.foreachM at h
  refine gWorld.foreachM_evolves d _ ?_ _ w w' h
  intro acc e c acc' _ hb
  unfold addScoreFor at hb
  cases hh : c.health <;> cases hl : c.lastDamage <;> simp only [hh, hl] at hb <;>
    first
    | (rw [← Option.some.inj hb]; exact .refl acc)
    | skip
  split at hb
  · cases hsc : acc.comps (singleEntity w .scoreStorageComp) with
    | none => simp [hsc] at hb
    | some sc =>
      simp only [hsc] at hb
      cases hss : sc.scoreStorage with
      | none => simp [hss] at hb
      | some sv =>
        simp only [hss] at hb
        rw [← Option.some.inj hb]
        refine .write _ sc _ (.refl acc) hsc ?_
        intro id
        cases id <;> simp [Components.has, hss]
  · rw [← Option.some.inj hb]
    exact .refl acc

/-- A finished pass ran its systems in the order of the source. -/
theorem playingSystems_eq_some (env : Env) (w : gWorld) (k : Nat) (r : gWorld × Nat)
    (h : playingSystems env w k = some r) :
    ∃ w6 k1 w8 w9,
      enemySpawnSystem env (invulnerabilitySystem env (shootSystem env (moveSystem env
        (applyInputSystem (readInputSystem env w))))) k = some (w6, k1) ∧
      handleCollisionEvents (simpleCollisionDetectionSystem w6) = some w8 ∧
      addScoreSystem w8 = some w9 ∧
      r = (cleanCollideEventSystem (destroyDeathEntities (destroyWhenOffScreenSystem w9)), k1) := by
  unfold playingSystems at h
  simp only at h
  split at h
  · exact absurd h (by simp)
  · rename_i w6 k1 h6
    split at h
    · exact absurd h (by simp)
    · rename_i w8 h8
      split at h
      · exact absurd h (by simp)
      · rename_i w9 h9
        exact ⟨w6, k1, w8, w9, h6, h8, h9, (Option.some.inj h).symm⟩

theorem GetRandomValue_mem (env : Env) (k : Nat) (min max : Int) (h : min ≤ max) :
    min ≤ GetRandomValue env k min max ∧ GetRandomValue env k min max ≤ max := by
  unfold GetRandomValue
  simp only [h, if_true]
  have hpos : (0 : Int) < max - min + 1 := by omega
  have h1 := Int.emod_nonneg (env.rand k : Int) (ne_of_gt hpos)
  have h2 := Int.emod_lt_of_pos (env.rand k : Int) hpos
  constructor <;> omega

/-- With a live entity carrying the kind, `_singleEntity` returns a live entity with it. -/
theorem singleEntity_spec (w : gWorld) (id : ComponentId)
    (h : ∃ x c, w.comps x = some c ∧ c.has id = true) :
    ∃ c, w.comps (singleEntity w id) = some c ∧ c.has id = true := by
  obtain ⟨x, c, hc, hh⟩ := h
  have hmem : x ∈ w.query [id] := by
    rw [gWorld.mem_query]
    exact ⟨c, hc, by simp [Components.hasAll, hh]⟩
  unfold singleEntity
  cases hq : w.query [id] with
  | nil => rw [hq] at hmem; exact absurd hmem (List.not_mem_nil _)
  | cons y l =>
    have hy : y ∈ w.query [id] := by rw [hq]; exact List.mem_cons_self _ _
    rw [gWorld.mem_query] at hy
    obtain ⟨cy, hcy, hall⟩ := hy
    exact ⟨cy, by simpa using hcy, by simpa [Components.hasAll] using hall⟩

/-- Without any live entity carrying the kind, `_singleEntity` returns a dead handle. -/
theorem singleEntity_none (w : gWorld) (id : ComponentId)
    (h : ∀ x, gWorldHasComponent w x id = false) :
    gWorldIsEntityAlive w (singleEntity w id) = false := by
  unfold singleEntity
  cases hq : w.query [id] with
  | nil => simp [gWorldIsEntityAlive, gWorld.comps]
  | cons y l =>
    have hy : y ∈ w.query [id] := by rw [hq]; exact List.mem_cons_self _ _
    rw [gWorld.mem_query] at hy
    obtain ⟨cy, hcy, hall⟩ := hy
    have := h y
    simp [gWorldHasComponent, hcy, Components.hasAll] at this hall
    rw [this] at hall
    exact absurd hall (by simp)

theorem processPlayingGameState_eq_some (env : Env) (w : gWorld) (k : Nat) (w' : gWorld)
    (k' : Nat) (st : Int) (h : processPlayingGameState env w k = some (w', k', st)) :
    playingSystems env w k = some (w', k') ∧
      st = (if gWorldIsEntityAlive w' (singleEntity w' .playerTag) = true then gameState_playing
        else gameState_gameOver) := by
  unfold processPlayingGameState at h
  cases hp : playingSystems env w k with
  | none => simp [hp] at h
  | some r =>
    obtain ⟨w1, k1⟩ := r
    simp only [hp] at h
    cases ha : gWorldIsEntityAlive w1 (singleEntity w1 .playerTag) <;>
      simp only [ha, Bool.not_false, Bool.not_true, if_true, Bool.false_eq_true, if_false,
        Option.some.injEq, Prod.mk.injEq] at h <;>
      obtain ⟨rfl, rfl, rfl⟩ := h <;> simp [ha]

/-- A fold in `Option` whose steps are related by a reflexive and transitive relation
relates its start to its result. -/
theorem foldlM_rel {σ α : Type} (f : σ → α → Option σ) (R : σ → σ → Prop)
    (hrefl : ∀ s, R s s) (htrans : ∀ s1 s2 s3, R s1 s2 → R s2 s3 → R s1 s3)
    (hstep : ∀ s x s', f s x = some s' → R s s') :
    ∀ (l : List α) (s s' : σ), l.foldlM f s = some s' → R s s' := by
  intro l
  induction l with
  | nil =>
    intro s s' h
    simp only [List.foldlM_nil] at h
    rw [← Option.some.inj h]
    exact hrefl s
  | cons a l ih =>
    intro s s' h
    rw [List.foldlM_cons] at h
    cases hs : f s a with
    | none => simp [hs] at h
    | some s1 =>
      simp only [hs, Option.bind_eq_bind, Option.some_bind] at h
      exact htrans _ _ _ (hstep s a s1 hs) (ih s1 s' h)

/-- The handle returned by `_singleEntity` is alive exactly when some live entity carries
the kind. -/
theorem singleEntity_alive_iff (w : gWorld) (id : ComponentId) :
    gWorldIsEntityAlive w (singleEntity w id) = true ↔ ∃ e, gWorldHasComponent w e id = true := by
  constructor
  · intro h
    by_contra hn
    have hall : ∀ x, gWorldHasComponent w x id = false := by
      intro x
      cases hx : gWorldHasComponent w x id with
      | false => rfl
      | true => exact absurd ⟨x, hx⟩ hn
    rw [singleEntity_none w id hall] at h
    exact absurd h (by simp)
  · rintro ⟨e, he⟩
    rw [gWorldHasComponent_eq_true_iff] at he
    obtain ⟨c, hc, _⟩ := singleEntity_spec w id ⟨e, he⟩
    simp [gWorldIsEntityAlive, hc]

/-- The next state chosen by `processPlayingGameState`. -/
theorem processPlayingGameState_state (env : Env) (w : gWorld) (k : Nat) (w' : gWorld)
    (k' : Nat) (st : Int) (h : processPlayingGameState env w k = some (w', k', st)) :
    (st = gameState_gameOver ↔ ∀ e, gWorldHasComponent w' e .playerTag = false) ∧
      (st = gameState_playing ↔ ∃ e, gWorldHasComponent w' e .playerTag = true) := by
  obtain ⟨_, hst⟩ := processPlayingGameState_eq_some env w k w' k' st h
  have hne : gameState_playing ≠ gameState_gameOver := by decide
  by_cases ha : gWorldIsEntityAlive w' (singleEntity w' .playerTag) = true
  · rw [if_pos ha] at hst
    have hex := (singleEntity_alive_iff w' .playerTag).1 ha
    subst hst
    refine ⟨⟨fun h => absurd h hne, ?_⟩, ⟨fun _ => hex, fun _ => rfl⟩⟩
    intro hall
    obtain ⟨e, he⟩ := hex
    rw [hall e] at he
    exact absurd he (by simp)
  · rw [if_neg ha] at hst
    have hnex : ¬ ∃ e, gWorldHasComponent w' e .playerTag = true :=
      fun hex => ha ((singleEntity_alive_iff w' .playerTag).2 hex)
    subst hst
    refine ⟨⟨fun _ => ?_, fun _ => rfl⟩, ⟨fun h => absurd h.symm hne, fun hex => absurd hex hnex⟩⟩
    intro e
    cases he : gWorldHasComponent w' e .playerTag with
    | false => rfl
    | true => exact absurd ⟨e, he⟩ hnex

/-- What one iteration of the loop of `main` does to the state variable. -/
theorem mainStep_next (env : Env) (s s1 : MainState) (h : mainStep env s = .next s1) :
    (s.currentGameState = gameState_init ∧ s1.currentGameState = gameState_playing) ∨
    (s.currentGameState = gameState_playing ∧
      ∃ w w', s.world = some w ∧ s1.world = some w' ∧
        processPlayingGameState env w s.draws = some (w', s1.draws, s1.currentGameState)) ∨
    (s.currentGameState = gameState_gameOver ∧ s1.world = none ∧
      s1.currentGameState = (if env.keyPressed > 0 then gameState_init else gameState_gameOver)) := by
  unfold mainStep at h
  by_cases h0 : s.currentGameState = gameState_init
  · left
    simp only [h0, if_true, LoopResult.next.injEq] at h
    subst h
    exact ⟨h0, rfl⟩
  · by_cases h1 : s.currentGameState = gameState_playing
    · right; left
      simp only [h0, h1, if_true, if_false] at h
      have h10 : ¬ gameState_playing = gameState_init := by decide
      simp only [h10, if_false] at h
      cases hw : s.world with
      | none => simp [hw] at h
      | some w =>
        simp only [hw] at h
        cases hp : processPlayingGameState env w s.draws with
        | none => simp [hp] at h
        | some r =>
          obtain ⟨w1, k1, st⟩ := r
          simp only [hp, LoopResult.next.injEq] at h
          subst h
          exact ⟨h1, w, w1, rfl, rfl, hp⟩
    · by_cases h2 : s.currentGameState = gameState_gameOver
      · right; right
        simp only [h0, h1, h2, if_true, if_false, LoopResult.next.injEq] at h
        have h20 : ¬ gameState_gameOver = gameState_init := by decide
        have h21 : ¬ gameState_gameOver = gameState_playing := by decide
        simp only [h20, h21, if_false, LoopResult.next.injEq] at h
        subst h
        refine ⟨h2, ?_, ?_⟩
        · unfold processGameOverGameState; split <;> rfl
        · unfold processGameOverGameState; split <;> rfl
      · simp [h0, h1, h2] at h

/-- Writing a record twice keeps the second write. -/
theorem gWorld.set_set (w : gWorld) (e : gEntity) (c1 c2 : Components) :
    (w.set e c1).set e c2 = w.set e c2 := by
  apply gWorld.ext_comps
  · simp only [gWorld.length_set]
  · intro x
    simp only [gWorld.comps_set]
    by_cases hx : x = e
    · subst hx
      cases h : w.comps x <;> simp [h]
    · simp [hx]

theorem createBullet_eq (w : gWorld) (position direction : Vector2) (owner : gEntity) :
    createBullet w position direction owner =
      { slots := w.slots ++ [some (sampleBullet position direction owner)] } := by
  unfold createBullet
  have hz : ∀ ids, (gWorldCreateEntity w ids).1.comps (gWorldCreateEntity w ids).2 =
      some (Components.zero ids) := by
    intro ids; rw [gWorld.comps_create]; simp [gWorldCreateEntity]
  simp only [hz]
  rw [gWorld.set_create]
  rfl

theorem createEnemy_eq (w : gWorld) (position : Vector2) (type : Int)
    (h : type = enemyType_asteroid ∨ type = enemyType_ship) :
    createEnemy w position type =
      some { slots := w.slots ++ [some (enemyRecord position type)] } := by
  have hz : ∀ ids, (gWorldCreateEntity w ids).1.comps (gWorldCreateEntity w ids).2 =
      some (Components.zero ids) := by
    intro ids; rw [gWorld.comps_create]; simp [gWorldCreateEntity]
  unfold createEnemy
  rcases h with h | h
  · simp only [h, if_true, hz]
    rw [gWorld.set_create]
    rfl
  · have h01 : ¬ enemyType_ship = enemyType_asteroid := by decide
    simp only [h, h01, if_true, if_false, hz]
    have hz2 : ∀ ids c, ((gWorldCreateEntity w ids).1.set (gWorldCreateEntity w ids).2 c).comps
        (gWorldCreateEntity w ids).2 = some c := by
      intro ids c; rw [gWorld.comps_set]; simp [hz]
    simp only [hz2]
    rw [gWorld.set_set, gWorld.set_create]
    rfl

/-- Writing the record of an entity of `w` commutes with appending slots. -/
theorem gWorld.set_append (w : gWorld) (extra : List (Option Components)) (e : gEntity)
    (c : Components) (h : (w.comps e).isSome) :
    ({ slots := w.slots ++ extra } : gWorld).set e c =
      { slots := (w.set e c).slots ++ extra } := by
  obtain ⟨c0, hc0⟩ := Option.isSome_iff_exists.1 h
  apply gWorld.ext_comps
  · simp [gWorld.length_set]
  · intro x
    rw [gWorld.comps_set, gWorld.comps_append w extra e c0 hc0]
    by_cases hx : x = e
    · subst hx
      simp only [true_and, Option.isSome_some, if_true]
      exact (gWorld.comps_append (w.set x c) extra x c (by rw [gWorld.comps_set]; simp [hc0])).symm
    · simp only [hx, false_and, if_false]
      cases x with
      | null => rfl
      | mk i =>
        have hc := gWorld.comps_set w e (.mk i) c
        simp only [hx, false_and, if_false] at hc
        rw [gWorld.comps_mk] at hc ⊢
        rw [gWorld.comps_mk] at hc ⊢
        by_cases hlt : i < w.slots.length
        · have hlt2 : i < (w.set e c).slots.length := by rw [gWorld.length_set]; exact hlt
          simp only [List.getElem?_append_left hlt, List.getElem?_append_left hlt2]
          exact hc.symm
        · have hge : w.slots.length ≤ i := not_lt.1 hlt
          have hge2 : (w.set e c).slots.length ≤ i := by rw [gWorld.length_set]; exact hge
          simp only [List.getElem?_append_right hge, List.getElem?_append_right hge2,
            gWorld.length_set]

theorem waveRecords_length (env : Env) (n : Nat) :
    ∀ k, (waveRecords env n k).length = n := by
  induction n with
  | zero => intro k; rfl
  | succ n ih => intro k; simp [waveRecords, ih]

/-- The i-th enemy of a wave takes its lane from call `k + 2 i` of `GetRandomValue` and
its kind from call `k + 2 i + 1`. -/
theorem waveRecords_getElem (env : Env) (n : Nat) :
    ∀ (k i : Nat), i < n → (waveRecords env n k)[i]? = some (some (enemyRecord
      ⟨((GetRandomValue env (k + 2 * i) 0 (columnCount - 1) * (screenWidth / columnCount) +
          screenWidth / columnCount / 2 : Int) : ℚ), ((-spawnBorder : Int) : ℚ)⟩
      (GetRandomValue env (k + 2 * i + 1) 0 (enemyType_count - 1)))) := by
  induction n with
  | zero => intro k i hi; omega
  | succ n ih =>
    intro k i hi
    cases i with
    | zero => simp [waveRecords]
    | succ i =>
      have h := ih (k + 2) i (by omega)
      have e1 : k + 2 * (i + 1) = k + 2 + 2 * i := by ring
      simp only [waveRecords, List.getElem?_cons_succ, e1]
      exact h

theorem spawnWave_eq (env : Env) (n : Nat) :
    ∀ (w : gWorld) (k : Nat),
      spawnWave env n w k = some ({ slots := w.slots ++ waveRecords env n k }, k + 2 * n) := by
  induction n with
  | zero => intro w k; simp [spawnWave, waveRecords]
  | succ n ih =>
    intro w k
    simp only [spawnWave]
    have hr := GetRandomValue_mem env (k + 1) 0 (enemyType_count - 1) (by decide)
    have ht : GetRandomValue env (k + 1) 0 (enemyType_count - 1) = enemyType_asteroid ∨
        GetRandomValue env (k + 1) 0 (enemyType_count - 1) = enemyType_ship := by
      simp only [enemyType_count, enemyType_asteroid, enemyType_ship] at hr ⊢
      omega
    rw [createEnemy_eq w _ _ ht]
    simp only [ih]
    have e1 : k + 2 + 2 * n = k + 2 * (n + 1) := by ring
    simp [waveRecords, e1]

/-- The spawner whose timer has reached the threshold: the wave is appended to the store,
the spawner's record is redrawn, and two calls of `GetRandomValue` per enemy plus two for
the redraw are consumed. -/
theorem enemySpawnAt_fire (env : Env) (w : gWorld) (k : Nat) (e : gEntity) (c : Components)
    (s : enemySpawnerComp) (hc : w.comps e = some c) (hs : c.enemySpawner = some s)
    (hf : binary32 (s.timeAfterSpawn + env.frameTime) ≥ s.timeToSpawn) :
    enemySpawnAt env (w, k) e =
      some ({ slots := (w.set e (c.withSpawner
          (redrawnSpawner env (k + 2 * (s.enemyInWave % 2 ^ 64).toNat)))).slots ++
            waveRecords env (s.enemyInWave % 2 ^ 64).toNat k },
        k + 2 * (s.enemyInWave % 2 ^ 64).toNat + 2) := by
  unfold enemySpawnAt
  simp only [hc, hs, hf, if_true, spawnWave_eq]
  rw [gWorld.set_append _ _ _ _ (by rw [gWorld.comps_set]; simp [hc]), gWorld.set_set]
  rfl

/-- The spawner whose timer stays below the threshold: only its timer advances. -/
theorem enemySpawnAt_wait (env : Env) (w : gWorld) (k : Nat) (e : gEntity) (c : Components)
    (s : enemySpawnerComp) (hc : w.comps e = some c) (hs : c.enemySpawner = some s)
    (hf : binary32 (s.timeAfterSpawn + env.frameTime) < s.timeToSpawn) :
    enemySpawnAt env (w, k) e =
      some (w.set e (c.withSpawner
        { s with timeAfterSpawn := binary32 (s.timeAfterSpawn + env.frameTime) }), k) := by
  unfold enemySpawnAt
  have hf2 : ¬ (binary32 (s.timeAfterSpawn + env.frameTime) ≥ s.timeToSpawn) := not_le.2 hf
  simp only [hc, hs, hf2, if_false]
  rfl

theorem enemySpawnSystem_single (env : Env) (w : gWorld) (k : Nat) (sp : gEntity)
    (hq : w.query [.enemySpawnerComp] = [sp]) :
    enemySpawnSystem env w k = enemySpawnAt env (w, k) sp := by
  unfold enemySpawnSystem
  rw [hq]
  simp [List.foldlM_cons]

/-- An iteration whose body rewrites the record of the visited entity to `f c` and, when
`p c` holds, appends one entity with record `g e c`: afterwards every visited entity
holds `f` of its old record, the others are untouched, and the new slots hold the
records `g e c` of the visited entities satisfying `p`, in the order of the visit. -/
theorem gWorld.foreachIn_write_append (f : Components → Components) (p : Components → Bool)
    (g : gEntity → Components → Components)
    (body : gWorld → gEntity → Components → gWorld)
    (hbody : ∀ acc e c, acc.comps e = some c → body acc e c =
      if p c = true then { slots := (acc.set e (f c)).slots ++ [some (g e c)] }
      else acc.set e (f c))
    (l : List gEntity) :
    ∀ (w : gWorld), l.Nodup → (∀ e, e ∈ l → (w.comps e).isSome) →
      (w.foreachIn l body).slots.length =
        w.slots.length + (l.filter (w.satisfies p)).length ∧
      (∀ i, i < w.slots.length → (w.foreachIn l body).comps (.mk i) =
        (w.comps (.mk i)).map (fun c => if gEntity.mk i ∈ l then f c else c)) ∧
      (∀ j e, (l.filter (w.satisfies p))[j]? = some e →
        (w.foreachIn l body).comps (.mk (w.slots.length + j)) = (w.comps e).map (g e)) := by
  induction l with
  | nil =>
    intro w _ _
    refine ⟨by simp [gWorld.foreachIn], ?_, ?_⟩
    · intro i _
      cases h : w.comps (.mk i) <;> simp [gWorld.foreachIn, h]
    · intro j e h
      simp at h
  | cons e l ih =>
    intro w hnd hal
    obtain ⟨c, hc⟩ := Option.isSome_iff_exists.1 (hal e (List.mem_cons_self _ _))
    have hstep : w.foreachIn (e :: l) body = (body w e c).foreachIn l body := by
      simp [gWorld.foreachIn, List.foldl_cons, hc]
    rw [hstep]
    have hel : e ∉ l := (List.nodup_cons.1 hnd).1
    have hnl : l.Nodup := (List.nodup_cons.1 hnd).2
    have hse : (w.set e (f c)).comps e = some (f c) := by
      rw [gWorld.comps_set]; simp [hc]
    -- the store after the visit of `e`
    have hold : ∀ x, (w.comps x).isSome → (body w e c).comps x =
        if x = e then some (f c) else w.comps x := by
      intro x hx
      obtain ⟨cx, hcx⟩ := Option.isSome_iff_exists.1 hx
      have h1 : (w.set e (f c)).comps x = if x = e then some (f c) else w.comps x := by
        rw [gWorld.comps_set]; simp [hc]
      rw [hbody w e c hc]
      split
      · obtain ⟨cx', hcx'⟩ : ∃ cx', (w.set e (f c)).comps x = some cx' := by
          rw [h1]; split
          · exact ⟨_, rfl⟩
          · exact ⟨cx, hcx⟩
        rw [gWorld.comps_append _ _ x cx' hcx', ← hcx', h1]
      · exact h1
    have hl : ∀ x, x ∈ l → (body w e c).comps x = w.comps x := by
      intro x hx
      rw [hold x (hal x (List.mem_cons_of_mem _ hx))]
      have : x ≠ e := fun h => hel (h ▸ hx)
      simp [this]
    have hsat : l.filter ((body w e c).satisfies p) = l.filter (w.satisfies p) := by
      apply List.filter_congr
      intro x hx
      simp only [gWorld.satisfies, hl x hx]
    have hal1 : ∀ x, x ∈ l → ((body w e c).comps x).isSome := by
      intro x hx
      rw [hl x hx]
      exact hal x (List.mem_cons_of_mem _ hx)
    obtain ⟨ih1, ih2, ih3⟩ := ih (body w e c) hnl hal1
    rw [hsat] at ih1 ih3
    have hpe : w.satisfies p e = p c := by simp [gWorld.satisfies, hc]
    have hlen : (body w e c).slots.length = w.slots.length + (if p c = true then 1 else 0) := by
      rw [hbody w e c hc]
      split <;> simp [gWorld.length_set]
    have hdead : ∀ i, i < w.slots.length → w.comps (.mk i) = none →
        (body w e c).comps (.mk i) = none := by
      intro i hi hn
      have hne : gEntity.mk i ≠ e := by
        intro h; rw [h, hc] at hn; exact absurd hn (by simp)
      have h1 : (w.set e (f c)).comps (.mk i) = none := by
        rw [gWorld.comps_set]; simp [hne, hn]
      rw [hbody w e c hc]
      split
      · rw [gWorld.comps_mk] at h1 ⊢
        have hlt : i < (w.set e (f c)).slots.length := by rw [gWorld.length_set]; exact hi
        simpa [List.getElem?_append_left hlt] using h1
      · exact h1
    refine ⟨?_, ?_, ?_⟩
    · rw [ih1, hlen, List.filter_cons, hpe]
      split
      · simp; omega
      · simp
    · intro i hi
      rw [ih2 i (by rw [hlen]; omega)]
      cases hci : w.comps (.mk i) with
      | none => simp [hdead i hi hci]
      | some ci =>
        rw [hold _ (by simp [hci])]
        by_cases hie : gEntity.mk i = e
        · have hil : gEntity.mk i ∉ l := hie ▸ hel
          have hcc : ci = c := by
            rw [hie, hc] at hci; exact (Option.some.inj hci).symm
          simp [hie, hel, hcc]
        · have hie' : ¬ e = gEntity.mk i := fun h => hie h.symm
          simp [hie, hie', hci]
    · intro j x hx
      rw [List.filter_cons, hpe] at hx
      by_cases hp : p c = true
      · simp only [hp, if_true] at hx hlen
        cases j with
        | zero =>
          simp only [List.getElem?_cons_zero, Option.some.injEq] at hx
          subst hx
          have hnew : (body w e c).comps (.mk w.slots.length) = some (g e c) := by
            rw [hbody w e c hc, if_pos hp, gWorld.comps_mk]
            have : w.slots.length = (w.set e (f c)).slots.length := (gWorld.length_set _ _ _).symm
            rw [this]
            simp
          have hnl2 : gEntity.mk w.slots.length ∉ l := by
            intro hin
            have := w.lt_of_comps_isSome _ (hal _ (List.mem_cons_of_mem _ hin))
            omega
          rw [Nat.add_zero, ih2 _ (by rw [hlen]; omega), hnew, hc]
          simp [hnl2]
        | succ j =>
          simp only [List.getElem?_cons_succ] at hx
          have h3 := ih3 j x hx
          rw [hlen] at h3
          have hxl : x ∈ l := (List.mem_filter.1 (List.getElem?_mem hx)).1
          rw [hl x hxl] at h3
          rw [← h3]
          congr 2
          omega
      · simp only [hp, if_false, Bool.false_eq_true] at hx hlen
        have h3 := ih3 j x hx
        rw [hlen] at h3
        have hxl : x ∈ l := (List.mem_filter.1 (List.getElem?_mem hx)).1
        rw [hl x hxl] at h3
        exact h3

/-- Rewriting the record of an entity to itself changes nothing. -/
theorem gWorld.set_self (w : gWorld) (e : gEntity) (c : Components) (h : w.comps e = some c) :
    w.set e c = w := by
  apply gWorld.ext_comps
  · exact gWorld.length_set _ _ _
  · intro x
    rw [gWorld.comps_set]
    by_cases hx : x = e
    · subst hx; simp [h]
    · simp [hx]

/-- The effect of `shootSystem` on the whole store: every record is replaced by its
`afterShoot`, and one bullet is appended per firing entity, in slot order. -/
theorem shootSystem_spec (env : Env) (w : gWorld) :
    (shootSystem env w).slots.length = w.slots.length +
      ((w.query [.shootableComp, .transformComp]).filter
        (w.satisfies (Components.shootFires env))).length ∧
    (∀ i, i < w.slots.length → (shootSystem env w).comps (.mk i) =
      (w.comps (.mk i)).map (Components.afterShoot env)) ∧
    (∀ j e, ((w.query [.shootableComp, .transformComp]).filter
        (w.satisfies (Components.shootFires env)))[j]? = some e →
      (shootSystem env w).comps (.mk (w.slots.length + j)) =
        (w.comps e).map (Components.shot e)) := by
  have hal : ∀ e, e ∈ w.query [.shootableComp, .transformComp] → (w.comps e).isSome := by
    intro e he
    obtain ⟨c, hc, _⟩ := (gWorld.mem_query w _ e).1 he
    simp [hc]
  obtain ⟨h1, h2, h3⟩ := gWorld.foreachIn_write_append (Components.afterShoot env)
    (Components.shootFires env) Components.shot
    (fun acc e c =>
      match c.shootable, c.transform with
      | some shootable, some transform =>
        let waited := binary32 (shootable.timeAfterShoot + env.frameTime)
        let c1 := { c with shootable := some { shootable with timeAfterShoot := waited } }
        let acc1 := acc.set e c1
        if shootable.shoot && decide (waited > shootable.timeToReload) then
          let shootPos := Vector2Add transform.position shootable.offset
          let acc2 := createBullet acc1 shootPos shootable.direction e
          acc2.set e { c1 with shootable := some { shootable with timeAfterShoot := 0 } }
        else acc1
      | _, _ => acc)
    (by
      intro acc e c hc
      cases hs : c.shootable with
      | none =>
        simp only [Components.shootFires, Components.afterShoot, hs]
        simp [gWorld.set_self acc e c hc]
      | some s =>
        cases ht : c.transform with
        | none =>
          simp only [Components.shootFires, Components.afterShoot, hs, ht]
          simp [gWorld.set_self acc e c hc]
        | some t =>
          simp only [Components.shootFires, Components.afterShoot, Components.shot, hs, ht]
          by_cases hf : (s.shoot && decide (binary32 (s.timeAfterShoot + env.frameTime) > s.timeToReload)) = true
          · simp only [hf, if_true]
            rw [createBullet_eq, gWorld.set_append _ _ _ _ (by rw [gWorld.comps_set]; simp [hc]),
              gWorld.set_set]
          · simp only [hf, if_false, Bool.false_eq_true])
    (w.query [.shootableComp, .transformComp]) w (gWorld.nodup_query w _) hal
  refine ⟨h1, ?_, h3⟩
  intro i hi
  have h := h2 i hi
  unfold shootSystem gWorld.foreach
  rw [h]
  cases hc : w.comps (.mk i) with
  | none => rfl
  | some c =>
    simp only [Option.map_some']
    split
    · rfl
    · rename_i hq
      rw [gWorld.mem_query] at hq
      have hall : ¬ c.hasAll [.shootableComp, .transformComp] = true := fun h => hq ⟨c, hc, h⟩
      cases hs : c.shootable with
      | none => simp [Components.afterShoot, hs]
      | some s =>
        cases ht : c.transform with
        | none => simp [Components.afterShoot, hs, ht]
        | some t => exact absurd (by simp [Components.hasAll, Components.has, hs, ht]) hall

/-- An entity that is in the store before and after carries the same component kinds. -/
theorem gWorld.Evolves.kinds {d : Bool} {w w1 : gWorld} (h : gWorld.Evolves d w w1)
    (x : gEntity) (c : Components) (hc : w.comps x = some c) :
    ∀ c1, w1.comps x = some c1 → ∀ id, c1.has id = c.has id := by
  induction h with
  | refl =>
    intro c1 h1 id
    rw [hc] at h1
    rw [Option.some.inj h1]
  | @write w2 e c0 c' _ hc0 hk ih =>
    intro c1 h1 id
    rw [gWorld.comps_set] at h1
    split at h1
    · rename_i hx
      rw [← Option.some.inj h1, hk id]
      exact ih c0 (hx.1 ▸ hc0) id
    · exact ih c1 h1 id
  | @create w2 ids hprev _ ih =>
    intro c1 h1 id
    rw [gWorld.comps_create] at h1
    split at h1
    · rename_i hx
      have h2 := hprev.length_le
      have h3 := w.lt_of_comps_isSome w2.slots.length (by rw [← hx, hc]; rfl)
      omega
    · exact ih c1 h1 id
  | destroy e _ _ ih =>
    intro c1 h1 id
    rw [gWorld.comps_destroy] at h1
    split at h1
    · exact absurd h1 (by simp)
    · exact ih c1 h1 id

/-- Collision Detection followed by Damage Resolution attaches no Invulnerability
component: an entity without one has none afterwards. -/
theorem collide_keeps_no_window (w w' : gWorld) (x : gEntity) (c c' : Components)
    (hrun : handleCollisionEvents (simpleCollisionDetectionSystem w) = some w')
    (hc : w.comps x = some c) (hc' : w'.comps x = some c')
    (hi : c.invulnerability = none) : c'.invulnerability = none := by
  have hev := (simpleCollisionDetectionSystem_evolves true w).trans
    (handleCollisionEvents_evolves _ w' hrun)
  have hk := hev.kinds x c hc c' hc' .invulnerabilityComp
  simp only [Components.has, hi] at hk
  cases h : c'.invulnerability with
  | none => rfl
  | some v => simp [h] at hk

/-- The event of a bullet `b` against a Health-bearing entity `t`: the record of `t`
afterwards is decided by the record of `t` alone, whatever the state of the owner. -/
theorem handleCollisionEvent_bullet_hit (w : gWorld) (b t o : gEntity) (cb ct : Components)
    (h : healthComp)
    (hcb : w.comps b = some cb) (hbo : cb.bullet = some { owner := o })
    (hct : w.comps t = some ct) (hth : ct.health = some h) (htb : t ≠ b) :
    ∃ w', handleCollisionEvent w { e1 := b, e2 := t } = some w' ∧
      (((∃ inv, ct.invulnerability = some inv ∧ inv.time > 0) ∧ w'.comps t = some ct) ∨
       ((∀ inv, ct.invulnerability = some inv → inv.time ≤ 0) ∧
          w'.comps t = some (ct.hit h 1 o))) := by
  have hb1 : gWorldHasComponent w b .bulletComp = true := by
    rw [gWorldHasComponent_eq_true_iff]
    exact ⟨cb, hcb, by simp [Components.has, hbo]⟩
  have ht1 : gWorldHasComponent w t .healthComp = true := by
    rw [gWorldHasComponent_eq_true_iff]
    exact ⟨ct, hct, by simp [Components.has, hth]⟩
  rw [handleCollisionEvent_eq]
  have hbul : (w.comps b).bind (fun c => c.bullet) = some { owner := o } := by
    rw [hcb]; exact hbo
  simp only [hb1, ht1, Bool.and_self, if_true, hbul]
  by_cases him : ∃ inv, ct.invulnerability = some inv ∧ inv.time > 0
  · obtain ⟨inv, hi1, hi2⟩ := him
    rw [applyDamage_of_immune w t 1 o false (Or.inr ⟨ct, inv, hct, hi1, hi2⟩)]
    refine ⟨_, rfl, Or.inl ⟨⟨inv, hi1, hi2⟩, ?_⟩⟩
    rw [gWorld.comps_destroy]
    simp [htb, hct]
  · have hni : ∀ inv, ct.invulnerability = some inv → inv.time ≤ 0 := by
      intro inv hi
      by_contra hlt
      exact him ⟨inv, hi, not_le.1 hlt⟩
    obtain ⟨w1, h1, h2, _, _⟩ := applyDamage_of_not_immune w t 1 o false ct h hct hth
      (by intro hf; exact absurd hf (by simp)) hni
    rw [h1]
    refine ⟨_, rfl, Or.inr ⟨hni, ?_⟩⟩
    rw [gWorld.comps_destroy]
    simp only [htb, if_false, h2]
    rfl

theorem gWorld.Steps.andThen {W : Components → Components → Prop} {N : Components → Prop}
    {w w1 w2 : gWorld} (h1 : gWorld.Steps W N w w1) (h2 : gWorld.Steps W N w1 w2) :
    gWorld.Steps W N w w2 := by
  induction h2 with
  | refl => exact h1
  | write e c0 c _ hc hw ih => exact .write e c0 c ih hc hw
  | append c _ hn ih => exact .append c ih hn
  | destroy e _ ih => exact .destroy e ih

theorem gWorld.Steps.slots_le {W : Components → Components → Prop} {N : Components → Prop}
    {w w1 : gWorld} (h : gWorld.Steps W N w w1) : w.slots.length ≤ w1.slots.length := by
  induction h with
  | refl => exact le_refl _
  | write e c0 c _ _ _ ih => rw [gWorld.length_set]; exact ih
  | append c _ _ ih => simp only [List.length_append, List.length_singleton]; omega
  | destroy e _ ih => rw [gWorld.length_destroy]; exact ih

/-- The record of a fresh slot appended to a store. -/
theorem gWorld.comps_snoc (w : gWorld) (c : Components) (x : gEntity) :
    ({ slots := w.slots ++ [some c] } : gWorld).comps x =
      if x = .mk w.slots.length then some c else w.comps x := by
  cases x with
  | null => simp [gWorld.comps]
  | mk j =>
    rcases Nat.lt_trichotomy j w.slots.length with h | h | h
    · simp [gWorld.comps_mk, List.getElem?_append_left, h, Nat.ne_of_lt h]
    · subst h
      simp [gWorld.comps_mk]
    · have h2 : ¬ j = w.slots.length := Nat.ne_of_gt h
      have h3 : w.slots.length + 1 ≤ j := h
      simp [gWorld.comps_mk, h2, List.getElem?_eq_none, h3, Nat.le_of_lt h]

/-- A property of records that every write keeps and every new record has holds for all
records of the store afterwards. -/
theorem gWorld.Steps.all {W : Components → Components → Prop} {N : Components → Prop}
    {w w1 : gWorld} (h : gWorld.Steps W N w w1) (P : Components → Prop)
    (hW : ∀ c0 c, W c0 c → P c0 → P c) (hN : ∀ c, N c → P c)
    (hP : ∀ x c, w.comps x = some c → P c) : ∀ x c, w1.comps x = some c → P c := by
  induction h with
  | refl => exact hP
  | @write w2 e c0 c' _ hc0 hw ih =>
    intro x c hx
    rw [gWorld.comps_set] at hx
    split at hx
    · rw [← Option.some.inj hx]
      exact hW c0 c' hw (ih e c0 hc0)
    · exact ih x c hx
  | @append w2 c' _ hn ih =>
    intro x c hx
    rw [gWorld.comps_snoc] at hx
    split at hx
    · rw [← Option.some.inj hx]
      exact hN c' hn
    · exact ih x c hx
  | destroy e _ ih =>
    intro x c hx
    rw [gWorld.comps_destroy] at hx
    split at hx
    · exact absurd hx (by simp)
    · exact ih x c hx

/-- The records of an entity before and after are related by every reflexive and
transitive relation that contains the writes. -/
theorem gWorld.Steps.rel {W : Components → Components → Prop} {N : Components → Prop}
    {w w1 : gWorld} (h : gWorld.Steps W N w w1) (R : Components → Components → Prop)
    (hrefl : ∀ c, R c c) (htrans : ∀ a b c, R a b → R b c → R a c)
    (hW : ∀ c0 c, W c0 c → R c0 c)
    (x : gEntity) (c : Components) (hc : w.comps x = some c) :
    ∀ c1, w1.comps x = some c1 → R c c1 := by
  induction h with
  | refl =>
    intro c1 h1
    rw [hc] at h1
    rw [Option.some.inj h1]
    exact hrefl _
  | @write w2 e c0 c' _ hc0 hw ih =>
    intro c1 h1
    rw [gWorld.comps_set] at h1
    split at h1
    · rename_i hx
      rw [← Option.some.inj h1]
      exact htrans _ _ _ (ih c0 (hx.1 ▸ hc0)) (hW c0 c' hw)
    · exact ih c1 h1
  | @append w2 c' hprev _ ih =>
    intro c1 h1
    rw [gWorld.comps_snoc] at h1
    split at h1
    · rename_i hx
      have h2 := hprev.slots_le
      have h3 := w.lt_of_comps_isSome w2.slots.length (by rw [← hx, hc]; rfl)
      omega
    · exact ih c1 h1
  | destroy e _ ih =>
    intro c1 h1
    rw [gWorld.comps_destroy] at h1
    split at h1
    · exact absurd h1 (by simp)
    · exact ih c1 h1

theorem gWorld.foreachIn_steps {W : Components → Components → Prop} {N : Components → Prop}
    (body : gWorld → gEntity → Components → gWorld)
    (h : ∀ acc e c, acc.comps e = some c → gWorld.Steps W N acc (body acc e c))
    (l : List gEntity) : ∀ w : gWorld, gWorld.Steps W N w (w.foreachIn l body) := by
  induction l with
  | nil => intro w; exact .refl w
  | cons e l ih =>
    intro w
    have hstep : w.foreachIn (e :: l) body =
        (match w.comps e with
          | some c => body w e c
          | none => w).foreachIn l body := by
      simp [gWorld.foreachIn, List.foldl_cons]
    rw [hstep]
    refine gWorld.Steps.andThen ?_ (ih _)
    cases hc : w.comps e with
    | none => exact .refl w
    | some c => exact h w e c hc

theorem gWorld.foreachM_steps {W : Components → Components → Prop} {N : Components → Prop}
    (body : gWorld → gEntity → Components → Option gWorld)
    (h : ∀ acc e c acc', acc.comps e = some c → body acc e c = some acc' →
      gWorld.Steps W N acc acc')
    (l : List gEntity) : ∀ w w' : gWorld,
      l.foldlM (fun acc e =>
        match acc.comps e with
        | some c => body acc e c
        | none => some acc) w = some w' → gWorld.Steps W N w w' := by
  refine foldlM_rel _ (gWorld.Steps W N) (fun s => .refl s) (fun _ _ _ h1 h2 => h1.andThen h2) ?_ l
  intro s x s' hs
  cases hc : s.comps x with
  | none =>
    simp only [hc] at hs
    rw [← Option.some.inj hs]
    exact .refl s
  | some c =>
    simp only [hc] at hs
    exact h s x c s' hc hs

theorem readInputSystem_steps {W : Components → Components → Prop} {N : Components → Prop}
    (h : PrefixOps W N) (env : Env) (w : gWorld) :
    gWorld.Steps W N w (readInputSystem env w) := by
  unfold readInputSystem gWorld.foreach
  apply gWorld.foreachIn_steps
  intro acc e c hc
  cases hi : c.input with
  | none => exact .refl acc
  | some v => exact .write e c _ (.refl acc) hc (h.input c _)

theorem applyInputSystem_steps {W : Components → Components → Prop} {N : Components → Prop}
    (h : PrefixOps W N) (w : gWorld) :
    gWorld.Steps W N w (applyInputSystem w) := by
  unfold applyInputSystem gWorld.foreach
  apply gWorld.foreachIn_steps
  intro acc e c hc
  cases hi : c.input <;> cases hm : c.movable <;> cases hs : c.shootable <;>
    first
    | exact .refl acc
    | (have h1 := h.control c
       simp only [hi] at h1
       exact .write e c _ (.refl acc) hc (h1 _ _))

theorem moveSystem_steps {W : Components → Components → Prop} {N : Components → Prop}
    (h : PrefixOps W N) (env : Env) (w : gWorld) :
    gWorld.Steps W N w (moveSystem env w) := by
  unfold moveSystem gWorld.foreach
  apply gWorld.foreachIn_steps
  intro acc e c hc
  cases ht : c.transform <;> cases hm : c.movable <;>
    first
    | exact .refl acc
    | (have h1 := h.transform c
       simp only [hm] at h1
       exact .write e c _ (.refl acc) hc (h1 _))

theorem invulnerabilitySystem_steps {W : Components → Components → Prop} {N : Components → Prop}
    (h : PrefixOps W N) (env : Env) (w : gWorld) :
    gWorld.Steps W N w (invulnerabilitySystem env w) := by
  unfold invulnerabilitySystem gWorld.foreach
  apply gWorld.foreachIn_steps
  intro acc e c hc
  cases hi : c.invulnerability with
  | none => exact .refl acc
  | some v => exact .write e c _ (.refl acc) hc (h.window c _)

theorem shootSystem_steps {W : Components → Components → Prop} {N : Components → Prop}
    (h : PrefixOps W N) (env : Env) (w : gWorld) :
    gWorld.Steps W N w (shootSystem env w) := by
  unfold shootSystem gWorld.foreach
  apply gWorld.foreachIn_steps
  intro acc e c hc
  cases hs : c.shootable with
  | none => exact .refl acc
  | some s =>
    cases ht : c.transform with
    | none => exact .refl acc
    | some t =>
      simp only
      have h1 := h.shootable c
      simp only [ht] at h1
      split
      · rw [createBullet_eq, gWorld.set_append _ _ _ _ (by rw [gWorld.comps_set]; simp [hc]),
          gWorld.set_set]
        exact .append _ (.write e c _ (.refl acc) hc (h1 _)) (h.bullet _ _ _)
      · exact .write e c _ (.refl acc) hc (h1 _)

/-- Appending entities whose records satisfy `N`. -/
theorem gWorld.Steps.append_list {W : Components → Components → Prop} {N : Components → Prop}
    (l : List (Option Components)) (hl : ∀ o, o ∈ l → ∃ c, o = some c ∧ N c) :
    ∀ w : gWorld, gWorld.Steps W N w { slots := w.slots ++ l } := by
  induction l with
  | nil =>
    intro w
    rw [List.append_nil]
    exact .refl w
  | cons o l ih =>
    intro w
    obtain ⟨c, rfl, hc⟩ := hl o (List.mem_cons_self _ _)
    have h1 : gWorld.Steps W N w { slots := w.slots ++ [some c] } := .append c (.refl w) hc
    have h2 := ih (fun o ho => hl o (List.mem_cons_of_mem _ ho)) { slots := w.slots ++ [some c] }
    simp only [List.append_assoc, List.singleton_append] at h2
    exact h1.andThen h2

theorem waveRecords_mem (env : Env) (n : Nat) :
    ∀ (k : Nat) (o : Option Components), o ∈ waveRecords env n k →
      ∃ position type, o = some (enemyRecord position type) := by
  induction n with
  | zero => intro k o h; simp [waveRecords] at h
  | succ n ih =>
    intro k o h
    simp only [waveRecords, List.mem_cons] at h
    rcases h with h | h
    · exact ⟨_, _, h⟩
    · exact ih (k + 2) o h

theorem enemySpawnAt_steps {W : Components → Components → Prop} {N : Components → Prop}
    (h : PrefixOps W N) (env : Env) (s r : gWorld × Nat) (e : gEntity)
    (hr : enemySpawnAt env s e = some r) : gWorld.Steps W N s.1 r.1 := by
  cases hc : s.1.comps e with
  | none =>
    simp only [enemySpawnAt, hc] at hr
    rw [← Option.some.inj hr]
    exact .refl _
  | some c =>
    cases hsp : c.enemySpawner with
    | none =>
      simp only [enemySpawnAt, hc, hsp] at hr
      rw [← Option.some.inj hr]
      exact .refl _
    | some sp =>
      have hs : s = (s.1, s.2) := rfl
      rw [hs] at hr
      by_cases hf : binary32 (sp.timeAfterSpawn + env.frameTime) ≥ sp.timeToSpawn
      · rw [enemySpawnAt_fire env s.1 s.2 e c sp hc hsp hf] at hr
        rw [← Option.some.inj hr]
        refine gWorld.Steps.andThen (.write e c _ (.refl _) hc (h.spawner c _))
          (gWorld.Steps.append_list _ ?_ _)
        intro o ho
        obtain ⟨p, t, rfl⟩ := waveRecords_mem env _ _ o ho
        exact ⟨_, rfl, h.enemy p t⟩
      · rw [enemySpawnAt_wait env s.1 s.2 e c sp hc hsp (not_le.1 hf)] at hr
        rw [← Option.some.inj hr]
        exact .write e c _ (.refl _) hc (h.spawner c _)

theorem enemySpawnSystem_steps {W : Components → Components → Prop} {N : Components → Prop}
    (h : PrefixOps W N) (env : Env) (w : gWorld) (k : Nat)
    (r : gWorld × Nat) (hr : enemySpawnSystem env w k = some r) : gWorld.Steps W N w r.1 :=
  foldlM_rel (enemySpawnAt env) (fun s r => gWorld.Steps W N s.1 r.1) (fun s => .refl s.1)
    (fun _ _ _ h1 h2 => h1.andThen h2) (fun s x s' hs => enemySpawnAt_steps h env s s' x hs)
    (w.query [.enemySpawnerComp]) (w, k) r hr

theorem simpleCollisionDetectionSystem_steps {W : Components → Components → Prop}
    {N : Components → Prop} (h : SuffixOps W N) (w : gWorld) :
    gWorld.Steps W N w (simpleCollisionDetectionSystem w) := by
  unfold simpleCollisionDetectionSystem
  apply gWorld.foreachIn_steps
  intro acc e c _
  cases ht : c.transform <;> cases hr : c.circleCollider <;>
    first
    | exact .refl acc
    | skip
  apply gWorld.foreachIn_steps
  intro acc2 e2 c2 _
  unfold collideWith
  split
  · exact .refl acc2
  · cases ht2 : c2.transform <;> cases hr2 : c2.circleCollider <;>
      first
      | exact .refl acc2
      | skip
    simp only
    split
    · have hz : (gWorldCreateEntity acc2 [.collideEventComp]).1.comps
          (gWorldCreateEntity acc2 [.collideEventComp]).2 =
          some (Components.zero [.collideEventComp]) := by
        rw [gWorld.comps_create]; simp [gWorldCreateEntity]
      simp only [hz]
      rw [gWorld.set_create]
      exact .append _ (.refl acc2) (h.event e e2)
    · exact .refl acc2

theorem handleCollisionEvents_steps {W : Components → Components → Prop}
    {N : Components → Prop} (h : SuffixOps W N) (w w' : gWorld)
    (hr : handleCollisionEvents w = some w') : gWorld.Steps W N w w' := by
  unfold handleCollisionEvents gWorld.foreachM at hr
  refine gWorld.foreachM_steps _ ?_ _ w w' hr
  intro acc e c acc' _ hb
  cases hce : c.collideEvent with
  | none =>
    simp only [hce] at hb
    rw [← Option.some.inj hb]
    exact .refl acc
  | some ev =>
    simp only [hce] at hb
    refine handleCollisionEvent_invariant (fun s => gWorld.Steps W N acc s) ?_
      (fun s e0 hJ _ => .destroy e0 hJ) acc acc' ev (.refl acc) hb
    intro s s' e0 src check hJ hd
    rcases applyDamage_cases s s' e0 1 src check hd with rfl | ⟨c0, hc0, h1, h2, _, _, h5⟩
    · exact hJ
    · rw [h5]
      exact .write e0 c0 _ hJ h1 (h.hit c0 hc0 src h2)

theorem addScoreSystem_steps {W : Components → Components → Prop}
    {N : Components → Prop} (h : SuffixOps W N) (w w' : gWorld)
    (hr : addScoreSystem w = some w') : gWorld.Steps W N w w' := by
  unfold addScoreSystem gWorld.foreachM at hr
  refine gWorld.foreachM_steps _ ?_ _ w w' hr
  intro acc e c acc' _ hb
  unfold addScoreFor at hb
  cases hh : c.health <;> cases hl : c.lastDamage <;> simp only [hh, hl] at hb <;>
    first
    | (rw [← Option.some.inj hb]; exact .refl acc)
    | skip
  split at hb
  · cases hsc : acc.comps (singleEntity w .scoreStorageComp) with
    | none => simp [hsc] at hb
    | some sc =>
      simp only [hsc] at hb
      cases hss : sc.scoreStorage with
      | none => simp [hss] at hb
      | some sv =>
        simp only [hss] at hb
        rw [← Option.some.inj hb]
        exact .write _ sc _ (.refl acc) hsc (h.score sc _)
  · rw [← Option.some.inj hb]
    exact .refl acc

theorem destroyWhenOffScreenSystem_steps {W : Components → Components → Prop}
    {N : Components → Prop} (w : gWorld) :
    gWorld.Steps W N w (destroyWhenOffScreenSystem w) := by
  unfold destroyWhenOffScreenSystem gWorld.foreach
  apply gWorld.foreachIn_steps
  intro acc e c _
  cases ht : c.transform with
  | none => exact .refl acc
  | some t =>
    simp only
    split
    · exact .destroy e (.refl acc)
    · exact .refl acc

theorem destroyDeathEntities_steps {W : Components → Components → Prop}
    {N : Components → Prop} (w : gWorld) :
    gWorld.Steps W N w (destroyDeathEntities w) := by
  unfold destroyDeathEntities gWorld.foreach
  apply gWorld.foreachIn_steps
  intro acc e c _
  cases ht : c.health with
  | none => exact .refl acc
  | some t =>
    simp only
    split
    · exact .destroy e (.refl acc)
    · exact .refl acc

theorem cleanCollideEventSystem_steps {W : Components → Components → Prop}
    {N : Components → Prop} (w : gWorld) :
    gWorld.Steps W N w (cleanCollideEventSystem w) := by
  unfold cleanCollideEventSystem gWorld.foreach
  apply gWorld.foreachIn_steps
  intro acc e c _
  exact .destroy e (.refl acc)

/-- The systems that run before Collision Detection, in the order of the source. -/
theorem playingSystems_prefix_steps {W : Components → Components → Prop}
    {N : Components → Prop} (h : PrefixOps W N) (env : Env) (w : gWorld) (k : Nat)
    (w6 : gWorld) (k1 : Nat)
    (h6 : enemySpawnSystem env (invulnerabilitySystem env (shootSystem env (moveSystem env
        (applyInputSystem (readInputSystem env w))))) k = some (w6, k1)) :
    gWorld.Steps W N w w6 := by
  have e1 := readInputSystem_steps h env w
  have e2 := applyInputSystem_steps h (readInputSystem env w)
  have e3 := moveSystem_steps h env (applyInputSystem (readInputSystem env w))
  have e4 := shootSystem_steps h env (moveSystem env (applyInputSystem (readInputSystem env w)))
  have e5 := invulnerabilitySystem_steps h env
    (shootSystem env (moveSystem env (applyInputSystem (readInputSystem env w))))
  have e6 := enemySpawnSystem_steps h env _ k _ h6
  exact ((((e1.andThen e2).andThen e3).andThen e4).andThen e5).andThen e6

/-- A whole Playing-state pass as a sequence of atomic operations. -/
theorem playingSystems_steps {W : Components → Components → Prop}
    {N : Components → Prop} (hp : PrefixOps W N) (hs : SuffixOps W N) (env : Env)
    (w : gWorld) (k : Nat) (r : gWorld × Nat) (h : playingSystems env w k = some r) :
    gWorld.Steps W N w r.1 := by
  obtain ⟨w6, k1, w8, w9, h6, h8, h9, rfl⟩ := playingSystems_eq_some env w k r h
  have e6 := playingSystems_prefix_steps hp env w k w6 k1 h6
  have e7 : gWorld.Steps W N w6 (simpleCollisionDetectionSystem w6) :=
    simpleCollisionDetectionSystem_steps hs w6
  have e8 := handleCollisionEvents_steps hs _ w8 h8
  have e9 := addScoreSystem_steps hs w8 w9 h9
  have e10 : gWorld.Steps W N w9 (destroyWhenOffScreenSystem w9) :=
    destroyWhenOffScreenSystem_steps w9
  have e11 : gWorld.Steps W N _ (destroyDeathEntities (destroyWhenOffScreenSystem w9)) :=
    destroyDeathEntities_steps _
  have e12 : gWorld.Steps W N _
      (cleanCollideEventSystem (destroyDeathEntities (destroyWhenOffScreenSystem w9))) :=
    cleanCollideEventSystem_steps _
  exact (((((e6.andThen e7).andThen e8).andThen e9).andThen e10).andThen e11).andThen e12

/-- No live entity carries a CollideEvent iff the query for that kind is empty. -/
theorem gWorld.no_events_iff (w : gWorld) :
    w.query [.collideEventComp] = [] ↔ ∀ x c, w.comps x = some c → c.collideEvent = none := by
  rw [List.eq_nil_iff_forall_not_mem]
  constructor
  · intro h x c hc
    cases hce : c.collideEvent with
    | none => rfl
    | some ev =>
      exact absurd ((gWorld.mem_query w _ x).2
        ⟨c, hc, by simp [Components.hasAll, Components.has, hce]⟩) (h x)
  · intro h x hx
    obtain ⟨c, hc, hall⟩ := (gWorld.mem_query w _ x).1 hx
    have := h x c hc
    simp [Components.hasAll, Components.has, this] at hall

theorem cleanCollideEventSystem_no_events (w : gWorld) :
    (cleanCollideEventSystem w).query [.collideEventComp] = [] := by
  rw [gWorld.no_events_iff]
  intro x c hc
  rw [cleanCollideEventSystem_comps] at hc
  split at hc
  · exact absurd hc (by simp)
  · rename_i hs
    simp only [gWorld.satisfies, hc] at hs
    cases hce : c.collideEvent with
    | none => rfl
    | some ev => simp [hce] at hs

theorem playingSystems_no_events (env : Env) (w : gWorld) (k : Nat) (w' : gWorld) (k' : Nat)
    (st : Int) (h : processPlayingGameState env w k = some (w', k', st)) :
    w'.query [.collideEventComp] = [] := by
  obtain ⟨hp, _⟩ := processPlayingGameState_eq_some env w k w' k' st h
  obtain ⟨w6, k1, w8, w9, _, _, _, hr⟩ := playingSystems_eq_some env w k _ hp
  have hw : w' = cleanCollideEventSystem (destroyDeathEntities (destroyWhenOffScreenSystem w9)) :=
    congrArg Prod.fst hr
  rw [hw]
  exact cleanCollideEventSystem_no_events _

/-- The systems that run before Collision Detection create no CollideEvent. -/
theorem playingSystems_prefix_no_events (env : Env) (w : gWorld) (k : Nat) (w6 : gWorld)
    (k1 : Nat) (h0 : w.query [.collideEventComp] = [])
    (h6 : enemySpawnSystem env (invulnerabilitySystem env (shootSystem env (moveSystem env
        (applyInputSystem (readInputSystem env w))))) k = some (w6, k1)) :
    w6.query [.collideEventComp] = [] := by
  rw [gWorld.no_events_iff] at h0 ⊢
  have hops : PrefixOps (fun c0 c => c.collideEvent = c0.collideEvent)
      (fun c => c.collideEvent = none) :=
    { input := fun _ _ => rfl
      control := fun _ _ _ => rfl
      transform := fun _ _ => rfl
      shootable := fun _ _ => rfl
      window := fun _ _ => rfl
      spawner := fun _ _ => rfl
      bullet := fun _ _ _ => rfl
      enemy := fun p t => by unfold enemyRecord; split <;> rfl }
  exact (playingSystems_prefix_steps hops env w k w6 k1 h6).all (fun c => c.collideEvent = none)
    (fun c0 c hw hp => hw.trans hp) (fun c hn => hn) h0

theorem mainStep_world (env : Env) (s s1 : MainState) (h : mainStep env s = .next s1) :
    s1.world = none ∨ s1.world = some processInitGameState.1 ∨
      ∃ w w' k' st, s.world = some w ∧
        processPlayingGameState env w s.draws = some (w', k', st) ∧ s1.world = some w' := by
  by_cases h0 : s.currentGameState = gameState_init
  · unfold mainStep at h
    simp only [h0, if_true, LoopResult.next.injEq] at h
    subst h
    exact Or.inr (Or.inl rfl)
  · rcases mainStep_next env s s1 h with ⟨h1, _⟩ | ⟨_, w, w', hw, hw', hp⟩ | ⟨_, hn, _⟩
    · exact absurd h1 h0
    · exact Or.inr (Or.inr ⟨w, w', _, _, hw, hp, hw'⟩)
    · exact Or.inl hn

/-- Every frame starts from a store without CollideEvents. -/
theorem reachable_no_events (s : MainState) (hs : Reachable s) :
    ∀ w, s.world = some w → w.query [.collideEventComp] = [] := by
  induction hs with
  | start =>
    intro w hw
    simp [mainInit] at hw
  | @step s0 s1 env _ hstep _ =>
    intro w hw
    rcases mainStep_world env s0 s1 hstep with h | h | ⟨w0, w', k', st, _, hp, h⟩
    · rw [h] at hw
      exact absurd hw (by simp)
    · rw [h] at hw
      rw [← Option.some.inj hw]
      decide
    · rw [h] at hw
      rw [← Option.some.inj hw]
      exact playingSystems_no_events env w0 s0.draws w' k' st hp

theorem createPlayer_eq (w : gWorld) :
    createPlayer w = { slots := w.slots ++ [some (samplePlayer ⟨400, 225⟩ 3 0)] } := by
  unfold createPlayer
  have hz : ∀ ids, (gWorldCreateEntity w ids).1.comps (gWorldCreateEntity w ids).2 =
      some (Components.zero ids) := by
    intro ids; rw [gWorld.comps_create]; simp [gWorldCreateEntity]
  simp only [hz]
  rw [gWorld.set_create]
  simp [samplePlayer, Components.zero, Components.slot, screenWidth, screenHeight]

/-- Off-screen cleanup removes exactly the live entities that carry the tag and a
transform whose position is strictly beyond the level border. -/
theorem destroyWhenOffScreenSystem_spec (w : gWorld) (x : gEntity) :
    (destroyWhenOffScreenSystem w).comps x =
      if x ∈ w.query [.destroyWhenOffScreenTag, .transformComp] ∧
        w.satisfies Components.offScreen x = true then none else w.comps x := by
  unfold destroyWhenOffScreenSystem gWorld.foreach
  rw [gWorld.foreachIn_destroy Components.offScreen]
  intro acc e c
  unfold Components.offScreen
  cases ht : c.transform with
  | none => simp
  | some t => simp

theorem destroyWhenOffScreenSystem_iff (w : gWorld) (x : gEntity) (c : Components)
    (hc : w.comps x = some c) :
    ((destroyWhenOffScreenSystem w).comps x = none ↔
      c.destroyWhenOffScreenTag = true ∧ ∃ t, c.transform = some t ∧
        (t.position.x < -50 ∨ t.position.x > 850 ∨
          t.position.y < -50 ∨ t.position.y > 500)) ∧
    ((destroyWhenOffScreenSystem w).comps x = none ∨
      (destroyWhenOffScreenSystem w).comps x = some c) := by
  have hb1 : (levelBorder : ℚ) = 50 := by norm_num [levelBorder]
  have hb2 : ((screenHeight + levelBorder : Int) : ℚ) = 500 := by
    norm_num [screenHeight, levelBorder]
  have hb3 : ((screenWidth + levelBorder : Int) : ℚ) = 850 := by
    norm_num [screenWidth, levelBorder]
  have hq := gWorld.mem_query w [.destroyWhenOffScreenTag, .transformComp] x
  rw [destroyWhenOffScreenSystem_spec]
  constructor
  · constructor
    · intro h
      split at h
      · rename_i hx
        obtain ⟨hmem, hoff⟩ := hx
        obtain ⟨c', hc', hall⟩ := hq.1 hmem
        rw [hc] at hc'
        have hcc := Option.some.inj hc'
        subst hcc
        simp only [gWorld.satisfies, hc, Components.offScreen] at hoff
        cases ht : c.transform with
        | none => simp [ht] at hoff
        | some t =>
          simp only [ht, decide_eq_true_eq, hb1, hb2, hb3] at hoff
          refine ⟨by simpa [Components.hasAll, Components.has, ht] using hall, t, rfl, ?_⟩
          tauto
      · rw [hc] at h
        exact absurd h (by simp)
    · rintro ⟨htag, t, ht, hpos⟩
      rw [if_pos]
      refine ⟨hq.2 ⟨c, hc, by simp [Components.hasAll, Components.has, htag, ht]⟩, ?_⟩
      simp only [gWorld.satisfies, hc, Components.offScreen, ht, decide_eq_true_eq, hb1, hb2, hb3]
      tauto
  · split
    · exact Or.inl rfl
    · exact Or.inr hc

theorem gWorld.healthBounded_iff (w : gWorld) :
    w.healthBounded = true ↔ ∀ x c, w.comps x = some c → c.healthOk = true := by
  unfold gWorld.healthBounded
  rw [List.all_eq_true]
  constructor
  · intro h x c hc
    exact h _ (w.mem_slots_of_comps x c hc)
  · intro h o ho
    cases o with
    | none => rfl
    | some c =>
      obtain ⟨x, hx⟩ := w.comps_of_mem_slots c ho
      exact h x c hx

theorem Components.healthLe_refl (c : Components) : Components.healthLe c c := by
  unfold Components.healthLe
  cases c.health <;> simp

theorem Components.healthLe_of_eq (c0 c : Components) (h : c.health = c0.health) :
    Components.healthLe c0 c := by
  unfold Components.healthLe
  rw [h]
  cases c0.health <;> simp

theorem Components.healthLe_trans (a b c : Components) (h1 : Components.healthLe a b)
    (h2 : Components.healthLe b c) : Components.healthLe a c := by
  unfold Components.healthLe at *
  cases ha : a.health <;> cases hb : b.health <;> cases hc : c.health <;>
    simp only [ha, hb, hc] at h1 h2 ⊢
  exact ⟨le_trans h2.1 h1.1, h2.2.trans h1.2⟩

theorem Components.healthOk_of_le (c0 c : Components) (h : Components.healthLe c0 c)
    (h0 : c0.healthOk = true) : c.healthOk = true := by
  unfold Components.healthLe at h
  unfold Components.healthOk at *
  cases ha : c0.health <;> cases hb : c.health <;> simp only [ha, hb] at h h0 ⊢
  simp only [decide_eq_true_eq] at h0 ⊢
  rw [h.2]
  exact le_trans h.1 h0

/-- A hit of a non-negative amount lowers `currentHealth` and keeps `maxHealth`. -/
theorem Components.healthLe_hit (c : Components) (h : healthComp) (value : Int) (src : gEntity)
    (hh : c.health = some h) (hv : 0 ≤ value) : Components.healthLe c (c.hit h value src) := by
  unfold Components.healthLe
  simp only [hh, Components.hit]
  exact ⟨by omega, trivial⟩

theorem healthOps_early : PrefixOps Components.healthLe (fun c => c.healthOk = true) :=
  { input := fun c _ => Components.healthLe_of_eq c _ rfl
    control := fun c _ _ => Components.healthLe_of_eq c _ rfl
    transform := fun c _ => Components.healthLe_of_eq c _ rfl
    shootable := fun c _ => Components.healthLe_of_eq c _ rfl
    window := fun c _ => Components.healthLe_of_eq c _ rfl
    spawner := fun c _ => Components.healthLe_of_eq c _ rfl
    bullet := fun _ _ _ => rfl
    enemy := fun p t => by unfold enemyRecord; split <;> rfl }

theorem healthOps_late : SuffixOps Components.healthLe (fun c => c.healthOk = true) :=
  { hit := fun c h src hh => Components.healthLe_hit c h 1 src hh (by decide)
    score := fun c _ => Components.healthLe_of_eq c _ rfl
    event := fun _ _ => rfl }

/-- Operations that never raise `currentHealth` nor change `maxHealth`, and create only
entities within the bound, keep the bound. -/
theorem gWorld.Steps.healthBounded {w w1 : gWorld}
    (h : gWorld.Steps Components.healthLe (fun c => c.healthOk = true) w w1)
    (hw : w.healthBounded = true) : w1.healthBounded = true := by
  rw [gWorld.healthBounded_iff] at hw ⊢
  exact h.all (fun c => c.healthOk = true) Components.healthOk_of_le (fun _ hn => hn) hw

theorem createPlayer_healthBounded (w : gWorld) (hw : w.healthBounded = true) :
    (createPlayer w).healthBounded = true := by
  rw [createPlayer_eq]
  exact gWorld.Steps.healthBounded (.append _ (.refl w) rfl) hw

theorem createEnemy_healthBounded (w : gWorld) (position : Vector2) (type : Int) (w' : gWorld)
    (h : createEnemy w position type = some w') (hw : w.healthBounded = true) :
    w'.healthBounded = true := by
  by_cases ht : type = enemyType_asteroid ∨ type = enemyType_ship
  · rw [createEnemy_eq w position type ht] at h
    rw [← Option.some.inj h]
    exact gWorld.Steps.healthBounded (.append _ (.refl w) (healthOps_early.enemy _ _)) hw
  · have h0 : ¬ type = enemyType_asteroid := fun h => ht (Or.inl h)
    have h1 : ¬ type = enemyType_ship := fun h => ht (Or.inr h)
    unfold createEnemy at h
    simp only [h0, h1, if_false, gWorld.comps] at h
    exact absurd h (by simp)

theorem applyDamage_healthBounded (w : gWorld) (e : gEntity) (value : Int) (src : gEntity)
    (check : Bool) (w' : gWorld) (hv : 0 ≤ value)
    (h : applyDamage w e value src check = some w') (hw : w.healthBounded = true) :
    w'.healthBounded = true := by
  rcases applyDamage_cases w w' e value src check h with rfl | ⟨c, hc, h1, h2, _, _, h5⟩
  · exact hw
  · rw [h5]
    exact gWorld.Steps.healthBounded
      (.write e c _ (.refl w) h1 (Components.healthLe_hit c hc value src h2 hv)) hw

theorem playingSystems_healthBounded (env : Env) (w : gWorld) (k : Nat) (w' : gWorld)
    (k' : Nat) (st : Int) (h : processPlayingGameState env w k = some (w', k', st))
    (hw : w.healthBounded = true) : w'.healthBounded = true := by
  obtain ⟨hp, _⟩ := processPlayingGameState_eq_some env w k w' k' st h
  exact (playingSystems_steps healthOps_early healthOps_late env w k _ hp).healthBounded hw

/-- Through a pass the health of an entity that stays in the store never rises and its
maximum never changes. -/
theorem playingSystems_health_le (env : Env) (w : gWorld) (k : Nat) (w' : gWorld)
    (k' : Nat) (st : Int) (h : processPlayingGameState env w k = some (w', k', st))
    (x : gEntity) (c c' : Components) (hc : w.comps x = some c) (hc' : w'.comps x = some c')
    (hh : healthComp) (hhc : c.health = some hh) :
    ∃ hh', c'.health = some hh' ∧ hh'.currentHealth ≤ hh.currentHealth ∧
      hh'.maxHealth = hh.maxHealth := by
  obtain ⟨hp, _⟩ := processPlayingGameState_eq_some env w k w' k' st h
  have hr := (playingSystems_steps healthOps_early healthOps_late env w k _ hp).rel
    Components.healthLe Components.healthLe_refl Components.healthLe_trans (fun _ _ hw => hw)
    x c hc c' hc'
  unfold Components.healthLe at hr
  cases hb : c'.health with
  | none => simp [hhc, hb] at hr
  | some hh' =>
    simp only [hhc, hb] at hr
    exact ⟨hh', rfl, hr⟩

theorem reachable_healthBounded (s : MainState) (hs : Reachable s) :
    ∀ w, s.world = some w → w.healthBounded = true := by
  induction hs with
  | start =>
    intro w hw
    simp [mainInit] at hw
  | @step s0 s1 env _ hstep ih =>
    intro w hw
    rcases mainStep_world env s0 s1 hstep with h | h | ⟨w0, w', k', st, h0, hp, h⟩
    · rw [h] at hw
      exact absurd hw (by simp)
    · rw [h] at hw
      rw [← Option.some.inj hw]
      decide!
    · rw [h] at hw
      rw [← Option.some.inj hw]
      exact playingSystems_healthBounded env w0 s0.draws w' k' st hp (ih w0 h0)

/-- An event whose `e1` is neither a bullet nor an enemy matches no damage rule. -/
theorem handleCollisionEvent_no_rule (s : gWorld) (ev : collideEventComp)
    (hb : gWorldHasComponent s ev.e1 .bulletComp = false)
    (he : gWorldHasComponent s ev.e1 .enemyComp = false) :
    handleCollisionEvent s ev = some s := by
  rw [handleCollisionEvent_eq]
  simp [hb, he]

/-- The event of an enemy `e` without Invulnerability against an entity `p` with Health
and Invulnerability: `p` is hit unless immune, and the return hit on `e` is suppressed
because `p` is immune by then; no entity other than `p` changes. -/
theorem handleCollisionEvent_enemy_on_player (s : gWorld) (e p : gEntity)
    (ce cp : Components) (h : healthComp) (inv : invulnerabilityComp)
    (hce : s.comps e = some ce) (hen : ce.enemy.isSome = true) (hbe : ce.bullet = none)
    (hie : ce.invulnerability = none)
    (hcp : s.comps p = some cp) (hh : cp.health = some h)
    (hi : cp.invulnerability = some inv) :
    ∃ s', handleCollisionEvent s { e1 := e, e2 := p } = some s' ∧
      (∀ x, x ≠ p → s'.comps x = s.comps x) ∧
      ((inv.time > 0 ∧ s'.comps p = some cp) ∨
        (inv.time ≤ 0 ∧ s'.comps p = some (cp.hit h 1 e))) := by
  have hb1 : gWorldHasComponent s e .bulletComp = false := by
    simp [gWorldHasComponent, hce, Components.has, hbe]
  have he1 : gWorldHasComponent s e .enemyComp = true := by
    simp [gWorldHasComponent, hce, Components.has, hen]
  have hp1 : gWorldHasComponent s p .healthComp = true := by
    simp [gWorldHasComponent, hcp, Components.has, hh]
  rw [handleCollisionEvent_eq]
  simp only [hb1, he1, hp1, Bool.false_and, Bool.and_self, if_true, Bool.false_eq_true, if_false]
  by_cases ht : inv.time > 0
  · rw [applyDamage_of_immune s p 1 e true (Or.inr ⟨cp, inv, hcp, hi, ht⟩)]
    simp only [Option.some_bind]
    rw [applyDamage_of_immune s e 1 p true (Or.inl ⟨rfl, cp, inv, hcp, hi, ht⟩)]
    exact ⟨s, rfl, fun _ _ => rfl, Or.inl ⟨ht, hcp⟩⟩
  · obtain ⟨s1, h1, h2, h3, _⟩ := applyDamage_of_not_immune s p 1 e true cp h hcp hh
      (by
        intro _ cs inv0 hcs hinv0
        rw [hce] at hcs
        rw [← Option.some.inj hcs, hie] at hinv0
        exact absurd hinv0 (by simp))
      (by
        intro inv0 hinv0
        rw [hi] at hinv0
        rw [← Option.some.inj hinv0]
        exact not_lt.1 ht)
    rw [h1]
    simp only [Option.some_bind]
    rw [applyDamage_of_immune s1 e 1 p true
      (Or.inl ⟨rfl, _, { time := 3 }, h2, by simp [hi], by norm_num⟩)]
    exact ⟨s1, rfl, h3, Or.inr ⟨not_lt.1 ht, h2⟩⟩

/-- Damage Resolution in a store whose events are all between an enemy `e` without
Invulnerability and an entity `p` with Health and Invulnerability that is neither a
bullet nor an enemy, `(e, p)` being among them: no entity other than `p` changes, and
`p` takes exactly one hit from `e` unless it is immune. -/
theorem handleCollisionEvents_enemy_player (w : gWorld) (e p : gEntity)
    (ce cp : Components) (h : healthComp) (inv : invulnerabilityComp)
    (hce : w.comps e = some ce) (hen : ce.enemy.isSome = true) (hbe : ce.bullet = none)
    (hie : ce.invulnerability = none)
    (hcp : w.comps p = some cp) (hh : cp.health = some h)
    (hi : cp.invulnerability = some inv) (hbp : cp.bullet = none) (hep : cp.enemy = none)
    (hev : ∀ x c ev, w.comps x = some c → c.collideEvent = some ev →
      ev = { e1 := e, e2 := p } ∨ ev = { e1 := p, e2 := e })
    (hex : ∃ x c, w.comps x = some c ∧ c.collideEvent = some { e1 := e, e2 := p }) :
    ∃ w', handleCollisionEvents w = some w' ∧
      (∀ x, x ≠ p → w'.comps x = w.comps x) ∧
      ((inv.time > 0 ∧ w'.comps p = some cp) ∨
        (inv.time ≤ 0 ∧ w'.comps p = some (cp.hit h 1 e))) := by
  have hne : e ≠ p := by
    rintro rfl
    rw [hce] at hcp
    rw [Option.some.inj hcp, hi] at hie
    exact absurd hie (by simp)
  -- one event, in a state that satisfies the invariant
  have key : ∀ (s : gWorld) (ev : collideEventComp),
      (∀ x, x ≠ p → s.comps x = w.comps x) →
      (s.comps p = some cp ∨ (inv.time ≤ 0 ∧ s.comps p = some (cp.hit h 1 e))) →
      (ev = { e1 := e, e2 := p } ∨ ev = { e1 := p, e2 := e }) →
      ∃ s', handleCollisionEvent s ev = some s' ∧
        (∀ x, x ≠ p → s'.comps x = w.comps x) ∧
        (s'.comps p = some cp ∨ (inv.time ≤ 0 ∧ s'.comps p = some (cp.hit h 1 e))) ∧
        (s'.comps p = s.comps p ∨ ev = { e1 := e, e2 := p }) ∧
        (ev = { e1 := e, e2 := p } →
          (inv.time > 0 ∧ s'.comps p = some cp) ∨
            (inv.time ≤ 0 ∧ s'.comps p = some (cp.hit h 1 e))) := by
    intro s ev j1 j2 hallowed
    have hse : s.comps e = some ce := by rw [j1 e hne]; exact hce
    rcases hallowed with rfl | rfl
    · rcases j2 with j2 | ⟨hle, j2⟩
      · obtain ⟨s', hr, ho, hpr⟩ := handleCollisionEvent_enemy_on_player s e p ce cp h inv
          hse hen hbe hie j2 hh hi
        refine ⟨s', hr, fun x hx => (ho x hx).trans (j1 x hx), ?_, Or.inr rfl, fun _ => hpr⟩
        rcases hpr with ⟨_, q⟩ | ⟨q1, q2⟩
        · exact Or.inl q
        · exact Or.inr ⟨q1, q2⟩
      · obtain ⟨s', hr, ho, hpr⟩ := handleCollisionEvent_enemy_on_player s e p ce
          (cp.hit h 1 e) { currentHealth := h.currentHealth - 1, maxHealth := h.maxHealth }
          { time := invulnerabilityTime } hse hen hbe hie j2 rfl
          (by simp [Components.hit, hi])
        have hpos : ¬ invulnerabilityTime ≤ 0 := by norm_num [invulnerabilityTime]
        rcases hpr with ⟨_, q⟩ | ⟨q1, _⟩
        · exact ⟨s', hr, fun x hx => (ho x hx).trans (j1 x hx), Or.inr ⟨hle, q⟩, Or.inr rfl,
            fun _ => Or.inr ⟨hle, q⟩⟩
        · exact absurd q1 hpos
    · have hpb : gWorldHasComponent s p .bulletComp = false ∧
          gWorldHasComponent s p .enemyComp = false := by
        rcases j2 with j2 | ⟨_, j2⟩
        · simp [gWorldHasComponent, j2, Components.has, hbp, hep]
        · simp [gWorldHasComponent, j2, Components.has, Components.hit, hbp, hep]
      refine ⟨s, handleCollisionEvent_no_rule s _ hpb.1 hpb.2, j1, j2, Or.inl rfl, ?_⟩
      intro hEq
      have : p = e := congrArg collideEventComp.e1 hEq
      exact absurd this.symm hne
  -- the event read from a snapshot entity is one of the two
  have hread : ∀ (s : gWorld) (x : gEntity) (c : Components) (ev : collideEventComp),
      (∀ x, x ≠ p → s.comps x = w.comps x) →
      (s.comps p = some cp ∨ (inv.time ≤ 0 ∧ s.comps p = some (cp.hit h 1 e))) →
      s.comps x = some c → c.collideEvent = some ev →
      ∃ c0, w.comps x = some c0 ∧ c0.collideEvent = some ev := by
    intro s x c ev j1 j2 hc hcev
    by_cases hx : x = p
    · subst hx
      rcases j2 with j2 | ⟨_, j2⟩
      · rw [j2] at hc
        exact ⟨cp, hcp, by rw [Option.some.inj hc]; exact hcev⟩
      · rw [j2] at hc
        rw [← Option.some.inj hc] at hcev
        exact ⟨cp, hcp, hcev⟩
    · exact ⟨c, (j1 x hx) ▸ hc, hcev⟩
  obtain ⟨x0, c0, hx0, hc0⟩ := hex
  have hmem : x0 ∈ w.query [.collideEventComp] := by
    rw [gWorld.mem_query]
    exact ⟨c0, hx0, by simp [Components.hasAll, Components.has, hc0]⟩
  rw [handleCollisionEvents_eq]
  obtain ⟨w', hr, ⟨j1, _⟩, hK⟩ := foldlM_establish handleCollisionEventAt
    (fun s => (∀ x, x ≠ p → s.comps x = w.comps x) ∧
      (s.comps p = some cp ∨ (inv.time ≤ 0 ∧ s.comps p = some (cp.hit h 1 e))))
    (fun s => (inv.time > 0 ∧ s.comps p = some cp) ∨
      (inv.time ≤ 0 ∧ s.comps p = some (cp.hit h 1 e)))
    (w.query [.collideEventComp]) x0 hmem
    (by
      rintro s x _ ⟨j1, j2⟩
      unfold handleCollisionEventAt
      cases hc : s.comps x with
      | none => exact ⟨s, rfl, ⟨j1, j2⟩, id⟩
      | some c =>
        cases hcev : c.collideEvent with
        | none => exact ⟨s, by simp [hcev], ⟨j1, j2⟩, id⟩
        | some ev =>
          obtain ⟨cw, hcw, hcwev⟩ := hread s x c ev j1 j2 hc hcev
          obtain ⟨s', hs', k1, k2, k3, k4⟩ := key s ev j1 j2 (hev x cw ev hcw hcwev)
          refine ⟨s', by simp [hcev, hs'], ⟨k1, k2⟩, ?_⟩
          intro hK
          rcases k3 with k3 | k3
          · rw [k3]; exact hK
          · exact k4 k3)
    (by
      rintro s s' ⟨j1, j2⟩ hstep
      unfold handleCollisionEventAt at hstep
      have hsx : ∃ c, s.comps x0 = some c ∧ c.collideEvent = some { e1 := e, e2 := p } := by
        by_cases hx : x0 = p
        · subst hx
          rw [hcp] at hx0
          rw [← Option.some.inj hx0] at hc0
          rcases j2 with j2 | ⟨_, j2⟩
          · exact ⟨cp, j2, hc0⟩
          · exact ⟨_, j2, hc0⟩
        · exact ⟨c0, (j1 x0 hx).trans hx0, hc0⟩
      obtain ⟨c, hc, hcev⟩ := hsx
      simp only [hc, hcev] at hstep
      obtain ⟨s2, hs2, _, _, _, k4⟩ := key s _ j1 j2 (Or.inl rfl)
      rw [hs2] at hstep
      rw [← Option.some.inj hstep]
      exact k4 rfl)
    w ⟨fun _ _ => rfl, Or.inl hcp⟩
  exact ⟨w', hr, j1, hK⟩

/-- Collision Detection followed by Damage Resolution in a store without stale events in
which the only overlap is between an enemy `e` without Invulnerability and an entity
`p` with Health and Invulnerability that is neither a bullet nor an enemy: every old
entity other than `p` keeps its record, and `p` takes one hit from `e` unless immune. -/
theorem collide_enemy_player (w : gWorld) (e p : gEntity)
    (ce cp : Components) (h : healthComp) (inv : invulnerabilityComp)
    (hce : w.comps e = some ce) (hen : ce.enemy.isSome = true) (hbe : ce.bullet = none)
    (hie : ce.invulnerability = none)
    (hcp : w.comps p = some cp) (hh : cp.health = some h)
    (hi : cp.invulnerability = some inv) (hbp : cp.bullet = none) (hep : cp.enemy = none)
    (hstale : w.query [.collideEventComp] = [])
    (hov : w.overlap e p = true)
    (honly : ∀ a b, a ≠ b → w.overlap a b = true → (a = e ∧ b = p) ∨ (a = p ∧ b = e)) :
    ∃ w', handleCollisionEvents (simpleCollisionDetectionSystem w) = some w' ∧
      w'.comps e = some ce ∧
      (∀ x c, w.comps x = some c → x ≠ p → w'.comps x = some c) ∧
      ((inv.time > 0 ∧ w'.comps p = some cp) ∨
        (inv.time ≤ 0 ∧ w'.comps p = some (cp.hit h 1 e))) := by
  have hne : e ≠ p := by
    rintro rfl
    rw [hce] at hcp
    rw [Option.some.inj hcp, hi] at hie
    exact absurd hie (by simp)
  obtain ⟨x0, hx0⟩ := simpleCollisionDetectionSystem_event w e p hne hov
  obtain ⟨w', hr, ho, hp⟩ := handleCollisionEvents_enemy_player
    (simpleCollisionDetectionSystem w) e p ce cp h inv
    (simpleCollisionDetectionSystem_comps_old w e ce hce) hen hbe hie
    (simpleCollisionDetectionSystem_comps_old w p cp hcp) hh hi hbp hep
    (by
      intro x c ev hc hcev
      rcases simpleCollisionDetectionSystem_comps_cases w x c hc with h1 | ⟨a, b, hab, hovab, rfl⟩
      · have := (gWorld.no_events_iff w).1 hstale x c h1
        rw [this] at hcev
        exact absurd hcev (by simp)
      · have hev : ev = { e1 := a, e2 := b } := by
          simp only [collideEventRecord] at hcev
          exact (Option.some.inj hcev).symm
        rw [hev]
        rcases honly a b hab hovab with ⟨rfl, rfl⟩ | ⟨rfl, rfl⟩
        · exact Or.inl rfl
        · exact Or.inr rfl)
    ⟨x0, _, hx0, rfl⟩
  refine ⟨w', hr, ?_, ?_, hp⟩
  · rw [ho e hne]
    exact simpleCollisionDetectionSystem_comps_old w e ce hce
  · intro x c hc hx
    rw [ho x hx]
    exact simpleCollisionDetectionSystem_comps_old w x c hc

/-- A spawn position fails the off-screen test on all four sides. -/
theorem Components.spawnedEnemy_onScreen (c : Components) (h : c.spawnedEnemy) :
    c.offScreen = false ∧ c.bullet = none ∧ c.enemySpawner = none ∧
      ∃ t, c.transform = some t ∧
        ¬ (t.position.x < -50 ∨ t.position.x > 850 ∨
          t.position.y < -50 ∨ t.position.y > 500) := by
  obtain ⟨lane, type, h0, h7, _, rfl⟩ := h
  have hx0 : (0 : ℚ) ≤ (lane : ℚ) := by exact_mod_cast h0
  have hx7 : (lane : ℚ) ≤ 7 := by exact_mod_cast h7
  have ht : (enemyRecord ⟨((100 * lane + 50 : Int) : ℚ), -45⟩ type).transform =
      some { position := ⟨((100 * lane + 50 : Int) : ℚ), -45⟩ } := by
    unfold enemyRecord; split <;> rfl
  refine ⟨?_, by unfold enemyRecord; split <;> rfl, by unfold enemyRecord; split <;> rfl,
    _, ht, ?_⟩
  · unfold Components.offScreen
    rw [ht]
    simp only [levelBorder, screenHeight, screenWidth, decide_eq_false_iff_not]
    push_cast
    intro hor
    rcases hor with hor | hor | hor | hor <;> linarith
  · simp only
    push_cast
    intro hor
    rcases hor with hor | hor | hor | hor <;> linarith

/-- The i-th record of a wave is a spawned enemy. -/
theorem waveRecords_spawned (env : Env) (n k i : Nat) (hi : i < n) :
    ∃ c, (waveRecords env n k)[i]? = some (some c) ∧ c.spawnedEnemy := by
  have hlane := GetRandomValue_mem env (k + 2 * i) 0 (columnCount - 1) (by decide)
  have hr := GetRandomValue_mem env (k + 2 * i + 1) 0 (enemyType_count - 1) (by decide)
  have ht : GetRandomValue env (k + 2 * i + 1) 0 (enemyType_count - 1) = enemyType_asteroid ∨
      GetRandomValue env (k + 2 * i + 1) 0 (enemyType_count - 1) = enemyType_ship := by
    simp only [enemyType_count, enemyType_asteroid, enemyType_ship] at hr ⊢
    omega
  refine ⟨_, waveRecords_getElem env n k i hi, GetRandomValue env (k + 2 * i) 0 (columnCount - 1),
    GetRandomValue env (k + 2 * i + 1) 0 (enemyType_count - 1), hlane.1, hlane.2, ht, ?_⟩
  have e1 : GetRandomValue env (k + 2 * i) 0 (columnCount - 1) * (screenWidth / columnCount) +
      screenWidth / columnCount / 2 =
      100 * GetRandomValue env (k + 2 * i) 0 (columnCount - 1) + 50 := by
    have : screenWidth / columnCount = 100 := by decide
    rw [this]; omega
  have e2 : ((-spawnBorder : Int) : ℚ) = -45 := by simp [spawnBorder, levelBorder]
  rw [e1, e2]

/-- One spawner visit only appends spawned enemies and rewrites only the spawner. -/
theorem enemySpawnAt_fresh (env : Env) (s r : gWorld × Nat) (e : gEntity)
    (hr : enemySpawnAt env s e = some r) :
    s.1.slots.length ≤ r.1.slots.length ∧
    (∀ x c, s.1.comps x = some c → c.enemySpawner = none → r.1.comps x = some c) ∧
    (∀ i, s.1.slots.length ≤ i → i < r.1.slots.length →
      ∃ c, r.1.comps (.mk i) = some c ∧ c.spawnedEnemy) := by
  have hsame : ∀ w : gWorld, w.slots.length ≤ w.slots.length ∧
      (∀ x c, w.comps x = some c → c.enemySpawner = none → w.comps x = some c) ∧
      (∀ i, w.slots.length ≤ i → i < w.slots.length →
        ∃ c, w.comps (.mk i) = some c ∧ c.spawnedEnemy) :=
    fun w => ⟨le_refl _, fun _ _ h _ => h, fun i h1 h2 => absurd h2 (not_lt.2 h1)⟩
  cases hc : s.1.comps e with
  | none =>
    simp only [enemySpawnAt, hc] at hr
    rw [← Option.some.inj hr]
    exact hsame _
  | some c =>
    cases hsp : c.enemySpawner with
    | none =>
      simp only [enemySpawnAt, hc, hsp] at hr
      rw [← Option.some.inj hr]
      exact hsame _
    | some sp =>
      have hs : s = (s.1, s.2) := rfl
      rw [hs] at hr
      have hold : ∀ (c' : Components) x cx, s.1.comps x = some cx → cx.enemySpawner = none →
          (s.1.set e c').comps x = some cx := by
        intro c' x cx hx hn
        rw [gWorld.comps_set]
        have hne : x ≠ e := by
          rintro rfl
          rw [hc] at hx
          rw [Option.some.inj hx, hn] at hsp
          exact absurd hsp (by simp)
        simp [hne, hx]
      by_cases hf : binary32 (sp.timeAfterSpawn + env.frameTime) ≥ sp.timeToSpawn
      · rw [enemySpawnAt_fire env s.1 s.2 e c sp hc hsp hf] at hr
        rw [← Option.some.inj hr]
        refine ⟨?_, ?_, ?_⟩
        · simp only [List.length_append, gWorld.length_set]
          omega
        · intro x cx hx hn
          exact gWorld.comps_append _ _ x cx (hold _ x cx hx hn)
        · intro i h1 h2
          simp only [List.length_append, gWorld.length_set, waveRecords_length] at h2
          obtain ⟨c', hc', hsp'⟩ := waveRecords_spawned env (sp.enemyInWave % 2 ^ 64).toNat s.2
            (i - s.1.slots.length) (by omega)
          refine ⟨c', ?_, hsp'⟩
          rw [gWorld.comps_mk]
          simp only []
          rw [List.getElem?_append_right (by rw [gWorld.length_set]; exact h1),
            gWorld.length_set, hc']
          rfl
      · rw [enemySpawnAt_wait env s.1 s.2 e c sp hc hsp (not_le.1 hf)] at hr
        rw [← Option.some.inj hr]
        refine ⟨by simp only [gWorld.length_set]; exact le_refl _, fun x cx hx hn =>
          hold _ x cx hx hn, ?_⟩
        intro i h1 h2
        simp only [gWorld.length_set] at h2
        omega

/-- The spawn system only appends spawned enemies: every slot it adds holds an enemy at a
spawn position, and records without a spawner component are unchanged. -/
theorem enemySpawnSystem_fresh (env : Env) (w : gWorld) (k : Nat) (r : gWorld × Nat)
    (hr : enemySpawnSystem env w k = some r) :
    w.slots.length ≤ r.1.slots.length ∧
    (∀ x c, w.comps x = some c → c.enemySpawner = none → r.1.comps x = some c) ∧
    (∀ i, w.slots.length ≤ i → i < r.1.slots.length →
      ∃ c, r.1.comps (.mk i) = some c ∧ c.spawnedEnemy) := by
  refine foldlM_rel (enemySpawnAt env)
    (fun s r => s.1.slots.length ≤ r.1.slots.length ∧
      (∀ x c, s.1.comps x = some c → c.enemySpawner = none → r.1.comps x = some c) ∧
      (∀ i, s.1.slots.length ≤ i → i < r.1.slots.length →
        ∃ c, r.1.comps (.mk i) = some c ∧ c.spawnedEnemy))
    (fun s => ⟨le_refl _, fun _ _ h _ => h, fun i h1 h2 => absurd h2 (not_lt.2 h1)⟩)
    ?_ (fun s x s' hs => enemySpawnAt_fresh env s s' x hs)
    (w.query [.enemySpawnerComp]) (w, k) r hr
  rintro s1 s2 s3 ⟨a1, a2, a3⟩ ⟨b1, b2, b3⟩
  refine ⟨le_trans a1 b1, fun x c hx hn => b2 x c (a2 x c hx hn) hn, ?_⟩
  intro i h1 h3
  by_cases h2 : i < s2.1.slots.length
  · obtain ⟨c, hc, hs⟩ := a3 i h1 h2
    exact ⟨c, b2 _ c hc (Components.spawnedEnemy_onScreen c hs).2.2.1, hs⟩
  · exact b3 i (not_lt.1 h2) h3

/-- Collision Detection, Damage Resolution and Scoring write no transform. -/
theorem transformOps_late :
    SuffixOps (fun c0 c => c.transform = c0.transform) (fun _ => True) :=
  { hit := fun _ _ _ _ => rfl
    score := fun _ _ => rfl
    event := fun _ _ => trivial }

/-- A sequence of operations that write no transform leaves the transform of every entity
that stays in the store as it was. -/
theorem gWorld.Steps.transform_eq {N : Components → Prop} {w w1 : gWorld}
    (h : gWorld.Steps (fun c0 c => c.transform = c0.transform) N w w1)
    (x : gEntity) (c c1 : Components) (hc : w.comps x = some c) (hc1 : w1.comps x = some c1) :
    c1.transform = c.transform :=
  h.rel (fun c0 c => c.transform = c0.transform) (fun _ => rfl)
    (fun _ _ _ h1 h2 => h2.trans h1) (fun _ _ hw => hw) x c hc c1 hc1

/-- An entity that is not a bullet stays in the store through Damage Resolution. -/
theorem handleCollisionEvents_alive (x : gEntity) (w w' : gWorld)
    (h : handleCollisionEvents w = some w')
    (hx : ∃ c, w.comps x = some c ∧ c.bullet = none) :
    ∃ c, w'.comps x = some c ∧ c.bullet = none := by
  rw [handleCollisionEvents_eq] at h
  refine foldlM_rel handleCollisionEventAt
    (fun s s' => (∃ c, s.comps x = some c ∧ c.bullet = none) →
      ∃ c, s'.comps x = some c ∧ c.bullet = none)
    (fun _ h => h) (fun _ _ _ h1 h2 h0 => h2 (h1 h0)) ?_ _ w w' h hx
  intro s y s' hs h0
  unfold handleCollisionEventAt at hs
  cases hc : s.comps y with
  | none =>
    simp only [hc] at hs
    rw [← Option.some.inj hs]
    exact h0
  | some c =>
    cases hcev : c.collideEvent with
    | none =>
      simp only [hc, hcev] at hs
      rw [← Option.some.inj hs]
      exact h0
    | some ev =>
      simp only [hc, hcev] at hs
      exact handleCollisionEvent_alive x s s' ev h0 hs

theorem Components.offScreen_congr (c c' : Components) (h : c'.transform = c.transform) :
    c'.offScreen = c.offScreen := by
  unfold Components.offScreen
  rw [h]

/-- An enemy created by the spawn system of a pass is still in the store, at its spawn
position, when off-screen cleanup runs, and off-screen cleanup keeps it. -/
theorem spawned_survives_offscreen (env : Env) (w5 : gWorld) (k : Nat) (w6 : gWorld) (k1 : Nat)
    (w8 w9 : gWorld)
    (h6 : enemySpawnSystem env w5 k = some (w6, k1))
    (h8 : handleCollisionEvents (simpleCollisionDetectionSystem w6) = some w8)
    (h9 : addScoreSystem w8 = some w9)
    (i : Nat) (h1 : w5.slots.length ≤ i) (h2 : i < w6.slots.length) :
    ∃ c6 c9, w6.comps (.mk i) = some c6 ∧ c6.spawnedEnemy ∧
      w9.comps (.mk i) = some c9 ∧ c9.transform = c6.transform ∧
      (destroyWhenOffScreenSystem w9).comps (.mk i) = some c9 := by
  obtain ⟨c6, hc6, hsp⟩ := (enemySpawnSystem_fresh env w5 k _ h6).2.2 i h1 h2
  obtain ⟨hoff, hbul, _, _⟩ := Components.spawnedEnemy_onScreen c6 hsp
  obtain ⟨c8, hc8, _⟩ := handleCollisionEvents_alive (.mk i) _ w8 h8
    ⟨c6, simpleCollisionDetectionSystem_comps_old w6 _ c6 hc6, hbul⟩
  obtain ⟨c9, hc9, _⟩ := (addScoreSystem_evolves false w8 w9 h9).stays_alive (.mk i) c8 hc8
  have hsteps : gWorld.Steps (fun c0 c => c.transform = c0.transform) (fun _ => True) w6 w9 :=
    ((simpleCollisionDetectionSystem_steps transformOps_late w6).andThen
      (handleCollisionEvents_steps transformOps_late _ w8 h8)).andThen
      (addScoreSystem_steps transformOps_late w8 w9 h9)
  have htr := hsteps.transform_eq (.mk i) c6 c9 hc6 hc9
  refine ⟨c6, c9, hc6, hsp, hc9, htr, ?_⟩
  rw [destroyWhenOffScreenSystem_spec]
  have : w9.satisfies Components.offScreen (.mk i) = false := by
    simp only [gWorld.satisfies, hc9]
    rw [Components.offScreen_congr c6 c9 htr]
    exact hoff
  simp [this, hc9]

/-- The iteration of the loop of `main` in state Init: the store is built and the next
state is Playing. -/
theorem mainStep_init (env : Env) (s : MainState) (h : s.currentGameState = gameState_init) :
    mainStep env s = .next { currentGameState := gameState_playing,
                             world := some processInitGameState.1, draws := s.draws } := by
  have h2 : processInitGameState.2 = gameState_playing := rfl
  unfold mainStep
  simp only [h, if_true, h2]

/-- The iteration of the loop of `main` in state Playing: the pass decides the next state. -/
theorem mainStep_playing (env : Env) (s : MainState) (w w' : gWorld) (k' : Nat) (st : Int)
    (h : s.currentGameState = gameState_playing) (hw : s.world = some w)
    (hp : processPlayingGameState env w s.draws = some (w', k', st)) :
    mainStep env s = .next { currentGameState := st, world := some w', draws := k' } := by
  unfold mainStep
  have h10 : ¬ gameState_playing = gameState_init := by decide
  simp only [h, h10, if_true, if_false, hw, hp]

/-- The iteration of the loop of `main` in state GameOver: the store is released and the
next state is Init iff a key was pressed. -/
theorem mainStep_gameOver (env : Env) (s : MainState)
    (h : s.currentGameState = gameState_gameOver) :
    mainStep env s = .next { currentGameState :=
                               if env.keyPressed > 0 then gameState_init else gameState_gameOver,
                             world := none, draws := s.draws } := by
  unfold mainStep
  have h20 : ¬ gameState_gameOver = gameState_init := by decide
  have h21 : ¬ gameState_gameOver = gameState_playing := by decide
  simp only [h, h20, h21, if_true, if_false]
  unfold processGameOverGameState
  split <;> rfl

/-- Sample run of `shootSystem`: a player whose shoot flag is set, with `0.2f` waited, in a
frame of `0.05f`.  The exact sum of the two values is above the reload time `0.25f`, the
`float` sum is `0.25f`: no bullet is created and the time waited becomes `0.25f`. -/
theorem shootSystem_quarter_second :
    (13421773 / 67108864 + 13421773 / 268435456 : ℚ) > 1 / 4 ∧
    shootSystem (frameOf (13421773 / 268435456))
      { slots := [some ((samplePlayer ⟨400, 225⟩ 3 0).withShootable
        { direction := ⟨0, -1⟩, offset := ⟨0, -20⟩, timeToReload := 1 / 4,
          timeAfterShoot := 13421773 / 67108864, shoot := true })] } =
      { slots := [some ((samplePlayer ⟨400, 225⟩ 3 0).withShootable
        { direction := ⟨0, -1⟩, offset := ⟨0, -20⟩, timeToReload := 1 / 4,
          timeAfterShoot := 1 / 4, shoot := true })] } := by
  refine ⟨by norm_num, ?_⟩
  decide!

/-- Sample run of `enemySpawnSystem`: a spawner with threshold `1.0f` and wave size 2 whose
time waited and frame time have an exact sum below 1 and the `float` sum `1.0f`: the wave
is spawned (two new entities, six random draws). -/
theorem enemySpawnSystem_rounds_to_threshold :
    (16497595 / 16777216 + 8947860 / 536870912 : ℚ) < 1 ∧
    (enemySpawnSystem (frameOf (8947860 / 536870912))
      (spawnerOnly ⟨1, 16497595 / 16777216, 2⟩) 0).map (fun r => (r.1.slots.length, r.2)) =
      some (3, 6) := by
  refine ⟨by norm_num, ?_⟩
  decide!

/-! ## Claims -/

/-- C1: when `applyDamage` does not abort (the source-immunity check does not fire and the
target has no Invulnerability component or one with `time ≤ 0`), the target's current
health is the old value minus the amount (no clamping), its invulnerability time is the
fixed window 3 when it has that component, its LastDamageSource is the source when it
has that component, and every other component of every entity is unchanged. -/
theorem applyDamage_hit (w : gWorld) (e : gEntity) (value : Int) (src : gEntity) (check : Bool)
    (c : Components) (h : healthComp)
    (hc : w.comps e = some c) (hh : c.health = some h)
    (hsrc : check = true →
      ∀ cs inv, w.comps src = some cs → cs.invulnerability = some inv → inv.time ≤ 0)
    (htgt : ∀ inv, c.invulnerability = some inv → inv.time ≤ 0) :
    ∃ w', applyDamage w e value src check = some w' ∧
      w'.comps e = some { c with
        health := some { currentHealth := h.currentHealth - value, maxHealth := h.maxHealth }
        invulnerability := c.invulnerability.map (fun _ => { time := 3 })
        lastDamage := c.lastDamage.map (fun _ => { «from» := src }) } ∧
      (∀ x, x ≠ e → w'.comps x = w.comps x) ∧
      w'.slots.length = w.slots.length :=
  applyDamage_of_not_immune w e value src check c h hc hh hsrc htgt

/-- Instance of C1: an asteroid hits a player with 3 health whose invulnerability has run
out; the player is left with 2 health and a window of 3. -/
theorem applyDamage_hit_witness :
    ∃ w', applyDamage (playerAndAsteroid 0) (.mk 0) 1 (.mk 1) true = some w' ∧
      (w'.comps (.mk 0)).bind (fun c => c.health) = some { currentHealth := 2, maxHealth := 3 } ∧
      (w'.comps (.mk 0)).bind (fun c => c.invulnerability) = some { time := 3 } ∧
      w'.comps (.mk 1) = (playerAndAsteroid 0).comps (.mk 1) := by
  obtain ⟨w', h1, h2, h3, _⟩ := applyDamage_hit (playerAndAsteroid 0) (.mk 0) 1 (.mk 1) true
    (samplePlayer ⟨400, 225⟩ 3 0) { currentHealth := 3, maxHealth := 3 } rfl rfl
    (by
      intro _ cs inv hcs hinv
      have e : cs = sampleAsteroid ⟨400, 200⟩ 1 := (Option.some.inj hcs).symm
      subst e
      exact absurd hinv (by simp [sampleAsteroid, Components.zero, Components.slot]))
    (by
      intro inv hinv
      have e : inv = { time := 0 } := (Option.some.inj hinv).symm
      subst e
      exact le_refl _)
  exact ⟨w', h1, by rw [h2]; rfl, by rw [h2]; rfl, h3 _ (by decide)⟩

/-- C2: `applyDamage` aborts atomically: when the source-immunity check fires
(`checkInvToDamage` set and the source has an Invulnerability component with `time > 0`)
or the target has an Invulnerability component with `time > 0`, the world after the
call is the world before it. -/
theorem applyDamage_abort (w : gWorld) (e : gEntity) (value : Int) (src : gEntity) (check : Bool)
    (h : (check = true ∧
          ∃ cs inv, w.comps src = some cs ∧ cs.invulnerability = some inv ∧ inv.time > 0) ∨
        (∃ c inv, w.comps e = some c ∧ c.invulnerability = some inv ∧ inv.time > 0)) :
    applyDamage w e value src check = some w :=
  applyDamage_of_immune w e value src check h

/-- Instance of C2: the same hit while the player's window is still running (2 seconds
left) changes nothing. -/
theorem applyDamage_abort_witness :
    applyDamage (playerAndAsteroid 2) (.mk 0) 1 (.mk 1) true = some (playerAndAsteroid 2) :=
  applyDamage_abort (playerAndAsteroid 2) (.mk 0) 1 (.mk 1) true
    (Or.inr ⟨samplePlayer ⟨400, 225⟩ 3 2, { time := 2 }, rfl, rfl, by norm_num⟩)

/-- C3: for every CollideEvent whose `e1` is a live Bullet and whose `e2` has Health, the
bullet `e1` is no longer in the store after `handleCollisionEvents`, whether or not the
damage to `e2` was suppressed.  The worlds are those of the data model (spec 3): enemies
have Health, and neither the Health-bearing `e2` nor the event entity is itself a bullet. -/
theorem handleCollisionEvents_destroys_bullet (w : gWorld) (ev : gEntity) (cev : Components)
    (b t : gEntity)
    (hwf : w.enemiesHaveHealth = true)
    (hev : w.comps ev = some cev) (hce : cev.collideEvent = some { e1 := b, e2 := t })
    (hevb : cev.bullet = none)
    (hb : gWorldHasComponent w b .bulletComp = true)
    (ht : gWorldHasComponent w t .healthComp = true)
    (htb : gWorldHasComponent w t .bulletComp = false) :
    ∃ w', handleCollisionEvents w = some w' ∧ gWorldIsEntityAlive w' b = false := by
  rw [handleCollisionEvents_eq]
  have hmem : ev ∈ w.query [.collideEventComp] := by
    rw [gWorld.mem_query]
    exact ⟨cev, hev, by simp [Components.hasAll, Components.has, hce]⟩
  rw [gWorldHasComponent_eq_true_iff] at ht
  obtain ⟨ct, hct, hth⟩ := ht
  obtain ⟨w', h1, _, h3⟩ := foldlM_establish handleCollisionEventAt
    (fun acc => acc.enemiesHaveHealth = true ∧
      (∃ c, acc.comps ev = some c ∧ c.bullet = none) ∧
      (∀ c, acc.comps ev = some c → c.collideEvent = some { e1 := b, e2 := t }) ∧
      (∃ c, acc.comps t = some c ∧ c.bullet = none) ∧
      (∀ c, acc.comps t = some c → c.health.isSome = true) ∧
      (∀ c, acc.comps b = some c → c.bullet.isSome = true))
    (fun acc => acc.comps b = none)
    (w.query [.collideEventComp]) ev hmem
    (by
      rintro s x _ ⟨j1, j2, j3, j4, j5, j6⟩
      unfold handleCollisionEventAt
      cases hc : s.comps x with
      | none => exact ⟨s, rfl, ⟨j1, j2, j3, j4, j5, j6⟩, id⟩
      | some c =>
        cases hcev : c.collideEvent with
        | none => exact ⟨s, by simp [hcev], ⟨j1, j2, j3, j4, j5, j6⟩, id⟩
        | some e =>
          obtain ⟨s', hs'⟩ := handleCollisionEvent_defined s e j1
          refine ⟨s', by simp [hcev, hs'],
            ⟨handleCollisionEvent_enemiesHaveHealth s s' e j1 hs',
              handleCollisionEvent_alive ev s s' e j2 hs',
              handleCollisionEvent_keeps ev (fun c => c.collideEvent = some { e1 := b, e2 := t })
                (by intro c0 h0 src _ _ q; simpa [Components.hit] using q) s s' e j3 hs',
              handleCollisionEvent_alive t s s' e j4 hs',
              handleCollisionEvent_keeps t (fun c => c.health.isSome = true)
                (by intro c0 h0 src _ _ _; simp [Components.hit]) s s' e j5 hs',
              handleCollisionEvent_keeps b (fun c => c.bullet.isSome = true)
                (by intro c0 h0 src _ _ q; simpa [Components.hit] using q) s s' e j6 hs'⟩, ?_⟩
          intro hK
          have key := handleCollisionEvent_keeps b (fun _ => False)
            (by intro c0 h0 src _ _ q; exact q) s s' e
            (by intro c0 hc0; rw [hK] at hc0; exact absurd hc0 (by simp)) hs'
          cases hb' : s'.comps b with
          | none => rfl
          | some c0 => exact absurd (key c0 hb') id)
    (by
      rintro s s' ⟨_, ⟨ce, hce', _⟩, j3, ⟨c2, hc2, _⟩, j5, j6⟩ hstep
      simp only [handleCollisionEventAt, hce', j3 ce hce'] at hstep
      have hth' : gWorldHasComponent s t .healthComp = true := by
        rw [gWorldHasComponent_eq_true_iff]
        exact ⟨c2, hc2, j5 c2 hc2⟩
      exact handleCollisionEvent_consumes s s' b t j6 hth' hstep)
    w
    ⟨hwf, ⟨cev, hev, hevb⟩,
      (by
        intro c hc
        rw [hev] at hc
        rw [← Option.some.inj hc]
        exact hce),
      ⟨ct, hct, by simpa [gWorldHasComponent, hct, Components.has] using htb⟩,
      (by
        intro c hc
        rw [hct] at hc
        rw [← Option.some.inj hc]
        exact hth),
      (by
        intro c hc
        simpa [gWorldHasComponent, hc, Components.has] using hb)⟩
  exact ⟨w', h1, by simp [gWorldIsEntityAlive, h3]⟩

/-- Instance of C3: the bullet that touches a player whose window is still running
(2 seconds left) is destroyed although its damage is suppressed. -/
theorem handleCollisionEvents_destroys_bullet_witness :
    ∃ w', handleCollisionEvents (pendingHits 2) = some w' ∧
      gWorldIsEntityAlive w' (.mk 2) = false :=
  handleCollisionEvents_destroys_bullet (pendingHits 2) (.mk 3)
    (collideEventRecord (.mk 2) (.mk 0)) (.mk 2) (.mk 0) (by decide) rfl rfl rfl
    (by decide) (by decide) (by decide)

/-- C4, refuted as stated: `touchingShips` holds exactly two colliders, two overlapping
ships as `createEnemy` builds them (3 health, no Invulnerability component); after one
run of collision detection and damage resolution each has 1 health left, not 2: each
lost 2, one point for the event `(a, b)` and one for `(b, a)`. -/
theorem touchingShips_lose_two :
    (createEnemy gWorldCreate ⟨400, 200⟩ enemyType_ship).bind
        (fun w => createEnemy w ⟨410, 200⟩ enemyType_ship) = some touchingShips ∧
    touchingShips.query [.transformComp, .circleColliderComp] = [.mk 0, .mk 1] ∧
    touchingShips.overlap (.mk 0) (.mk 1) = true ∧
    ∃ w', handleCollisionEvents (simpleCollisionDetectionSystem touchingShips) = some w' ∧
      (w'.comps (.mk 0)).bind (fun c => c.health) = some { currentHealth := 1, maxHealth := 3 } ∧
      (w'.comps (.mk 1)).bind (fun c => c.health) = some { currentHealth := 1, maxHealth := 3 } ∧
      (w'.comps (.mk 0)).bind (fun c => c.health) ≠
        some { currentHealth := 3 - 1, maxHealth := 3 } := by
  refine ⟨by decide!, by decide!, by decide!, ?_⟩
  cases h : handleCollisionEvents (simpleCollisionDetectionSystem touchingShips) with
  | none => exact absurd h (by decide!)
  | some w' =>
    refine ⟨w', rfl, ?_⟩
    have hw : w' = (handleCollisionEvents (simpleCollisionDetectionSystem touchingShips)).getD
        gWorldCreate := by rw [h]; rfl
    subst hw
    decide!

/-- C4, as amended: in a store without stale events whose only colliders are two
overlapping Enemy entities as `createEnemy` builds them (Health, no Invulnerability
component, not bullets), one run of collision detection followed by damage resolution
reduces the health of each of the two enemies by exactly 2: the events `(a, b)` and
`(b, a)` each apply the mutual damage of 1. -/
theorem two_enemies_each_lose_two (w : gWorld) (a b : gEntity) (ca cb : Components)
    (ha ma hb mb : Int)
    (hstale : w.query [.collideEventComp] = [])
    (hcol : w.query [.transformComp, .circleColliderComp] = [a, b])
    (hov : w.overlap a b = true)
    (hca : w.comps a = some ca) (hcb : w.comps b = some cb)
    (hea : ca.enemy.isSome = true) (heb : cb.enemy.isSome = true)
    (hba : ca.bullet = none) (hbb : cb.bullet = none)
    (hia : ca.invulnerability = none) (hib : cb.invulnerability = none)
    (hha : ca.health = some { currentHealth := ha, maxHealth := ma })
    (hhb : cb.health = some { currentHealth := hb, maxHealth := mb }) :
    ∃ w' ca' cb', handleCollisionEvents (simpleCollisionDetectionSystem w) = some w' ∧
      w'.comps a = some ca' ∧ w'.comps b = some cb' ∧
      ca'.health = some { currentHealth := ha - 2, maxHealth := ma } ∧
      cb'.health = some { currentHealth := hb - 2, maxHealth := mb } :=
  collide_two_enemies w a b ca cb ha ma hb mb hstale hcol hov hca hcb hea heb hba hbb hia hib
    hha hhb

/-- Instance of the amended C4: the two ships of `touchingShips` go from 3 to 1 health. -/
theorem two_enemies_each_lose_two_witness :
    ∃ w' ca' cb', handleCollisionEvents (simpleCollisionDetectionSystem touchingShips) = some w' ∧
      w'.comps (.mk 0) = some ca' ∧ w'.comps (.mk 1) = some cb' ∧
      ca'.health = some { currentHealth := 3 - 2, maxHealth := 3 } ∧
      cb'.health = some { currentHealth := 3 - 2, maxHealth := 3 } :=
  two_enemies_each_lose_two touchingShips (.mk 0) (.mk 1) (sampleShip ⟨400, 200⟩ 3)
    (sampleShip ⟨410, 200⟩ 3) 3 3 3 3 (by decide) (by decide) (by decide!) rfl rfl rfl rfl rfl rfl
    rfl rfl rfl rfl

/-- C5: `simpleCollisionDetectionSystem` appends to the store exactly one CollideEvent
`(e1 = a, e2 = b)` for each ordered pair of distinct live entities that both carry a
position and a circle collider and whose centre distance is less than the sum of their
radii (the list of created pairs has no duplicates and contains exactly those pairs), and
nothing else; hence `(a, b)` is created iff `(b, a)` is, and no event has `e1 = e2`. -/
theorem simpleCollisionDetectionSystem_events (w : gWorld) :
    ∃ evs : List (gEntity × gEntity),
      (simpleCollisionDetectionSystem w).slots =
        w.slots ++ evs.map (fun p => some (collideEventRecord p.1 p.2)) ∧
      evs.Nodup ∧
      (∀ a b, (a, b) ∈ evs ↔ (a ≠ b ∧ w.overlap a b = true)) ∧
      (∀ a b, (a, b) ∈ evs ↔ (b, a) ∈ evs) ∧
      (∀ a, (a, a) ∉ evs) := by
  refine ⟨w.collisionPairs, ?_, w.nodup_collisionPairs, w.mem_collisionPairs, ?_, ?_⟩
  · rw [simpleCollisionDetectionSystem_eq]
  · intro a b
    rw [w.mem_collisionPairs, w.mem_collisionPairs, w.overlap_comm a b]
    exact ⟨fun h => ⟨h.1.symm, h.2⟩, fun h => ⟨h.1.symm, h.2⟩⟩
  · intro a h
    exact ((w.mem_collisionPairs a a).1 h).1 rfl

/-- C6: in one `handleCollisionEvents` pass, whatever the events, an entity with an
Invulnerability component loses at most 1 health: if it is still in the store afterwards,
either its health and invulnerability time are what they were, or its time was `≤ 0` at
the start, it lost exactly 1 health and its time is the window 3 (the first hit that
landed; every later one was suppressed).  With `time > 0` at the start it loses nothing. -/
theorem handleCollisionEvents_invulnerable_loses_at_most_one (w : gWorld) (x : gEntity)
    (c : Components) (h : healthComp) (inv : invulnerabilityComp)
    (hwf : w.enemiesHaveHealth = true) (hc : w.comps x = some c) (hh : c.health = some h)
    (hinv : c.invulnerability = some inv) :
    ∃ w', handleCollisionEvents w = some w' ∧
      ∀ c', w'.comps x = some c' →
        (c'.health = some h ∧ c'.invulnerability = some inv) ∨
        (inv.time ≤ 0 ∧
          c'.health = some { currentHealth := h.currentHealth - 1, maxHealth := h.maxHealth } ∧
          c'.invulnerability = some { time := 3 }) := by
  obtain ⟨w', h1, _, h3⟩ := handleCollisionEvents_invariant
    (fun acc => ∀ c', acc.comps x = some c' →
        (c'.health = some h ∧ c'.invulnerability = some inv) ∨
        (inv.time ≤ 0 ∧
          c'.health = some { currentHealth := h.currentHealth - 1, maxHealth := h.maxHealth } ∧
          c'.invulnerability = some { time := 3 }))
    (by
      intro acc acc' e src check hJ hd c' hc'
      rcases applyDamage_comps acc acc' e 1 src check hd x with h1 | ⟨_, c0, hc0, h1, h2, h3, h4⟩
      · exact hJ c' (h1 ▸ hc')
      · rw [h4] at hc'
        have e1 := Option.some.inj hc'
        subst e1
        rcases hJ c0 h1 with ⟨hh0, hi0⟩ | ⟨_, _, hi0⟩
        · right
          rw [h2] at hh0
          have e2 := Option.some.inj hh0
          subst e2
          exact ⟨h3 inv hi0, by simp [Components.hit], by simp [Components.hit, hi0, invulnerabilityTime]⟩
        · have := h3 _ hi0
          norm_num at this)
    (by
      intro acc e hJ _ c' hc'
      rw [gWorld.comps_destroy] at hc'
      split at hc'
      · exact absurd hc' (by simp)
      · exact hJ c' hc')
    w hwf
    (by
      intro c' hc'
      rw [hc] at hc'
      have e1 := Option.some.inj hc'
      subst e1
      exact Or.inl ⟨hh, hinv⟩)
  exact ⟨w', h1, h3⟩

/-- Instance of C6: a player with 3 health and no running window is touched by a bullet
and by an asteroid in the same pass and ends with 3 or 2 health, never less. -/
theorem handleCollisionEvents_invulnerable_loses_at_most_one_witness :
    ∃ w', handleCollisionEvents (pendingHits 0) = some w' ∧
      ∀ c', w'.comps (.mk 0) = some c' →
        (c'.health = some { currentHealth := 3, maxHealth := 3 } ∧
          c'.invulnerability = some { time := 0 }) ∨
        ((0 : ℚ) ≤ 0 ∧ c'.health = some { currentHealth := 3 - 1, maxHealth := 3 } ∧
          c'.invulnerability = some { time := 3 }) :=
  handleCollisionEvents_invulnerable_loses_at_most_one (pendingHits 0) (.mk 0)
    (samplePlayer ⟨400, 225⟩ 3 0) { currentHealth := 3, maxHealth := 3 } { time := 0 }
    (by decide) rfl rfl rfl

/-- C7: in a store with a single Player and a single score entity, `addScoreSystem`
increases the score by exactly the number of entities that have Health and
LastDamageSource with `currentHealth ≤ 0` and `LastDamageSource.from` equal to the
Player, and changes nothing else; a death attributed to any other source adds 0. -/
theorem addScoreSystem_counts_attributed_deaths (w : gWorld) (player score : gEntity)
    (cs : Components) (s : Int)
    (hplayer : w.query [.playerTag] = [player])
    (hscore : w.query [.scoreStorageComp] = [score])
    (hcs : w.comps score = some cs) (hs : cs.scoreStorage = some { score := s }) :
    ∃ w', addScoreSystem w = some w' ∧
      w'.comps score =
        some { cs with scoreStorage := some { score := s + (w.attributedDeaths player : Nat) } } ∧
      (∀ x, x ≠ score → w'.comps x = w.comps x) ∧
      w'.slots.length = w.slots.length := by
  have h0 : w.comps score = some (cs.withScore s) := by
    rw [hcs]
    cases cs
    simp only [Components.withScore] at hs ⊢
    simp [hs]
  obtain ⟨w', h1, h2, h3, h4⟩ := addScore_fold w player score cs hcs
    (w.query [.healthComp, .lastDamageComp]) s w h0 (fun _ _ => rfl) rfl
  refine ⟨w', ?_, h2, h3, h4⟩
  rw [← h1]
  simp [addScoreSystem, gWorld.foreachM, singleEntity, hplayer, hscore]

/-- Instance of C7: in `afterBattle` one death is attributed to the player (the asteroid
killed by another asteroid and the damaged but living one do not count): 5 becomes 6. -/
theorem addScoreSystem_counts_attributed_deaths_witness :
    ∃ w', addScoreSystem afterBattle = some w' ∧
      (w'.comps (.mk 1)).bind (fun c => c.scoreStorage) = some { score := 6 } ∧
      (∀ x, x ≠ .mk 1 → w'.comps x = afterBattle.comps x) := by
  obtain ⟨w', h1, h2, h3, _⟩ := addScoreSystem_counts_attributed_deaths afterBattle (.mk 0)
    (.mk 1) (sampleScore 5) 5 (by decide) (by decide) rfl rfl
  refine ⟨w', h1, ?_, h3⟩
  rw [h2]
  have : afterBattle.attributedDeaths (.mk 0) = 1 := by decide
  simp [this]

/-- C9: the transition function of the game-flow controller.  Init always yields Playing;
a finished Playing pass yields GameOver iff no live entity carries the player tag after
the pass, and Playing otherwise; GameOver yields Init iff a key press is detected and
GameOver otherwise.  Hence every state reachable from the initial state of `main` is one
of the three, the `default` exit of the `switch` is never taken, and GameOver is only
entered from Playing with the Player absent.  The loop of `main` takes exactly these
transitions: in Init its iteration is the step to Playing with the store built by
`processInitGameState`, in Playing the step to the state and store the pass returns, in
GameOver the step to Init or GameOver with the store released. -/
theorem game_flow_transitions :
    processInitGameState.2 = gameState_playing ∧
    (∀ (env : Env) (w : gWorld) (k : Nat) (w' : gWorld) (k' : Nat) (st : Int),
      processPlayingGameState env w k = some (w', k', st) →
      (st = gameState_gameOver ↔ ∀ e, gWorldHasComponent w' e .playerTag = false) ∧
      (st = gameState_playing ↔ ∃ e, gWorldHasComponent w' e .playerTag = true)) ∧
    (∀ env : Env,
      ((processGameOverGameState env).2 = gameState_init ↔ env.keyPressed > 0) ∧
      ((processGameOverGameState env).2 = gameState_gameOver ↔ ¬ env.keyPressed > 0)) ∧
    (∀ s : MainState, Reachable s →
      s.currentGameState = gameState_init ∨ s.currentGameState = gameState_playing ∨
        s.currentGameState = gameState_gameOver) ∧
    (∀ (env : Env) (s : MainState) (code : Int), Reachable s → mainStep env s ≠ .exit code) ∧
    (∀ (env : Env) (s s1 : MainState), mainStep env s = .next s1 →
      s1.currentGameState = gameState_gameOver → s.currentGameState ≠ gameState_gameOver →
      s.currentGameState = gameState_playing ∧
        ∃ w', s1.world = some w' ∧ ∀ e, gWorldHasComponent w' e .playerTag = false) ∧
    (∀ (env : Env) (s : MainState), s.currentGameState = gameState_init →
      mainStep env s = .next { currentGameState := gameState_playing,
                               world := some processInitGameState.1, draws := s.draws }) ∧
    (∀ (env : Env) (s : MainState) (w w' : gWorld) (k' : Nat) (st : Int),
      s.currentGameState = gameState_playing → s.world = some w →
      processPlayingGameState env w s.draws = some (w', k', st) →
      mainStep env s = .next { currentGameState := st, world := some w', draws := k' }) ∧
    (∀ (env : Env) (s : MainState), s.currentGameState = gameState_gameOver →
      mainStep env s = .next { currentGameState :=
                                 if env.keyPressed > 0 then gameState_init
                                 else gameState_gameOver,
                               world := none, draws := s.draws }) := by
  have hreach : ∀ s : MainState, Reachable s →
      s.currentGameState = gameState_init ∨ s.currentGameState = gameState_playing ∨
        s.currentGameState = gameState_gameOver := by
    intro s hs
    induction hs with
    | start => exact Or.inl rfl
    | @step s0 s1 env _ hstep _ =>
      rcases mainStep_next env s0 s1 hstep with ⟨_, h⟩ | ⟨_, w, w', _, _, hp⟩ | ⟨_, _, h⟩
      · exact Or.inr (Or.inl h)
      · obtain ⟨_, hst⟩ := processPlayingGameState_eq_some env w s0.draws w' _ _ hp
        rw [hst]
        split
        · exact Or.inr (Or.inl rfl)
        · exact Or.inr (Or.inr rfl)
      · rw [h]
        split
        · exact Or.inl rfl
        · exact Or.inr (Or.inr rfl)
  refine ⟨rfl, processPlayingGameState_state, ?_, hreach, ?_, ?_, mainStep_init, mainStep_playing,
    mainStep_gameOver⟩
  · intro env
    have hne : gameState_gameOver ≠ gameState_init := by decide
    unfold processGameOverGameState
    by_cases hk : env.keyPressed > 0
    · rw [if_pos hk]
      exact ⟨⟨fun _ => hk, fun _ => rfl⟩, ⟨fun h => absurd h.symm hne, fun h => absurd hk h⟩⟩
    · rw [if_neg hk]
      exact ⟨⟨fun h => absurd h hne, fun h => absurd h hk⟩, ⟨fun _ => hk, fun _ => rfl⟩⟩
  · intro env s code hs hexit
    unfold mainStep at hexit
    rcases hreach s hs with h | h | h
    · simp [h] at hexit
    · have h10 : ¬ gameState_playing = gameState_init := by decide
      simp only [h, h10, if_true, if_false] at hexit
      cases hw : s.world with
      | none => simp [hw] at hexit
      | some w =>
        simp only [hw] at hexit
        cases hp : processPlayingGameState env w s.draws with
        | none => simp [hp] at hexit
        | some r => simp [hp] at hexit
    · have h20 : ¬ gameState_gameOver = gameState_init := by decide
      have h21 : ¬ gameState_gameOver = gameState_playing := by decide
      simp [h, h20, h21] at hexit
  · intro env s s1 hstep hover hnot
    have h12 : gameState_playing ≠ gameState_gameOver := by decide
    rcases mainStep_next env s s1 hstep with ⟨_, h⟩ | ⟨h1, w, w', _, hw', hp⟩ | ⟨h, _⟩
    · rw [hover] at h
      exact absurd h.symm h12
    · exact ⟨h1, w', hw', ((processPlayingGameState_state env w s.draws w' _ _ hp).1).1 hover⟩
    · exact absurd h hnot

/-- Instance of C9: the first iteration of the loop of `main` leads from Init to Playing
with the store built by `processInitGameState`; the second, with no key held, runs the
pass over that store, keeps the game in Playing, and the player is still there. -/
theorem game_flow_transitions_witness :
    mainStep idleFrame mainInit =
      .next { currentGameState := gameState_playing, world := some processInitGameState.1,
              draws := 0 } ∧
    ∃ w' k', processPlayingGameState idleFrame processInitGameState.1 0 =
        some (w', k', gameState_playing) ∧
      mainStep idleFrame { currentGameState := gameState_playing,
                           world := some processInitGameState.1, draws := 0 } =
        .next { currentGameState := gameState_playing, world := some w', draws := k' } ∧
      ∃ e, gWorldHasComponent w' e .playerTag = true := by
  refine ⟨game_flow_transitions.2.2.2.2.2.2.1 idleFrame mainInit rfl, ?_⟩
  cases h : processPlayingGameState idleFrame processInitGameState.1 0 with
  | none => exact absurd h (by decide!)
  | some r =>
    obtain ⟨w', k', st⟩ := r
    have hst : st = gameState_playing := by
      have h2 : (processPlayingGameState idleFrame processInitGameState.1 0).map
          (fun r => r.2.2) = some gameState_playing := by decide!
      rw [h] at h2
      exact Option.some.inj h2
    subst hst
    exact ⟨w', k', rfl,
      game_flow_transitions.2.2.2.2.2.2.2.1 idleFrame _ processInitGameState.1 w' k' _ rfl rfl h,
      (game_flow_transitions.2.1 idleFrame processInitGameState.1 0 w' k' _ h).2.1 rfl⟩

/-- C10, refuted as stated: in `crossfire` a player with 3 health and invulnerability time
0 overlaps a bullet owned by an enemy ship, yet after collision detection and damage
resolution the player still has 3 health and time 0: the bullet was consumed by the other
ship it touches (which lost 1 health), whose event came first. -/
theorem crossfire_player_unharmed :
    crossfire.overlap (.mk 3) (.mk 1) = true ∧
    (crossfire.comps (.mk 1)).bind (fun c => c.playerTag) = some true ∧
    (crossfire.comps (.mk 3)).bind (fun c => c.bullet) = some { owner := .mk 2 } ∧
    (crossfire.comps (.mk 2)).bind (fun c => c.enemy) = some { type := enemyType_ship } ∧
    ∃ w', handleCollisionEvents (simpleCollisionDetectionSystem crossfire) = some w' ∧
      (w'.comps (.mk 1)).bind (fun c => c.health) = some { currentHealth := 3, maxHealth := 3 } ∧
      (w'.comps (.mk 1)).bind (fun c => c.invulnerability) = some { time := 0 } ∧
      (w'.comps (.mk 0)).bind (fun c => c.health) = some { currentHealth := 2, maxHealth := 3 } ∧
      gWorldIsEntityAlive w' (.mk 3) = false := by
  refine ⟨by decide!, by decide!, by decide!, by decide!, ?_⟩
  cases h : handleCollisionEvents (simpleCollisionDetectionSystem crossfire) with
  | none => exact absurd h (by decide!)
  | some w' =>
    refine ⟨w', rfl, ?_⟩
    have hw : w' = (handleCollisionEvents (simpleCollisionDetectionSystem crossfire)).getD
        gWorldCreate := by rw [h]; rfl
    subst hw
    decide!

/-- C10, as amended: a player `p` (Health `h`, invulnerability time `t`) overlaps a bullet
`b` that overlaps no other Health-bearing entity, in a store of the data model with no
stale event.  After collision detection and damage resolution the bullet is destroyed
in both cases; with `t ≤ 0` the player has `h - 1` health and time exactly 3, with
`t > 0` the player's health and time are unchanged. -/
theorem bullet_hits_player (w : gWorld) (p b : gEntity) (cp : Components) (h m : Int) (t : ℚ)
    (hwf : w.enemiesHaveHealth = true)
    (hstale : w.query [.collideEventComp] = [])
    (hp : w.comps p = some cp) (hpb : cp.bullet = none)
    (hph : cp.health = some { currentHealth := h, maxHealth := m })
    (hpi : cp.invulnerability = some { time := t })
    (hb : gWorldHasComponent w b .bulletComp = true)
    (hov : w.overlap b p = true)
    (honly : ∀ x, w.overlap b x = true → gWorldHasComponent w x .healthComp = true → x = p) :
    ∃ w', handleCollisionEvents (simpleCollisionDetectionSystem w) = some w' ∧
      gWorldIsEntityAlive w' b = false ∧
      ∃ cp', w'.comps p = some cp' ∧
        ((t ≤ 0 ∧ cp'.health = some { currentHealth := h - 1, maxHealth := m } ∧
            cp'.invulnerability = some { time := 3 }) ∨
          (0 < t ∧ cp'.health = some { currentHealth := h, maxHealth := m } ∧
            cp'.invulnerability = some { time := t })) := by
  have hne : b ≠ p := by
    rintro rfl
    simp [gWorldHasComponent, hp, Components.has, hpb] at hb
  obtain ⟨evE, hevE⟩ := simpleCollisionDetectionSystem_event w b p hne hov
  have hb1 : gWorldHasComponent (simpleCollisionDetectionSystem w) b .bulletComp = true := by
    rw [gWorldHasComponent_eq_true_iff] at hb ⊢
    obtain ⟨c, hc, hh⟩ := hb
    exact ⟨c, simpleCollisionDetectionSystem_comps_old w b c hc, hh⟩
  obtain ⟨w', h1, h2, h3⟩ := handleCollisionEvents_bullet_hits (simpleCollisionDetectionSystem w)
    p b evE cp h m t (simpleCollisionDetectionSystem_enemiesHaveHealth w hwf)
    (simpleCollisionDetectionSystem_comps_old w p cp hp) hpb hph hpi hb1
    ⟨_, hevE, by simp [collideEventRecord, Components.zero, Components.slot],
      by simp [collideEventRecord]⟩
    (by
      intro x c e hx hce he1 hhas
      have hhas0 := simpleCollisionDetectionSystem_has w e.e2 .healthComp (by decide) hhas
      rcases simpleCollisionDetectionSystem_comps_cases w x c hx with q | ⟨a, b', _, hov', q⟩
      · have hmem : x ∈ w.query [.collideEventComp] := by
          rw [gWorld.mem_query]
          exact ⟨c, q, by simp [Components.hasAll, Components.has, hce]⟩
        rw [hstale] at hmem
        exact absurd hmem (List.not_mem_nil _)
      · subst q
        simp only [collideEventRecord, Option.some.injEq] at hce
        subst hce
        simp only at he1 hhas0 ⊢
        subst he1
        exact honly b' hov' hhas0)
  exact ⟨w', h1, by simp [gWorldIsEntityAlive, h2], h3⟩

/-- Instance of the amended C10, the scenario of the spec: a player with 3 health and no
running window ends with 2 health and a window of 3, and the bullet is destroyed. -/
theorem bullet_hits_player_witness :
    ∃ w', handleCollisionEvents (simpleCollisionDetectionSystem (bulletOnPlayer 0)) = some w' ∧
      gWorldIsEntityAlive w' (.mk 2) = false ∧
      ∃ cp', w'.comps (.mk 0) = some cp' ∧
        cp'.health = some { currentHealth := 2, maxHealth := 3 } ∧
        cp'.invulnerability = some { time := 3 } := by
  obtain ⟨w', h1, h2, cp', h3, h4⟩ := bullet_hits_player (bulletOnPlayer 0) (.mk 0) (.mk 2)
    (samplePlayer ⟨400, 225⟩ 3 0) 3 3 0 (by decide) (by decide) rfl rfl rfl rfl (by decide)
    (by decide!)
    (by
      intro x hx hh
      cases x with
      | null => simp [gWorld.overlap, gWorld.comps] at hx
      | mk i =>
        match i with
        | 0 => rfl
        | 1 => exact absurd hx (by decide!)
        | 2 => exact absurd hh (by decide)
        | (n + 3) => simp [gWorld.overlap, gWorld.comps, bulletOnPlayer] at hx)
  refine ⟨w', h1, h2, cp', h3, ?_⟩
  rcases h4 with ⟨_, q1, q2⟩ | ⟨q0, _, _⟩
  · exact ⟨by simpa using q1, q2⟩
  · exact absurd q0 (lt_irrefl _)

/-- C11: when the store's only spawner has `timeAfterSpawn + dt ≥ timeToSpawn` and a wave
size `n ≥ 0` (in the range of a C integer), `enemySpawnSystem` returns, for every source of
random draws, the store in which only the spawner's record is rewritten, followed by
exactly `n` new entities; each of them is an enemy as `createEnemy` builds it, of kind
asteroid or ship, at `y = -45` and at an `x` of the form `100 * lane + 50` with
`0 ≤ lane ≤ 7`, that is one of 50, 150, ..., 750.  The premise holds of the `float` sum
the program compares (line 345), or of the exact sum when `timeToSpawn` is a `float`
value: rounding is monotone, so the `float` sum then reaches the threshold as well. -/
theorem enemySpawnSystem_spawns_wave (env : Env) (w : gWorld) (k : Nat) (sp : gEntity)
    (c : Components) (s : enemySpawnerComp)
    (hq : w.query [.enemySpawnerComp] = [sp])
    (hc : w.comps sp = some c) (hs : c.enemySpawner = some s)
    (hf : binary32 (s.timeAfterSpawn + env.frameTime) ≥ s.timeToSpawn ∨
      (binary32 s.timeToSpawn = s.timeToSpawn ∧
        s.timeAfterSpawn + env.frameTime ≥ s.timeToSpawn))
    (h0 : 0 ≤ s.enemyInWave) (h1 : s.enemyInWave < 2 ^ 64) :
    ∃ (recs : List (Option Components)) (k' : Nat),
      enemySpawnSystem env w k = some ({ slots := (w.set sp (c.withSpawner
        (redrawnSpawner env (k + 2 * s.enemyInWave.toNat)))).slots ++ recs }, k') ∧
      recs.length = s.enemyInWave.toNat ∧
      ∀ i, i < s.enemyInWave.toNat → ∃ (lane type : Int) (c' : Components),
        0 ≤ lane ∧ lane ≤ 7 ∧ (type = enemyType_asteroid ∨ type = enemyType_ship) ∧
        recs[i]? = some (some c') ∧
        c' = enemyRecord ⟨((100 * lane + 50 : Int) : ℚ), -45⟩ type ∧
        c'.enemy = some { type := type } ∧
        c'.transform = some { position := ⟨((100 * lane + 50 : Int) : ℚ), -45⟩ } := by
  have hn : (s.enemyInWave % 2 ^ 64).toNat = s.enemyInWave.toNat := by
    rw [Int.emod_eq_of_lt h0 h1]
  have hfl : binary32 (s.timeAfterSpawn + env.frameTime) ≥ s.timeToSpawn := by
    rcases hf with h | ⟨ht, h⟩
    · exact h
    · exact binary32_ge_of_ge _ _ ht h
  refine ⟨waveRecords env s.enemyInWave.toNat k, k + 2 * s.enemyInWave.toNat + 2, ?_,
    waveRecords_length env _ k, ?_⟩
  · rw [enemySpawnSystem_single env w k sp hq, enemySpawnAt_fire env w k sp c s hc hs hfl, hn]
  · intro i hi
    have hlane := GetRandomValue_mem env (k + 2 * i) 0 (columnCount - 1) (by decide)
    have hr := GetRandomValue_mem env (k + 2 * i + 1) 0 (enemyType_count - 1) (by decide)
    have ht : GetRandomValue env (k + 2 * i + 1) 0 (enemyType_count - 1) = enemyType_asteroid ∨
        GetRandomValue env (k + 2 * i + 1) 0 (enemyType_count - 1) = enemyType_ship := by
      simp only [enemyType_count, enemyType_asteroid, enemyType_ship] at hr ⊢
      omega
    refine ⟨GetRandomValue env (k + 2 * i) 0 (columnCount - 1),
      GetRandomValue env (k + 2 * i + 1) 0 (enemyType_count - 1), _, hlane.1, hlane.2, ht,
      waveRecords_getElem env _ k i hi, ?_, ?_, ?_⟩
    · have e1 : GetRandomValue env (k + 2 * i) 0 (columnCount - 1) * (screenWidth / columnCount) +
          screenWidth / columnCount / 2 =
          100 * GetRandomValue env (k + 2 * i) 0 (columnCount - 1) + 50 := by
        have : screenWidth / columnCount = 100 := by decide
        rw [this]; omega
      have e2 : ((-spawnBorder : Int) : ℚ) = -45 := by simp [spawnBorder, levelBorder]
      rw [e1, e2]
    · rcases ht with ht | ht <;> rw [ht] <;> rfl
    · have e1 : GetRandomValue env (k + 2 * i) 0 (columnCount - 1) * (screenWidth / columnCount) +
          screenWidth / columnCount / 2 =
          100 * GetRandomValue env (k + 2 * i) 0 (columnCount - 1) + 50 := by
        have : screenWidth / columnCount = 100 := by decide
        rw [this]; omega
      have e2 : ((-spawnBorder : Int) : ℚ) = -45 := by simp [spawnBorder, levelBorder]
      rw [e1, e2]
      unfold enemyRecord
      split <;> rfl

/-- Instance of C11: a lone spawner with wave size 2 whose threshold 0, a `float` value, is
reached by the exact sum after 1/60 s spawns two enemies. -/
theorem enemySpawnSystem_spawns_wave_witness :
    ∃ (recs : List (Option Components)) (k' : Nat),
      enemySpawnSystem idleFrame (spawnerOnly ⟨0, 0, 2⟩) 0 =
        some ({ slots := ((spawnerOnly ⟨0, 0, 2⟩).set (.mk 0)
          (((Components.zero [.enemySpawnerComp]).withSpawner ⟨0, 0, 2⟩).withSpawner
            (redrawnSpawner idleFrame (0 + 2 * (2 : Int).toNat)))).slots ++ recs }, k') ∧
      recs.length = (2 : Int).toNat ∧
      ∀ i, i < (2 : Int).toNat → ∃ (lane type : Int) (c' : Components),
        0 ≤ lane ∧ lane ≤ 7 ∧ (type = enemyType_asteroid ∨ type = enemyType_ship) ∧
        recs[i]? = some (some c') ∧
        c' = enemyRecord ⟨((100 * lane + 50 : Int) : ℚ), -45⟩ type ∧
        c'.enemy = some { type := type } ∧
        c'.transform = some { position := ⟨((100 * lane + 50 : Int) : ℚ), -45⟩ } :=
  enemySpawnSystem_spawns_wave idleFrame (spawnerOnly ⟨0, 0, 2⟩) 0 (.mk 0)
    ((Components.zero [.enemySpawnerComp]).withSpawner ⟨0, 0, 2⟩) ⟨0, 0, 2⟩
    (by decide) rfl rfl (Or.inr ⟨by decide!, by decide!⟩) (by decide) (by decide)

/-- C12: when the store's only spawner has `timeAfterSpawn + dt ≥ timeToSpawn`,
`enemySpawnSystem` returns, and afterwards the spawner has `timeAfterSpawn = 0`, a
`timeToSpawn` in `[1, 3]` and a wave size in `[1, 3]`.  The premise holds of the `float`
sum the program compares (line 345), or of the exact sum when `timeToSpawn` is a `float`
value, which implies it. -/
theorem enemySpawnSystem_redraws (env : Env) (w : gWorld) (k : Nat) (sp : gEntity)
    (c : Components) (s : enemySpawnerComp)
    (hq : w.query [.enemySpawnerComp] = [sp])
    (hc : w.comps sp = some c) (hs : c.enemySpawner = some s)
    (hf : binary32 (s.timeAfterSpawn + env.frameTime) ≥ s.timeToSpawn ∨
      (binary32 s.timeToSpawn = s.timeToSpawn ∧
        s.timeAfterSpawn + env.frameTime ≥ s.timeToSpawn)) :
    ∃ (w' : gWorld) (k' : Nat) (c' : Components) (s' : enemySpawnerComp),
      enemySpawnSystem env w k = some (w', k') ∧
      w'.comps sp = some c' ∧ c'.enemySpawner = some s' ∧
      s'.timeAfterSpawn = 0 ∧
      1 ≤ s'.timeToSpawn ∧ s'.timeToSpawn ≤ 3 ∧
      1 ≤ s'.enemyInWave ∧ s'.enemyInWave ≤ 3 := by
  have hmin : timeToSpawnMin.floor = 1 := by decide!
  have hmax : timeToSpawnMax.floor = 3 := by decide!
  have ht := GetRandomValue_mem env (k + 2 * (s.enemyInWave % 2 ^ 64).toNat)
    timeToSpawnMin.floor timeToSpawnMax.floor (by rw [hmin, hmax]; decide)
  have hn := GetRandomValue_mem env (k + 2 * (s.enemyInWave % 2 ^ 64).toNat + 1)
    enemyInWaveMin enemyInWaveMax (by decide)
  rw [hmin, hmax] at ht
  have hn1 : (1 : Int) ≤ (redrawnSpawner env (k + 2 * (s.enemyInWave % 2 ^ 64).toNat)).enemyInWave :=
    hn.1
  have hn2 : (redrawnSpawner env (k + 2 * (s.enemyInWave % 2 ^ 64).toNat)).enemyInWave ≤ 3 :=
    hn.2
  have ht1 : (1 : ℚ) ≤ (redrawnSpawner env (k + 2 * (s.enemyInWave % 2 ^ 64).toNat)).timeToSpawn := by
    simp only [redrawnSpawner, hmin, hmax]
    exact_mod_cast ht.1
  have ht2 : (redrawnSpawner env (k + 2 * (s.enemyInWave % 2 ^ 64).toNat)).timeToSpawn ≤ 3 := by
    simp only [redrawnSpawner, hmin, hmax]
    exact_mod_cast ht.2
  have hfl : binary32 (s.timeAfterSpawn + env.frameTime) ≥ s.timeToSpawn := by
    rcases hf with h | ⟨ht, h⟩
    · exact h
    · exact binary32_ge_of_ge _ _ ht h
  have hrun := enemySpawnAt_fire env w k sp c s hc hs hfl
  rw [← enemySpawnSystem_single env w k sp hq] at hrun
  have hsp := gWorld.comps_append (w.set sp (c.withSpawner
    (redrawnSpawner env (k + 2 * (s.enemyInWave % 2 ^ 64).toNat))))
    (waveRecords env (s.enemyInWave % 2 ^ 64).toNat k) sp
    (c.withSpawner (redrawnSpawner env (k + 2 * (s.enemyInWave % 2 ^ 64).toNat)))
    (by rw [gWorld.comps_set, if_pos ⟨rfl, by rw [hc]; rfl⟩])
  exact ⟨_, _, _, _, hrun, hsp, rfl, rfl, ht1, ht2, hn1, hn2⟩

/-- Instance of C12: a lone spawner with wave size 2 and threshold 1 whose `float` sum
reaches 1 (the exact sum stays below it) is redrawn. -/
theorem enemySpawnSystem_redraws_witness :
    ∃ (w' : gWorld) (k' : Nat) (c' : Components) (s' : enemySpawnerComp),
      enemySpawnSystem (frameOf (8947860 / 536870912))
        (spawnerOnly ⟨1, 16497595 / 16777216, 2⟩) 0 = some (w', k') ∧
      w'.comps (.mk 0) = some c' ∧ c'.enemySpawner = some s' ∧
      s'.timeAfterSpawn = 0 ∧
      1 ≤ s'.timeToSpawn ∧ s'.timeToSpawn ≤ 3 ∧
      1 ≤ s'.enemyInWave ∧ s'.enemyInWave ≤ 3 :=
  enemySpawnSystem_redraws (frameOf (8947860 / 536870912))
    (spawnerOnly ⟨1, 16497595 / 16777216, 2⟩) 0 (.mk 0)
    ((Components.zero [.enemySpawnerComp]).withSpawner ⟨1, 16497595 / 16777216, 2⟩)
    ⟨1, 16497595 / 16777216, 2⟩
    (by decide) rfl rfl (Or.inl (by decide!))

/-- C14: `shootSystem`, for every entity `e` with a shootable component `s` and a transform
`t`, adds `dt` to `timeAfterShoot` (in `float` arithmetic, line 300: the accumulated time
is the `float` sum), and `e` fires exactly when its shoot flag is set and the
accumulated time exceeds `timeToReload`.  With `F` the firing entities in slot order
(each once), the store grows by exactly one entity per member of `F`: the bullet of `e`
is `sampleBullet` at `t.position + s.offset`, with direction `s.direction`, speed 400,
radius 5 and owner `e`.  The record of `e` afterwards differs only in `timeAfterShoot`,
which is 0 when `e` fired and the accumulated value otherwise; entities lacking either
component are unchanged. -/
theorem shootSystem_fires_iff (env : Env) (w : gWorld) :
    ∃ F : List gEntity, F.Nodup ∧
      (∀ e, e ∈ F ↔ ∃ c s t, w.comps e = some c ∧ c.shootable = some s ∧
        c.transform = some t ∧ s.shoot = true ∧
        binary32 (s.timeAfterShoot + env.frameTime) > s.timeToReload) ∧
      (shootSystem env w).slots.length = w.slots.length + F.length ∧
      (∀ j e, F[j]? = some e → ∃ c s t, w.comps e = some c ∧ c.shootable = some s ∧
        c.transform = some t ∧
        (shootSystem env w).comps (.mk (w.slots.length + j)) =
          some (sampleBullet (Vector2Add t.position s.offset) s.direction e)) ∧
      (∀ e c s t, w.comps e = some c → c.shootable = some s → c.transform = some t →
        (shootSystem env w).comps e = some (c.withShootable
          { s with timeAfterShoot :=
              if s.shoot = true ∧
                  binary32 (s.timeAfterShoot + env.frameTime) > s.timeToReload then 0
              else binary32 (s.timeAfterShoot + env.frameTime) })) ∧
      (∀ e c, w.comps e = some c → c.shootable = none ∨ c.transform = none →
        (shootSystem env w).comps e = some c) := by
  obtain ⟨h1, h2, h3⟩ := shootSystem_spec env w
  have hmem : ∀ e, e ∈ (w.query [.shootableComp, .transformComp]).filter
      (w.satisfies (Components.shootFires env)) ↔ ∃ c s t, w.comps e = some c ∧
        c.shootable = some s ∧ c.transform = some t ∧ s.shoot = true ∧
        binary32 (s.timeAfterShoot + env.frameTime) > s.timeToReload := by
    intro e
    rw [List.mem_filter, gWorld.mem_query]
    constructor
    · rintro ⟨⟨c, hc, _⟩, hsat⟩
      simp only [gWorld.satisfies, hc, Components.shootFires] at hsat
      cases hs : c.shootable with
      | none => simp [hs] at hsat
      | some s =>
        cases ht : c.transform with
        | none => simp [hs, ht] at hsat
        | some t =>
          simp only [hs, ht, Bool.and_eq_true, decide_eq_true_eq] at hsat
          exact ⟨c, s, t, hc, hs, ht, hsat.1, hsat.2⟩
    · rintro ⟨c, s, t, hc, hs, ht, hsh, hgt⟩
      refine ⟨⟨c, hc, by simp [Components.hasAll, Components.has, hs, ht]⟩, ?_⟩
      simp [gWorld.satisfies, hc, Components.shootFires, hs, ht, hsh, hgt]
  have hold : ∀ e c, w.comps e = some c →
      (shootSystem env w).comps e = some (c.afterShoot env) := by
    intro e c hc
    cases e with
    | null => simp [gWorld.comps] at hc
    | mk i =>
      rw [h2 i (w.lt_of_comps_isSome i (by simp [hc])), hc]
      rfl
  refine ⟨_, List.Nodup.filter _ (gWorld.nodup_query w _), hmem, h1, ?_, ?_, ?_⟩
  · intro j e hj
    obtain ⟨c, s, t, hc, hs, ht, _, _⟩ := (hmem e).1 (List.getElem?_mem hj)
    refine ⟨c, s, t, hc, hs, ht, ?_⟩
    rw [h3 j e hj, hc]
    simp [Components.shot, hs, ht]
  · intro e c s t hc hs ht
    rw [hold e c hc]
    simp only [Components.afterShoot, hs, ht, Components.withShootable, Bool.and_eq_true,
      decide_eq_true_eq]
  · intro e c hc hor
    rw [hold e c hc]
    rcases hor with h | h
    · simp [Components.afterShoot, h]
    · cases hs : c.shootable <;> simp [Components.afterShoot, h, hs]

/-- C15, refuted as stated: `touchingShips` holds two overlapping ships as `createEnemy`
builds them, neither invulnerable; after collision detection and damage resolution
neither holds an invulnerability window: both still have no Invulnerability component,
so the time of neither is 3. -/
theorem touchingShips_gain_no_window :
    (createEnemy gWorldCreate ⟨400, 200⟩ enemyType_ship).bind
        (fun w => createEnemy w ⟨410, 200⟩ enemyType_ship) = some touchingShips ∧
    touchingShips.overlap (.mk 0) (.mk 1) = true ∧
    ∃ w', handleCollisionEvents (simpleCollisionDetectionSystem touchingShips) = some w' ∧
      (w'.comps (.mk 0)).bind (fun c => c.invulnerability) = none ∧
      (w'.comps (.mk 1)).bind (fun c => c.invulnerability) = none ∧
      (w'.comps (.mk 0)).bind (fun c => c.invulnerability) ≠
        some { time := invulnerabilityTime } := by
  refine ⟨by decide!, by decide!, ?_⟩
  cases h : handleCollisionEvents (simpleCollisionDetectionSystem touchingShips) with
  | none => exact absurd h (by decide!)
  | some w' =>
    refine ⟨w', rfl, ?_⟩
    have hw : w' = (handleCollisionEvents (simpleCollisionDetectionSystem touchingShips)).getD
        gWorldCreate := by rw [h]; rfl
    subst hw
    decide!

/-- C15, as amended: in a store without stale events whose only colliders are two
overlapping Enemy entities as `createEnemy` builds them (Health, no Invulnerability
component, not bullets), after collision detection and damage resolution both enemies
are still in the store and still carry no Invulnerability component: the mutual damage
grants neither of them an invulnerability window. -/
theorem two_enemies_gain_no_window (w : gWorld) (a b : gEntity) (ca cb : Components)
    (ha ma hb mb : Int)
    (hstale : w.query [.collideEventComp] = [])
    (hcol : w.query [.transformComp, .circleColliderComp] = [a, b])
    (hov : w.overlap a b = true)
    (hca : w.comps a = some ca) (hcb : w.comps b = some cb)
    (hea : ca.enemy.isSome = true) (heb : cb.enemy.isSome = true)
    (hba : ca.bullet = none) (hbb : cb.bullet = none)
    (hia : ca.invulnerability = none) (hib : cb.invulnerability = none)
    (hha : ca.health = some { currentHealth := ha, maxHealth := ma })
    (hhb : cb.health = some { currentHealth := hb, maxHealth := mb }) :
    ∃ w' ca' cb', handleCollisionEvents (simpleCollisionDetectionSystem w) = some w' ∧
      w'.comps a = some ca' ∧ w'.comps b = some cb' ∧
      ca'.invulnerability = none ∧ cb'.invulnerability = none := by
  obtain ⟨w', ca', cb', hrun, h1, h2, _, _⟩ := collide_two_enemies w a b ca cb ha ma hb mb
    hstale hcol hov hca hcb hea heb hba hbb hia hib hha hhb
  exact ⟨w', ca', cb', hrun, h1, h2, collide_keeps_no_window w w' a ca ca' hrun hca h1 hia,
    collide_keeps_no_window w w' b cb cb' hrun hcb h2 hib⟩

/-- Instance of the amended C15: the two ships of `touchingShips` have no Invulnerability
component after they collided. -/
theorem two_enemies_gain_no_window_witness :
    ∃ w' ca' cb', handleCollisionEvents (simpleCollisionDetectionSystem touchingShips) = some w' ∧
      w'.comps (.mk 0) = some ca' ∧ w'.comps (.mk 1) = some cb' ∧
      ca'.invulnerability = none ∧ cb'.invulnerability = none :=
  two_enemies_gain_no_window touchingShips (.mk 0) (.mk 1) (sampleShip ⟨400, 200⟩ 3)
    (sampleShip ⟨410, 200⟩ 3) 3 3 3 3 (by decide) (by decide) (by decide!) rfl rfl rfl rfl rfl rfl
    rfl rfl rfl rfl

/-- C16: bullet damage never consults the shooter's invulnerability.  Let `w` hold a bullet
`b` with owner `o`, and a Health-bearing entity `t` distinct from `b` and `o`; let the
second store differ from `w` only in the invulnerability time of `o`, set to any `time`.
Handling the CollideEvent `(e1 = b, e2 = t)` returns in both stores, with the same
record for `t` (health, invulnerability time, LastDamageSource); and when `t` is not
immune it loses exactly 1 health in both, also when the owner's window is running. -/
theorem bullet_ignores_owner_window (w : gWorld) (b t o : gEntity) (cb ct co : Components)
    (h : healthComp) (time : ℚ)
    (hcb : w.comps b = some cb) (hbo : cb.bullet = some { owner := o })
    (hct : w.comps t = some ct) (hth : ct.health = some h)
    (hco : w.comps o = some co)
    (htb : t ≠ b) (hto : t ≠ o) (hbo' : b ≠ o) :
    (w.set o (co.withWindow time)).comps o = some (co.withWindow time) ∧
    ∃ w1 w2, handleCollisionEvent w { e1 := b, e2 := t } = some w1 ∧
      handleCollisionEvent (w.set o (co.withWindow time)) { e1 := b, e2 := t } = some w2 ∧
      w1.comps t = w2.comps t ∧
      ((∀ inv, ct.invulnerability = some inv → inv.time ≤ 0) →
        w1.comps t = some (ct.hit h 1 o) ∧
        (ct.hit h 1 o).health =
          some { currentHealth := h.currentHealth - 1, maxHealth := h.maxHealth }) := by
  have hcb2 : (w.set o (co.withWindow time)).comps b = some cb := by
    rw [gWorld.comps_set]; simp [hbo', hcb]
  have hct2 : (w.set o (co.withWindow time)).comps t = some ct := by
    rw [gWorld.comps_set]; simp [hto, hct]
  obtain ⟨w1, hr1, hx1⟩ := handleCollisionEvent_bullet_hit w b t o cb ct h hcb hbo hct hth htb
  obtain ⟨w2, hr2, hx2⟩ := handleCollisionEvent_bullet_hit (w.set o (co.withWindow time)) b t o
    cb ct h hcb2 hbo hct2 hth htb
  refine ⟨by rw [gWorld.comps_set]; simp [hco], w1, w2, hr1, hr2, ?_, ?_⟩
  · rcases hx1 with ⟨⟨inv, hi1, hi2⟩, e1⟩ | ⟨hn1, e1⟩
    · rcases hx2 with ⟨_, e2⟩ | ⟨hn2, _⟩
      · rw [e1, e2]
      · exact absurd hi2 (not_lt.2 (hn2 inv hi1))
    · rcases hx2 with ⟨⟨inv, hi1, hi2⟩, _⟩ | ⟨_, e2⟩
      · exact absurd hi2 (not_lt.2 (hn1 inv hi1))
      · rw [e1, e2]
  · intro hni
    rcases hx1 with ⟨⟨inv, hi1, hi2⟩, _⟩ | ⟨_, e1⟩
    · exact absurd hi2 (not_lt.2 (hni inv hi1))
    · exact ⟨e1, rfl⟩

/-- Instance of C16: the player's bullet takes the asteroid's single health point whether
the player's window has 2 s left or none. -/
theorem bullet_ignores_owner_window_witness :
    ((playerShot 2).set (.mk 0) ((samplePlayer ⟨400, 225⟩ 3 2).withWindow 0)).comps (.mk 0) =
      some ((samplePlayer ⟨400, 225⟩ 3 2).withWindow 0) ∧
    ∃ w1 w2, handleCollisionEvent (playerShot 2) { e1 := .mk 2, e2 := .mk 1 } = some w1 ∧
      handleCollisionEvent ((playerShot 2).set (.mk 0)
        ((samplePlayer ⟨400, 225⟩ 3 2).withWindow 0)) { e1 := .mk 2, e2 := .mk 1 } = some w2 ∧
      w1.comps (.mk 1) = w2.comps (.mk 1) ∧
      ((∀ inv, (sampleAsteroid ⟨400, 100⟩ 1).invulnerability = some inv → inv.time ≤ 0) →
        w1.comps (.mk 1) = some ((sampleAsteroid ⟨400, 100⟩ 1).hit ⟨1, 1⟩ 1 (.mk 0)) ∧
        ((sampleAsteroid ⟨400, 100⟩ 1).hit ⟨1, 1⟩ 1 (.mk 0)).health =
          some { currentHealth := 1 - 1, maxHealth := 1 }) :=
  bullet_ignores_owner_window (playerShot 2) (.mk 2) (.mk 1) (.mk 0)
    (sampleBullet ⟨400, 120⟩ ⟨0, -1⟩ (.mk 0)) (sampleAsteroid ⟨400, 100⟩ 1)
    (samplePlayer ⟨400, 225⟩ 3 2) ⟨1, 1⟩ 0 rfl rfl rfl rfl rfl (by decide) (by decide)
    (by decide)

/-- C17: `cleanCollideEventSystem` destroys exactly the live entities that carry a
CollideEvent, handled or not, and no entity that lacks one; after it, and therefore
after every Playing-state pass, no entity of the store carries a CollideEvent.  The store
built by `processInitGameState` has none either, and the systems that run before
Collision Detection create none: in every state reachable by the loop of `main` the
store has no CollideEvent, and the store on which a frame's Collision Detection runs
has none. -/
theorem no_collide_event_after_cleanup :
    (∀ (w : gWorld) (x : gEntity), (cleanCollideEventSystem w).comps x =
      if w.satisfies (fun c => c.collideEvent.isSome) x = true then none else w.comps x) ∧
    (∀ w : gWorld, (cleanCollideEventSystem w).query [.collideEventComp] = []) ∧
    (∀ (env : Env) (w : gWorld) (k : Nat) (w' : gWorld) (k' : Nat) (st : Int),
      processPlayingGameState env w k = some (w', k', st) →
      w'.query [.collideEventComp] = []) ∧
    (∀ s : MainState, Reachable s → ∀ w, s.world = some w →
      w.query [.collideEventComp] = []) ∧
    (∀ (env : Env) (w : gWorld) (k : Nat) (w6 : gWorld) (k1 : Nat),
      w.query [.collideEventComp] = [] →
      enemySpawnSystem env (invulnerabilitySystem env (shootSystem env (moveSystem env
        (applyInputSystem (readInputSystem env w))))) k = some (w6, k1) →
      w6.query [.collideEventComp] = []) :=
  ⟨cleanCollideEventSystem_comps, cleanCollideEventSystem_no_events, playingSystems_no_events,
    reachable_no_events, playingSystems_prefix_no_events⟩

/-- Instance of C17: the pass over `pendingHits 2`, a store with two pending events,
returns a store without any CollideEvent. -/
theorem no_collide_event_after_cleanup_witness :
    ∃ w' k' st, processPlayingGameState idleFrame (pendingHits 2) 0 = some (w', k', st) ∧
      w'.query [.collideEventComp] = [] := by
  cases h : processPlayingGameState idleFrame (pendingHits 2) 0 with
  | none => exact absurd h (by decide!)
  | some r =>
    obtain ⟨w', k', st⟩ := r
    exact ⟨w', k', st, rfl,
      no_collide_event_after_cleanup.2.2.1 idleFrame (pendingHits 2) 0 w' k' st h⟩

/-- C18: `destroyWhenOffScreenSystem` destroys a live entity iff it carries the
DestroyOffScreen tag and a position strictly beyond the margin (`x < -50`, `x > 850`,
`y < -50` or `y > 500`); every other entity keeps its record.  In particular an entity
whose position is on or inside the margin, and an entity without the tag, is not
destroyed; the player that `createPlayer` builds carries no tag. -/
theorem destroyWhenOffScreenSystem_destroys_iff (w : gWorld) (x : gEntity) (c : Components)
    (hc : w.comps x = some c) :
    ((destroyWhenOffScreenSystem w).comps x = none ↔
      c.destroyWhenOffScreenTag = true ∧ ∃ t, c.transform = some t ∧
        (t.position.x < -50 ∨ t.position.x > 850 ∨
          t.position.y < -50 ∨ t.position.y > 500)) ∧
    ((destroyWhenOffScreenSystem w).comps x = none ∨
      (destroyWhenOffScreenSystem w).comps x = some c) ∧
    (c.destroyWhenOffScreenTag = false → (destroyWhenOffScreenSystem w).comps x = some c) ∧
    (∀ t, c.transform = some t →
      -50 ≤ t.position.x → t.position.x ≤ 850 → -50 ≤ t.position.y → t.position.y ≤ 500 →
      (destroyWhenOffScreenSystem w).comps x = some c) ∧
    (∀ w0 : gWorld, ∃ p, createPlayer w0 = { slots := w0.slots ++ [some p] } ∧
      p.destroyWhenOffScreenTag = false) := by
  obtain ⟨h1, h2⟩ := destroyWhenOffScreenSystem_iff w x c hc
  refine ⟨h1, h2, ?_, ?_, fun w0 => ⟨_, createPlayer_eq w0, rfl⟩⟩
  · intro htag
    rcases h2 with h | h
    · have := (h1.1 h).1
      rw [htag] at this
      exact absurd this (by simp)
    · exact h
  · intro t ht hx1 hx2 hy1 hy2
    rcases h2 with h | h
    · obtain ⟨_, t', ht', hpos⟩ := h1.1 h
      rw [ht] at ht'
      rw [← Option.some.inj ht'] at hpos
      rcases hpos with hp | hp | hp | hp
      · exact absurd hp (not_lt.2 hx1)
      · exact absurd hp (not_lt.2 hx2)
      · exact absurd hp (not_lt.2 hy1)
      · exact absurd hp (not_lt.2 hy2)
    · exact h

/-- Instance of C18: in `offScreenScene` the asteroid at `y = 501` is destroyed, the one
at `y = 500` and the untagged player at `x = 900` are kept. -/
theorem destroyWhenOffScreenSystem_destroys_iff_witness :
    (destroyWhenOffScreenSystem offScreenScene).comps (.mk 1) = none ∧
    (destroyWhenOffScreenSystem offScreenScene).comps (.mk 2) =
      some (sampleAsteroid ⟨400, 500⟩ 1) ∧
    (destroyWhenOffScreenSystem offScreenScene).comps (.mk 0) =
      some (samplePlayer ⟨900, 225⟩ 3 0) :=
  ⟨(destroyWhenOffScreenSystem_destroys_iff offScreenScene (.mk 1)
      (sampleAsteroid ⟨400, 501⟩ 1) rfl).1.2
      ⟨rfl, ⟨⟨400, 501⟩⟩, rfl, Or.inr (Or.inr (Or.inr (by norm_num)))⟩,
    (destroyWhenOffScreenSystem_destroys_iff offScreenScene (.mk 2)
      (sampleAsteroid ⟨400, 500⟩ 1) rfl).2.2.2.1 ⟨⟨400, 500⟩⟩ rfl (by norm_num) (by norm_num)
      (by norm_num) (by norm_num),
    (destroyWhenOffScreenSystem_destroys_iff offScreenScene (.mk 0)
      (samplePlayer ⟨900, 225⟩ 3 0) rfl).2.2.1 rfl⟩

/-- C19: "every entity with Health has `currentHealth ≤ maxHealth`" (`healthBounded`) is an
invariant of the simulation.  It is kept by `createPlayer` and `createEnemy`, whose new
entity satisfies it; by `applyDamage` for every amount `value ≥ 0`; by each of the twelve
systems of a Playing-state pass, hence by the whole pass; and it holds for the store of
every state the loop of `main` reaches.  Moreover through a pass no entity's
`currentHealth` rises and no entity's `maxHealth` changes. -/
theorem health_never_exceeds_max :
    (∀ w : gWorld, w.healthBounded = true → (createPlayer w).healthBounded = true) ∧
    (∀ (w : gWorld) (position : Vector2) (type : Int) (w' : gWorld),
      createEnemy w position type = some w' → w.healthBounded = true →
      w'.healthBounded = true) ∧
    (∀ (w : gWorld) (e : gEntity) (value : Int) (src : gEntity) (check : Bool) (w' : gWorld),
      0 ≤ value → applyDamage w e value src check = some w' → w.healthBounded = true →
      w'.healthBounded = true) ∧
    (∀ (env : Env) (w : gWorld), w.healthBounded = true →
      (readInputSystem env w).healthBounded = true ∧
      (applyInputSystem w).healthBounded = true ∧
      (moveSystem env w).healthBounded = true ∧
      (shootSystem env w).healthBounded = true ∧
      (invulnerabilitySystem env w).healthBounded = true ∧
      (∀ k r, enemySpawnSystem env w k = some r → r.1.healthBounded = true) ∧
      (simpleCollisionDetectionSystem w).healthBounded = true ∧
      (∀ w', handleCollisionEvents w = some w' → w'.healthBounded = true) ∧
      (∀ w', addScoreSystem w = some w' → w'.healthBounded = true) ∧
      (destroyWhenOffScreenSystem w).healthBounded = true ∧
      (destroyDeathEntities w).healthBounded = true ∧
      (cleanCollideEventSystem w).healthBounded = true) ∧
    (∀ (env : Env) (w : gWorld) (k : Nat) (w' : gWorld) (k' : Nat) (st : Int),
      processPlayingGameState env w k = some (w', k', st) → w.healthBounded = true →
      w'.healthBounded = true) ∧
    (∀ s : MainState, Reachable s → ∀ w, s.world = some w → w.healthBounded = true) ∧
    (∀ (env : Env) (w : gWorld) (k : Nat) (w' : gWorld) (k' : Nat) (st : Int),
      processPlayingGameState env w k = some (w', k', st) →
      ∀ (x : gEntity) (c c' : Components), w.comps x = some c → w'.comps x = some c' →
      ∀ hh : healthComp, c.health = some hh →
      ∃ hh', c'.health = some hh' ∧ hh'.currentHealth ≤ hh.currentHealth ∧
        hh'.maxHealth = hh.maxHealth) :=
  ⟨createPlayer_healthBounded, createEnemy_healthBounded, applyDamage_healthBounded,
    fun env w hw =>
      ⟨(readInputSystem_steps healthOps_early env w).healthBounded hw,
        (applyInputSystem_steps healthOps_early w).healthBounded hw,
        (moveSystem_steps healthOps_early env w).healthBounded hw,
        (shootSystem_steps healthOps_early env w).healthBounded hw,
        (invulnerabilitySystem_steps healthOps_early env w).healthBounded hw,
        fun k r hr => (enemySpawnSystem_steps healthOps_early env w k r hr).healthBounded hw,
        (simpleCollisionDetectionSystem_steps healthOps_late w).healthBounded hw,
        fun w' hr => (handleCollisionEvents_steps healthOps_late w w' hr).healthBounded hw,
        fun w' hr => (addScoreSystem_steps healthOps_late w w' hr).healthBounded hw,
        (destroyWhenOffScreenSystem_steps w).healthBounded hw,
        (destroyDeathEntities_steps w).healthBounded hw,
        (cleanCollideEventSystem_steps w).healthBounded hw⟩,
    playingSystems_healthBounded, reachable_healthBounded,
    fun env w k w' k' st h x c c' hc hc' hh hhc =>
      playingSystems_health_le env w k w' k' st h x c c' hc hc' hh hhc⟩

/-- Instance of C19: the pass over `pendingHits 0`, in which the player is hit, returns a
store within the bound. -/
theorem health_never_exceeds_max_witness :
    ∃ w' k' st, processPlayingGameState idleFrame (pendingHits 0) 0 = some (w', k', st) ∧
      w'.healthBounded = true := by
  cases h : processPlayingGameState idleFrame (pendingHits 0) 0 with
  | none => exact absurd h (by decide!)
  | some r =>
    obtain ⟨w', k', st⟩ := r
    exact ⟨w', k', st, rfl,
      health_never_exceeds_max.2.2.2.2.1 idleFrame (pendingHits 0) 0 w' k' st h (by decide)⟩

/-- C20: contact with the Player never damages an enemy.  Let `e` be an Enemy (no
Invulnerability component, not a bullet) and `p` an entity with Health and an
Invulnerability component that is neither a bullet nor an enemy (the Player).  Handling
the CollideEvent `(e1 = e, e2 = p)` returns and leaves the record of `e`, hence its health
and LastDamageSource, unchanged whatever the invulnerability time of `p` is, and changes
no entity other than `p`; `p` keeps its record when its time is `> 0` and is hit once
(1 health, time set to 3) otherwise.  The reversed event `(e1 = p, e2 = e)` matches no
damage rule and changes nothing.  Hence in a store without stale events in which the
only overlap is the one between `e` and `p`, after collision detection and damage
resolution every entity other than `p` has its old record, and `p` has lost exactly 1
health when its time was `≤ 0` and none otherwise. -/
theorem enemy_unharmed_by_player (w : gWorld) (e p : gEntity)
    (ce cp : Components) (h : healthComp) (inv : invulnerabilityComp)
    (hce : w.comps e = some ce) (hen : ce.enemy.isSome = true) (hbe : ce.bullet = none)
    (hie : ce.invulnerability = none)
    (hcp : w.comps p = some cp) (hh : cp.health = some h)
    (hi : cp.invulnerability = some inv) (hbp : cp.bullet = none) (hep : cp.enemy = none) :
    (∃ w', handleCollisionEvent w { e1 := e, e2 := p } = some w' ∧
      w'.comps e = some ce ∧
      (∀ x, x ≠ p → w'.comps x = w.comps x) ∧
      ((inv.time > 0 ∧ w'.comps p = some cp) ∨
        (inv.time ≤ 0 ∧ w'.comps p = some (cp.hit h 1 e)))) ∧
    handleCollisionEvent w { e1 := p, e2 := e } = some w ∧
    (w.query [.collideEventComp] = [] → w.overlap e p = true →
      (∀ a b, a ≠ b → w.overlap a b = true → (a = e ∧ b = p) ∨ (a = p ∧ b = e)) →
      ∃ w', handleCollisionEvents (simpleCollisionDetectionSystem w) = some w' ∧
        w'.comps e = some ce ∧
        (∀ x c, w.comps x = some c → x ≠ p → w'.comps x = some c) ∧
        ((inv.time > 0 ∧ w'.comps p = some cp) ∨
          (inv.time ≤ 0 ∧ w'.comps p = some (cp.hit h 1 e) ∧
            (cp.hit h 1 e).health =
              some { currentHealth := h.currentHealth - 1, maxHealth := h.maxHealth } ∧
            (cp.hit h 1 e).invulnerability = some { time := 3 }))) := by
  have hne : e ≠ p := by
    rintro rfl
    rw [hce] at hcp
    rw [Option.some.inj hcp, hi] at hie
    exact absurd hie (by simp)
  refine ⟨?_, ?_, ?_⟩
  · obtain ⟨w', hr, ho, hp⟩ := handleCollisionEvent_enemy_on_player w e p ce cp h inv
      hce hen hbe hie hcp hh hi
    exact ⟨w', hr, (ho e hne).trans hce, ho, hp⟩
  · exact handleCollisionEvent_no_rule w _
      (by simp [gWorldHasComponent, hcp, Components.has, hbp])
      (by simp [gWorldHasComponent, hcp, Components.has, hep])
  · intro hstale hov honly
    obtain ⟨w', hr, h1, h2, h3⟩ := collide_enemy_player w e p ce cp h inv hce hen hbe hie hcp hh
      hi hbp hep hstale hov honly
    refine ⟨w', hr, h1, h2, ?_⟩
    rcases h3 with h3 | ⟨h3, h4⟩
    · exact Or.inl h3
    · exact Or.inr ⟨h3, h4, rfl, by simp [Components.hit, hi, invulnerabilityTime]⟩

/-- Instance of C20: in `playerAndAsteroid 0` the asteroid touches a player whose window
is not running; after collision detection and damage resolution the asteroid still has
its record and the player has 2 health and a window of 3 s. -/
theorem enemy_unharmed_by_player_witness :
    ∃ w', handleCollisionEvents (simpleCollisionDetectionSystem (playerAndAsteroid 0)) =
        some w' ∧
      w'.comps (.mk 1) = some (sampleAsteroid ⟨400, 200⟩ 1) ∧
      (w'.comps (.mk 0)).bind (fun c => c.health) =
        some { currentHealth := 3 - 1, maxHealth := 3 } ∧
      (w'.comps (.mk 0)).bind (fun c => c.invulnerability) = some { time := 3 } := by
  have hq : (playerAndAsteroid 0).query [.transformComp, .circleColliderComp] =
      [.mk 0, .mk 1] := by decide
  obtain ⟨w', hr, h1, _, h3⟩ := (enemy_unharmed_by_player (playerAndAsteroid 0) (.mk 1) (.mk 0)
    (sampleAsteroid ⟨400, 200⟩ 1) (samplePlayer ⟨400, 225⟩ 3 0) ⟨3, 3⟩ ⟨0⟩
    rfl rfl rfl rfl rfl rfl rfl rfl rfl).2.2 (by decide) (by decide!)
    (by
      intro a b hab hov
      obtain ⟨ha, hb⟩ := (playerAndAsteroid 0).mem_query_of_overlap a b hov
      rw [hq] at ha hb
      simp only [List.mem_cons, List.mem_singleton, List.not_mem_nil, or_false] at ha hb
      rcases ha with rfl | rfl <;> rcases hb with rfl | rfl
      · exact absurd rfl hab
      · exact Or.inr ⟨rfl, rfl⟩
      · exact Or.inl ⟨rfl, rfl⟩
      · exact absurd rfl hab)
  rcases h3 with ⟨h3, _⟩ | ⟨_, h4, h5, h6⟩
  · exact absurd h3 (by norm_num)
  · exact ⟨w', hr, h1, by rw [h4]; exact h5, by rw [h4]; exact h6⟩

/-- C21: an enemy is never despawned by off-screen cleanup in the frame it is spawned.
Every record `enemySpawnSystem` adds to the store is an enemy at `y = -45` and
`x = 100 * lane + 50` with `0 ≤ lane ≤ 7`, and such a position fails the off-screen test
on all four sides (`x < -50`, `x > 850`, `y < -50`, `y > 500`).  The systems that run
between spawning and off-screen cleanup (Collision Detection, Damage Resolution,
Scoring) leave the transform of every entity as it was.  Hence in every finished
Playing-state pass each entity created by the spawn system is still in the store, at its
spawn position, when off-screen cleanup runs, and off-screen cleanup keeps it. -/
theorem spawned_enemy_not_despawned :
    (∀ c : Components, c.spawnedEnemy →
      c.offScreen = false ∧ ∃ t, c.transform = some t ∧
        ¬ (t.position.x < -50 ∨ t.position.x > 850 ∨
          t.position.y < -50 ∨ t.position.y > 500)) ∧
    (∀ (env : Env) (w : gWorld) (k : Nat) (r : gWorld × Nat),
      enemySpawnSystem env w k = some r →
      ∀ i, w.slots.length ≤ i → i < r.1.slots.length →
        ∃ c, r.1.comps (.mk i) = some c ∧ c.spawnedEnemy) ∧
    (∀ (w : gWorld) (x : gEntity) (c c' : Components), w.comps x = some c →
      ((simpleCollisionDetectionSystem w).comps x = some c' → c'.transform = c.transform) ∧
      (∀ w', handleCollisionEvents w = some w' → w'.comps x = some c' →
        c'.transform = c.transform) ∧
      (∀ w', addScoreSystem w = some w' → w'.comps x = some c' →
        c'.transform = c.transform)) ∧
    (∀ (env : Env) (w : gWorld) (k : Nat) (r : gWorld × Nat),
      playingSystems env w k = some r →
      ∃ w6 k1 w8 w9,
        enemySpawnSystem env (invulnerabilitySystem env (shootSystem env (moveSystem env
          (applyInputSystem (readInputSystem env w))))) k = some (w6, k1) ∧
        handleCollisionEvents (simpleCollisionDetectionSystem w6) = some w8 ∧
        addScoreSystem w8 = some w9 ∧
        r = (cleanCollideEventSystem (destroyDeathEntities (destroyWhenOffScreenSystem w9)),
          k1) ∧
        ∀ i, (invulnerabilitySystem env (shootSystem env (moveSystem env
            (applyInputSystem (readInputSystem env w))))).slots.length ≤ i →
          i < w6.slots.length →
          ∃ c6 c9, w6.comps (.mk i) = some c6 ∧ c6.spawnedEnemy ∧
            w9.comps (.mk i) = some c9 ∧ c9.transform = c6.transform ∧
            (destroyWhenOffScreenSystem w9).comps (.mk i) = some c9) := by
  refine ⟨?_, ?_, ?_, ?_⟩
  · intro c hc
    obtain ⟨h1, _, _, h2⟩ := Components.spawnedEnemy_onScreen c hc
    exact ⟨h1, h2⟩
  · intro env w k r hr
    exact (enemySpawnSystem_fresh env w k r hr).2.2
  · intro w x c c' hc
    refine ⟨fun h => ?_, fun w' hr h => ?_, fun w' hr h => ?_⟩
    · exact (simpleCollisionDetectionSystem_steps transformOps_late w).transform_eq x c c' hc h
    · exact (handleCollisionEvents_steps transformOps_late w w' hr).transform_eq x c c' hc h
    · exact (addScoreSystem_steps transformOps_late w w' hr).transform_eq x c c' hc h
  · intro env w k r hr
    obtain ⟨w6, k1, w8, w9, h6, h8, h9, hres⟩ := playingSystems_eq_some env w k r hr
    exact ⟨w6, k1, w8, w9, h6, h8, h9, hres, fun i h1 h2 =>
      spawned_survives_offscreen env _ k w6 k1 w8 w9 h6 h8 h9 i h1 h2⟩

/-- Instance of C21: a lone spawner with wave size 2 whose threshold 0 is reached spawns
two enemies in slots 1 and 2; both are on screen. -/
theorem spawned_enemy_not_despawned_witness :
    ∃ r, enemySpawnSystem idleFrame (spawnerOnly ⟨0, 0, 2⟩) 0 = some r ∧
      r.1.slots.length = 3 ∧
      (∃ c, r.1.comps (.mk 1) = some c ∧ c.spawnedEnemy ∧ c.offScreen = false) ∧
      (∃ c, r.1.comps (.mk 2) = some c ∧ c.spawnedEnemy ∧ c.offScreen = false) := by
  cases h : enemySpawnSystem idleFrame (spawnerOnly ⟨0, 0, 2⟩) 0 with
  | none => exact absurd h (by decide!)
  | some r =>
    have hlen : r.1.slots.length = 3 := by
      have h2 : (enemySpawnSystem idleFrame (spawnerOnly ⟨0, 0, 2⟩) 0).map
          (fun r => r.1.slots.length) = some 3 := by decide!
      rw [h] at h2
      exact Option.some.inj h2
    obtain ⟨c1, hc1, hs1⟩ := spawned_enemy_not_despawned.2.1 idleFrame (spawnerOnly ⟨0, 0, 2⟩) 0 r
      h 1 (by decide) (by rw [hlen]; decide)
    obtain ⟨c2, hc2, hs2⟩ := spawned_enemy_not_despawned.2.1 idleFrame (spawnerOnly ⟨0, 0, 2⟩) 0 r
      h 2 (by decide) (by rw [hlen]; decide)
    exact ⟨r, rfl, hlen, ⟨c1, hc1, hs1, (spawned_enemy_not_despawned.1 c1 hs1).1⟩,
      ⟨c2, hc2, hs2, (spawned_enemy_not_despawned.1 c2 hs2).1⟩⟩

end ScrollShooter
